import Mathlib

/-!
# Bomberman server: a shallow embedding of `server.js`

The game state of `server.js` (the globals `grid`, `players`, `bombs`,
`explosions`, `gameOver`, `roundWinner`, `scores`) becomes one record that
every function takes and returns.  What the server sends with `io.emit` and the
timers it arms with `setTimeout` are appended to the field `out`.

* Coordinates of players and their speed are exact rationals; `Math.round` is
  `jsRound`.  Cell coordinates are integers, timestamps are natural numbers.
* `Math.random()` is a stream `rnd : Nat → ℚ`; the field `draws` counts the
  draws consumed so far, so the next draw is `rnd s.draws`.
* `players` is a JavaScript object keyed by connection id; it is a list of
  player records in key (insertion) order, each carrying its key in `id`.
* `Date.now()` is read once by `update` (`now`) and once by every call of
  `explode`; `update` takes the readings of the `explode` calls as a function
  of the index of the exploding bomb, and `tick` is the step in which all the
  readings of one call agree.
-/

namespace Bomberman

/-! ## Constants -/

abbrev COLS : Nat := 15
abbrev ROWS : Nat := 13
abbrev BOMB_TIMER : Nat := 3000
abbrev EXPLOSION_DURATION : Nat := 500

abbrev EMPTY : Nat := 0
abbrev WALL : Nat := 1
abbrev BRICK : Nat := 2
abbrev POWERUP_BOMB : Nat := 3
abbrev POWERUP_FIRE : Nat := 4
abbrev POWERUP_SPEED : Nat := 5

/-! ## Data model -/

/-- The matrix `grid`: `grid[y][x]` is a cell code. -/
abbrev Grid := List (List Nat)

/-- The read `grid[y]?.[x]`; `none` is JavaScript's `undefined`. -/
def cellAt (g : Grid) (x y : Int) : Option Nat :=
  if 0 ≤ x ∧ 0 ≤ y then (g[y.toNat]?).bind (fun row => row[x.toNat]?) else none

/-- The write `grid[y][x] = v`, only ever done on a cell that was just read. -/
def setCell (g : Grid) (x y : Int) (v : Nat) : Grid :=
  if 0 ≤ x ∧ 0 ≤ y then
    match g[y.toNat]? with
    | some row => g.set y.toNat (row.set x.toNat v)
    | none => g
  else g

/-- A grid of `ROWS` rows of `COLS` cells. -/
def Grid.WF (g : Grid) : Prop :=
  g.length = ROWS ∧ ∀ row ∈ g, row.length = COLS

/-- The input message of a client; a missing field is `false`. -/
structure Input where
  up : Bool
  down : Bool
  left : Bool
  right : Bool
  bomb : Bool
  deriving DecidableEq, Repr

/-- The object made by `createPlayer`, with the `input` the socket handler stores. -/
structure Player where
  id : Nat
  num : Nat
  x : ℚ
  y : ℚ
  targetX : Int
  targetY : Int
  dir : Nat
  color : String
  maxBombs : Nat
  activeBombs : Int
  fireRadius : Nat
  speed : ℚ
  alive : Bool
  moving : Bool
  bombKeyDown : Bool
  input : Option Input
  deriving DecidableEq, Repr

/-- An entry of `bombs`. -/
structure Bomb where
  x : Int
  y : Int
  owner : Nat
  radius : Nat
  timer : Nat
  planted : Nat
  deriving DecidableEq, Repr

/-- The three shapes of object that `explode` pushes on `explosions`. -/
inductive BlastKind where
  | center
  | brick
  | arm (dir : Nat) (isEnd : Bool)
  deriving DecidableEq, Repr

/-- An entry of `explosions`. -/
structure Explosion where
  x : Int
  y : Int
  endTime : Nat
  kind : BlastKind
  deriving DecidableEq, Repr

/-- The three powerup names sent with the `powerup` message. -/
inductive PowerupName where
  | bomb
  | fire
  | speed
  deriving DecidableEq, Repr

/-- What the server sends or arms: the `io.emit` messages and the restart timer. -/
inductive Event where
  | gameStart
  | playerDied (id : Nat) (num : Nat)
  | roundEnd (winner : Nat) (p1 : Nat) (p2 : Nat)
  | powerup (type : PowerupName) (player : Nat)
  | restartTimer (delay : Nat)
  | state
  deriving DecidableEq, Repr

/-- The object `scores`. -/
structure Scores where
  p1 : Nat
  p2 : Nat
  deriving DecidableEq, Repr

/-- The globals of `server.js`. -/
structure State where
  grid : Grid
  players : List Player
  bombs : List Bomb
  explosions : List Explosion
  gameOver : Bool
  roundWinner : Option Nat
  scores : Scores
  draws : Nat
  out : List Event
  deriving DecidableEq, Repr

/-- `Math.round` on an exact rational: halves go up. -/
def jsRound (q : ℚ) : Int := ⌊q + 1 / 2⌋

/-- `Math.sign` on an exact rational. -/
def jsSign (q : ℚ) : ℚ := if 0 < q then 1 else if q < 0 then -1 else 0

/-! ## `initGrid` -/

/-- The body of the inner loop of `initGrid` at `(x, y)`: the cell written and
the number of random draws consumed after it, `k` being the number before. -/
def initCell (rnd : Nat → ℚ) (x y k : Nat) : Nat × Nat :=
  if x = 0 ∨ x = COLS - 1 ∨ y = 0 ∨ y = ROWS - 1 then (WALL, k)
  else if x % 2 = 0 ∧ y % 2 = 0 then (WALL, k)
  else if (x ≤ 2 ∧ y ≤ 2) ∨ (x ≥ COLS - 3 ∧ y ≤ 2) ∨
      (x ≤ 2 ∧ y ≥ ROWS - 3) ∨ (x ≥ COLS - 3 ∧ y ≥ ROWS - 3) then (EMPTY, k)
  else if rnd k < 7 / 10 then (BRICK, k + 1)
  else (EMPTY, k + 1)

/-- The inner loop of `initGrid` after `n` iterations (`x = 0 .. n-1`). -/
def initRow (rnd : Nat → ℚ) (y : Nat) : Nat → Nat → List Nat × Nat
  | 0, k => ([], k)
  | n + 1, k =>
    let r := initRow rnd y n k
    let c := initCell rnd n y r.2
    (r.1 ++ [c.1], c.2)

/-- The outer loop of `initGrid` after `m` iterations (`y = 0 .. m-1`). -/
def initRows (rnd : Nat → ℚ) : Nat → Nat → Grid × Nat
  | 0, k => ([], k)
  | m + 1, k =>
    let g := initRows rnd m k
    let r := initRow rnd m COLS g.2
    (g.1 ++ [r.1], r.2)

/-- The function `initGrid`: the fresh grid and the draw counter after it. -/
def initGrid (rnd : Nat → ℚ) (k : Nat) : Grid × Nat :=
  initRows rnd ROWS k

/-! ## `createPlayer`, `startGame` and the input handler -/

/-- The function `createPlayer(id, num)`.  `positions[num - 1]` is defined for
`num` 1 and 2 only; for any other `num` reading `pos.x` throws (`none`). -/
def createPlayer (id num : Nat) : Option Player :=
  let mk (px py : Int) : Player :=
    { id := id, num := num, x := px, y := py, targetX := px, targetY := py,
      dir := if num = 1 then 2 else 0,
      color := if num = 1 then "#3498db" else "#e74c3c",
      maxBombs := 1, activeBombs := 0, fireRadius := 2, speed := 12 / 100,
      alive := true, moving := false, bombKeyDown := false, input := none }
  if num = 1 then some (mk 1 1)
  else if num = 2 then some (mk (COLS - 2) (ROWS - 2))
  else none

/-- The loop `for (let id in players) players[id] = createPlayer(id, num++)`. -/
def recreatePlayers : List Player → Nat → Option (List Player)
  | [], _ => some []
  | p :: ps, num =>
    match createPlayer p.id num, recreatePlayers ps (num + 1) with
    | some q, some qs => some (q :: qs)
    | _, _ => none

/-- The function `startGame`; `none` when `createPlayer` throws. -/
def startGame (rnd : Nat → ℚ) (s : State) : Option State :=
  let g := initGrid rnd s.draws
  match recreatePlayers s.players 1 with
  | some ps =>
    some { grid := g.1, players := ps, bombs := [], explosions := [],
           gameOver := false, roundWinner := none, scores := s.scores,
           draws := g.2, out := s.out ++ [Event.gameStart] }
  | none => none

/-- The callback armed by `setTimeout` at the end of a round. -/
def restartCallback (rnd : Nat → ℚ) (s : State) : Option State :=
  if s.players.length ≥ 2 then startGame rnd s else some s

/-- The socket handler of `input`: the message is stored for a registered,
alive player while the round is not over, and dropped otherwise. -/
def onInput (id : Nat) (input : Option Input) (s : State) : State :=
  if s.gameOver then s
  else { s with players := s.players.map (fun p =>
          if p.id = id ∧ p.alive = true then { p with input := input } else p) }

/-! ## `canMoveTo` -/

/-- The function `canMoveTo(x, y)`. -/
def canMoveTo (g : Grid) (bombs : List Bomb) (x y : Int) : Bool :=
  if x < 0 ∨ x ≥ COLS ∨ y < 0 ∨ y ≥ ROWS then false
  else if cellAt g x y = some WALL ∨ cellAt g x y = some BRICK then false
  else if bombs.any (fun b => decide (b.x = x ∧ b.y = y)) then false
  else true

/-! ## `update`: the player loop -/

/-- The chain `if (p.input.up) ... else if (p.input.right) ...`: the
candidate target and the facing after it. -/
def steer (inp : Input) (tx ty : Int) (dir : Nat) : Int × Int × Nat :=
  if inp.up then (tx, ty - 1, 0)
  else if inp.down then (tx, ty + 1, 2)
  else if inp.left then (tx - 1, ty, 3)
  else if inp.right then (tx + 1, ty, 1)
  else (tx, ty, dir)

/-- The movement block of the player loop of `update`. -/
def movePlayer (g : Grid) (bombs : List Bomb) (inp : Input) (p : Player) : Player :=
  let dx : ℚ := (p.targetX : ℚ) - p.x
  let dy : ℚ := (p.targetY : ℚ) - p.y
  if |dx| > 1 / 100 then
    { p with x := p.x + jsSign dx * min p.speed |dx|, moving := true }
  else if |dy| > 1 / 100 then
    { p with y := p.y + jsSign dy * min p.speed |dy|, moving := true }
  else
    let st := steer inp p.targetX p.targetY p.dir
    let p1 : Player :=
      { p with x := p.targetX, y := p.targetY, moving := false, dir := st.2.2 }
    if canMoveTo g bombs st.1 st.2.1 then
      { p1 with targetX := st.1, targetY := st.2.1 }
    else p1

/-- The bomb block of the player loop of `update`. -/
def placeBomb (now : Nat) (inp : Input) (p : Player) (bombs : List Bomb) :
    Player × List Bomb :=
  if inp.bomb then
    if p.bombKeyDown = false ∧ p.activeBombs < p.maxBombs then
      let bx := jsRound p.x
      let bY := jsRound p.y
      if bombs.any (fun b => decide (b.x = bx ∧ b.y = bY)) = false then
        ({ p with activeBombs := p.activeBombs + 1, bombKeyDown := true },
         bombs ++ [{ x := bx, y := bY, owner := p.id, radius := p.fireRadius,
                     timer := now + BOMB_TIMER, planted := now }])
      else ({ p with bombKeyDown := true }, bombs)
    else ({ p with bombKeyDown := true }, bombs)
  else ({ p with bombKeyDown := false }, bombs)

/-- One iteration of the player loop of `update`. -/
def updatePlayer (now : Nat) (g : Grid) (p : Player) (bombs : List Bomb) :
    Player × List Bomb :=
  match p.input with
  | none => (p, bombs)
  | some inp =>
    if p.alive = false then (p, bombs)
    else placeBomb now inp (movePlayer g bombs inp p) bombs

/-- The player loop of `update`, in key order. -/
def updatePlayers (now : Nat) (g : Grid) : List Player → List Bomb →
    List Player × List Bomb
  | [], bombs => ([], bombs)
  | p :: ps, bombs =>
    let r := updatePlayer now g p bombs
    let rs := updatePlayers now g ps r.2
    (r.1 :: rs.1, rs.2)

/-- The state after the player loop of `update`. -/
def playersPhase (now : Nat) (s : State) : State :=
  let r := updatePlayers now s.grid s.players s.bombs
  { s with players := r.1, bombs := r.2 }

/-! ## `explode` and `checkPowerups` -/

/-- The statements `chainBomb = bombs.find(...)` and `chainBomb.timer = now`:
the first bomb on the cell gets the deadline `now`. -/
def chainIgnite (now : Nat) (x y : Int) : List Bomb → List Bomb
  | [] => []
  | b :: bs =>
    if b.x = x ∧ b.y = y then { b with timer := now } :: bs
    else b :: chainIgnite now x y bs

/-- The brick branch of `explode` on the cell `(nx, ny)`. -/
def destroyBrick (rnd : Nat → ℚ) (endTime : Nat) (nx ny : Int) (s : State) : State :=
  let g := setCell s.grid nx ny EMPTY
  let ex := s.explosions ++ [{ x := nx, y := ny, endTime := endTime, kind := BlastKind.brick }]
  if rnd s.draws < 25 / 100 then
    let roll := rnd (s.draws + 1)
    let pw := if roll < 45 / 100 then POWERUP_BOMB
              else if roll < 8 / 10 then POWERUP_FIRE
              else POWERUP_SPEED
    { s with grid := setCell g nx ny pw, explosions := ex, draws := s.draws + 2 }
  else { s with grid := g, explosions := ex, draws := s.draws + 1 }

/-- The loop `for (let i = 1; i <= bomb.radius; i++)` of one arm of `explode`,
with `n` iterations left and the loop variable at `i`. -/
def armLoop (rnd : Nat → ℚ) (now : Nat) (bomb : Bomb) (dx dy : Int) (dirIdx : Nat) :
    Nat → Nat → State → State
  | 0, _, s => s
  | n + 1, i, s =>
    let nx := bomb.x + dx * i
    let ny := bomb.y + dy * i
    if nx < 0 ∨ nx ≥ COLS ∨ ny < 0 ∨ ny ≥ ROWS then s
    else
      let cell := cellAt s.grid nx ny
      if cell = some WALL then s
      else if cell = some BRICK then
        destroyBrick rnd (now + EXPLOSION_DURATION) nx ny s
      else
        let g := if cell = some POWERUP_BOMB ∨ cell = some POWERUP_FIRE ∨
                    cell = some POWERUP_SPEED then setCell s.grid nx ny EMPTY
                 else s.grid
        armLoop rnd now bomb dx dy dirIdx n (i + 1)
          { s with
            grid := g
            bombs := chainIgnite now nx ny s.bombs
            explosions := s.explosions ++
              [{ x := nx, y := ny, endTime := now + EXPLOSION_DURATION,
                 kind := BlastKind.arm dirIdx (decide (i = bomb.radius)) }] }

/-- The array `dirs` of `explode`. -/
def dirs : List (Int × Int) := [(0, -1), (1, 0), (0, 1), (-1, 0)]

/-- One arm of `explode`: the loop from `i = 1` with `bomb.radius` iterations. -/
def arm (rnd : Nat → ℚ) (now : Nat) (bomb : Bomb) (s : State) (d : Nat × Int × Int) :
    State :=
  armLoop rnd now bomb d.2.1 d.2.2 d.1 bomb.radius 1 s

/-- The body of the pickup loop for one player on the grid `g`. -/
def pickup (g : Grid) (p : Player) : Player × Grid × List Event :=
  if p.alive = false then (p, g, [])
  else
    let px := jsRound p.x
    let py := jsRound p.y
    let cell := cellAt g px py
    if cell = some POWERUP_BOMB ∧ p.maxBombs < 5 then
      ({ p with maxBombs := p.maxBombs + 1 }, setCell g px py EMPTY,
       [Event.powerup PowerupName.bomb p.num])
    else if cell = some POWERUP_FIRE ∧ p.fireRadius < 6 then
      ({ p with fireRadius := p.fireRadius + 1 }, setCell g px py EMPTY,
       [Event.powerup PowerupName.fire p.num])
    else if cell = some POWERUP_SPEED ∧ p.speed < 18 / 100 then
      ({ p with speed := p.speed + 15 / 1000 }, setCell g px py EMPTY,
       [Event.powerup PowerupName.speed p.num])
    else (p, g, [])

/-- The pickup loop over `players`, in key order. -/
def pickupLoop : List Player → Grid → List Player × Grid × List Event
  | [], g => ([], g, [])
  | p :: ps, g =>
    let r := pickup g p
    let rs := pickupLoop ps r.2.1
    (r.1 :: rs.1, rs.2.1, r.2.2 ++ rs.2.2)

/-- The function `checkPowerups`; the last loop of `explode` is the same text. -/
def checkPowerups (s : State) : State :=
  let r := pickupLoop s.players s.grid
  { s with players := r.1, grid := r.2.1, out := s.out ++ r.2.2 }

/-- The function `explode(bomb)`, `now` being its own reading of `Date.now()`. -/
def explode (rnd : Nat → ℚ) (now : Nat) (bomb : Bomb) (s : State) : State :=
  let s1 : State :=
    { s with explosions := s.explosions ++
        [{ x := bomb.x, y := bomb.y, endTime := now + EXPLOSION_DURATION,
           kind := BlastKind.center }] }
  checkPowerups (dirs.enum.foldl (arm rnd now bomb) s1)

/-! ## `update`: bombs, explosions, deaths, the end of the round -/

/-- The callback of `bombs.forEach` at index `idx`: the state and `explodedBombs`. -/
def visitBomb (rnd : Nat → ℚ) (now : Nat) (clock : Nat → Nat) (idx : Nat)
    (acc : State × List Nat) : State × List Nat :=
  match acc.1.bombs[idx]? with
  | none => acc
  | some bomb =>
    if now ≥ bomb.timer then (explode rnd (clock idx) bomb acc.1, acc.2 ++ [idx])
    else acc

/-- The scan `bombs.forEach` after the first `k` indices. -/
def scanBombs (rnd : Nat → ℚ) (now : Nat) (clock : Nat → Nat) :
    Nat → State → State × List Nat
  | 0, s => (s, [])
  | k + 1, s => visitBomb rnd now clock k (scanBombs rnd now clock k s)

/-- The callback of the removal loop at index `idx`. -/
def removeBomb (s : State) (idx : Nat) : State :=
  match s.bombs[idx]? with
  | none => s
  | some bomb =>
    { s with
      players := s.players.map (fun p =>
        if p.id = bomb.owner then { p with activeBombs := p.activeBombs - 1 } else p)
      bombs := s.bombs.eraseIdx idx }

/-- The removal loop `explodedBombs.sort((a, b) => b - a).forEach(...)`. -/
def removeExploded (s : State) (explodedBombs : List Nat) : State :=
  (explodedBombs.insertionSort (fun a b => b ≤ a)).foldl removeBomb s

/-- The statement `explosions = explosions.filter(e => now < e.endTime)`. -/
def filterExplosions (now : Nat) (s : State) : State :=
  { s with explosions := s.explosions.filter (fun e => decide (now < e.endTime)) }

/-- The test `explosions.some(e => e.x === px && e.y === py)` for a player. -/
def inBlast (ex : List Explosion) (p : Player) : Bool :=
  ex.any (fun e => decide (e.x = jsRound p.x ∧ e.y = jsRound p.y))

/-- The collision loop of `update` over `players`, in key order. -/
def deathLoop (ex : List Explosion) : List Player → List Player × List Event
  | [] => ([], [])
  | p :: ps =>
    let r := deathLoop ex ps
    if p.alive = true ∧ inBlast ex p = true then
      ({ p with alive := false } :: r.1, Event.playerDied p.id p.num :: r.2)
    else (p :: r.1, r.2)

/-- The state after the collision loop of `update`. -/
def deathCheck (s : State) : State :=
  let r := deathLoop s.explosions s.players
  { s with players := r.1, out := s.out ++ r.2 }

/-- The win-condition block of `update`. -/
def winCheck (s : State) : State :=
  let alivePlayers := s.players.filter (fun p => p.alive)
  if alivePlayers.length ≤ 1 ∧ s.players.length = 2 then
    match alivePlayers with
    | [w] =>
      let sc : Scores :=
        if w.num = 1 then { s.scores with p1 := s.scores.p1 + 1 }
        else { s.scores with p2 := s.scores.p2 + 1 }
      { s with gameOver := true, roundWinner := some w.num, scores := sc,
               out := s.out ++ [Event.roundEnd w.num sc.p1 sc.p2, Event.restartTimer 3000] }
    | _ =>
      { s with gameOver := true, roundWinner := some 0,
               out := s.out ++ [Event.roundEnd 0 s.scores.p1 s.scores.p2,
                                Event.restartTimer 3000] }
  else s

/-- The function `broadcast`. -/
def broadcast (s : State) : State :=
  let s1 := checkPowerups s
  { s1 with out := s1.out ++ [Event.state] }

/-- The expiry scan of the step `update rnd now clock s`, run to its end: the
state it leaves and the array `explodedBombs`. -/
def updateScan (rnd : Nat → ℚ) (now : Nat) (clock : Nat → Nat) (s : State) :
    State × List Nat :=
  scanBombs rnd now clock (playersPhase now s).bombs.length (playersPhase now s)

/-- The state of `update` when the collision loop starts. -/
def preDeath (rnd : Nat → ℚ) (now : Nat) (clock : Nat → Nat) (s : State) : State :=
  let s1 := playersPhase now s
  let sc := scanBombs rnd now clock s1.bombs.length s1
  filterExplosions now (removeExploded sc.1 sc.2)

/-- The function `update`. -/
def update (rnd : Nat → ℚ) (now : Nat) (clock : Nat → Nat) (s : State) : State :=
  broadcast (winCheck (deathCheck (preDeath rnd now clock s)))

/-- The step `update` in which every `explode` call reads the same `Date.now()`
as `update` itself. -/
def tick (rnd : Nat → ℚ) (now : Nat) (s : State) : State :=
  update rnd now (fun _ => now) s

/-! ## Vocabulary of the statements -/

/-- The cell `(bomb.x + dx * i, bomb.y + dy * i)` that step `i` of the arm of
direction `d = (dx, dy)` looks at. -/
def armCell (bomb : Bomb) (d : Int × Int) (i : Nat) : Int × Int :=
  (bomb.x + d.1 * i, bomb.y + d.2 * i)

/-- The bounds test of `explode` and `canMoveTo`, passed. -/
def inGrid (c : Int × Int) : Prop :=
  0 ≤ c.1 ∧ c.1 < COLS ∧ 0 ≤ c.2 ∧ c.2 < ROWS

instance inGrid.decidable (c : Int × Int) : Decidable (inGrid c) :=
  inferInstanceAs (Decidable (0 ≤ c.1 ∧ c.1 < COLS ∧ 0 ≤ c.2 ∧ c.2 < ROWS))

/-- Step `j` of an arm lets the blast through on the grid `g`: its cell is in
the grid and is neither `WALL` nor `BRICK`. -/
def armOpen (g : Grid) (bomb : Bomb) (d : Int × Int) (j : Nat) : Prop :=
  inGrid (armCell bomb d j) ∧
  cellAt g (armCell bomb d j).1 (armCell bomb d j).2 ≠ some WALL ∧
  cellAt g (armCell bomb d j).1 (armCell bomb d j).2 ≠ some BRICK

/-- Step `j` of an arm is hit when the arm gets there: its cell is in the grid
and is not `WALL`. -/
def armHit (g : Grid) (bomb : Bomb) (d : Int × Int) (j : Nat) : Prop :=
  inGrid (armCell bomb d j) ∧
  cellAt g (armCell bomb d j).1 (armCell bomb d j).2 ≠ some WALL

/-- The fields of a player that only the player loop of `update` writes. -/
def Player.pose (p : Player) :
    Nat × Nat × ℚ × ℚ × Int × Int × Nat × String × Bool × Bool × Option Input :=
  (p.id, p.num, p.x, p.y, p.targetX, p.targetY, p.dir, p.color, p.moving,
   p.bombKeyDown, p.input)

/-- The message is a `powerup` message. -/
def Event.isPowerup : Event → Bool
  | Event.powerup _ _ => true
  | _ => false

/-- The message is a `roundEnd` message. -/
def Event.isRoundEnd : Event → Bool
  | Event.roundEnd _ _ _ => true
  | _ => false

/-- The event is the arming of the restart timer. -/
def Event.isRestartTimer : Event → Bool
  | Event.restartTimer _ => true
  | _ => false

/-- What the bomb and explosion code of `update` leaves alone between two
states: the round outcome, the scores, the pose and the alive flag of every
player; and it sends `powerup` messages only. -/
structure Frame (s t : State) : Prop where
  scores : t.scores = s.scores
  gameOver : t.gameOver = s.gameOver
  roundWinner : t.roundWinner = s.roundWinner
  pose : t.players.map Player.pose = s.players.map Player.pose
  alive : t.players.map (fun p => p.alive) = s.players.map (fun p => p.alive)
  out : ∃ P, t.out = s.out ++ P ∧ ∀ e ∈ P, Event.isPowerup e = true

/-- The message is the `playerDied` message of the player with key `id`. -/
def Event.isDeathOf (id : Nat) : Event → Bool
  | Event.playerDied i _ => decide (i = id)
  | _ => false

/-- What happens to the state during a round: a client sends an input
message, or the interval timer calls `update`. -/
inductive Action where
  | input (id : Nat) (msg : Option Input)
  | update (now : Nat) (clock : Nat → Nat)

/-- The effect of one action. -/
def act (rnd : Nat → ℚ) : Action → State → State
  | Action.input id msg, s => onInput id msg s
  | Action.update now clock, s => update rnd now clock s

/-- The effect of a sequence of actions, first to last. -/
def run (rnd : Nat → ℚ) : List Action → State → State
  | [], s => s
  | a :: rest, s => run rnd rest (act rnd a s)

/-- The number of alive players registered under the key `id`. -/
def aliveCount (id : Nat) (ps : List Player) : Nat :=
  ps.countP (fun p => decide (p.id = id ∧ p.alive = true))

/-- The test `p.input && p.input.bomb` on the stored input of a player. -/
def bombFlag (p : Player) : Bool :=
  match p.input with
  | some inp => inp.bomb
  | none => false

/-- The bombs that the player loop of the update step at `now` adds to the
registry: the entries after those that were there. -/
def placedInStep (now : Nat) (s : State) : List Bomb :=
  (playersPhase now s).bombs.drop s.bombs.length

/-- Along the run, at every update step, every player under the key `id` has
a stored input whose bomb flag is true. -/
def bombHeld (rnd : Nat → ℚ) (id : Nat) : List Action → State → Prop
  | [], _ => True
  | Action.input i msg :: rest, s => bombHeld rnd id rest (onInput i msg s)
  | Action.update now clock :: rest, s =>
    (∀ p ∈ s.players, p.id = id → bombFlag p = true) ∧
    bombHeld rnd id rest (update rnd now clock s)

/-- The bombs that the player loops of the update steps of the run add for
the owner `id`, in order. -/
def placedBy (rnd : Nat → ℚ) (id : Nat) : List Action → State → List Bomb
  | [], _ => []
  | Action.input i msg :: rest, s => placedBy rnd id rest (onInput i msg s)
  | Action.update now clock :: rest, s =>
    (placedInStep now s).filter (fun b => decide (b.owner = id)) ++
      placedBy rnd id rest (update rnd now clock s)

/-- The player loop may place a bomb for the player: alive, latch clear, a
stored input with the bomb flag. -/
def canPlace (p : Player) : Bool :=
  p.alive && !p.bombKeyDown && bombFlag p

/-- The fields of a bomb that are never rewritten once it is planted. -/
def Bomb.core (b : Bomb) : Int × Int × Nat × Nat × Nat :=
  (b.x, b.y, b.owner, b.radius, b.planted)

/-- The key and the bomb count of a player. -/
def Player.idActive (p : Player) : Nat × Int := (p.id, p.activeBombs)

/-- The list `l` without its entries at the indices in `idxs`, the index of
the first entry being `k`. -/
def dropIdxsFrom {α : Type} (k : Nat) (idxs : List Nat) (l : List α) : List α :=
  ((l.enumFrom k).filter (fun ib => decide (ib.1 ∉ idxs))).map Prod.snd

/-- The number of bombs of `bs` whose owner is `id`. -/
def ownedBy (id : Nat) (bs : List Bomb) : Nat :=
  bs.countP (fun b => decide (b.owner = id))

/-- The blast cell is a directional cell of the arm with index `k`. -/
def Explosion.onArm (k : Nat) (e : Explosion) : Bool :=
  match e.kind with
  | BlastKind.arm d _ => decide (d = k)
  | _ => false

/-- A state of a running round: reached from a state made by `startGame`
through input messages and update steps. -/
def Reachable (rnd : Nat → ℚ) (s : State) : Prop :=
  ∃ (s0 s1 : State) (acts : List Action), startGame rnd s0 = some s1 ∧ s = run rnd acts s1

/-- The cell read at `(x, y)` is neither `WALL` nor `BRICK`. -/
def freeCell (g : Grid) (x y : Int) : Prop :=
  cellAt g x y ≠ some WALL ∧ cellAt g x y ≠ some BRICK

/-- The player stands exactly on a cell and its target is that cell or one of
its four neighbours. -/
def Player.onCell (p : Player) : Prop :=
  ∃ cx cy : Int, p.x = cx ∧ p.y = cy ∧
    ((p.targetX = cx ∧ p.targetY = cy) ∨
     (p.targetX = cx ∧ (p.targetY = cy - 1 ∨ p.targetY = cy + 1)) ∨
     (p.targetY = cy ∧ (p.targetX = cx - 1 ∨ p.targetX = cx + 1)))

/-- The abilities of the player are within their caps, the speed being the
initial one raised by a whole number of increments. -/
def Player.abilOK (p : Player) : Prop :=
  1 ≤ p.maxBombs ∧ p.maxBombs ≤ 5 ∧ 2 ≤ p.fireRadius ∧ p.fireRadius ≤ 6 ∧
  ∃ k : Nat, k ≤ 4 ∧ p.speed = 12 / 100 + (k : ℚ) * (15 / 1000)

/-! ## Concrete states -/

/-- The stream of draws that is constantly `0`: `initGrid` makes a brick of
every cell it draws for. -/
def rndZero : Nat → ℚ := fun _ => 0

/-- The grid `initGrid` makes from `rndZero`. -/
def brickGrid : Grid := (initGrid rndZero 0).1

/-- A bomb of player 7 on the spawn cell `(1, 1)`, radius 2, due at 4000. -/
def bombA : Bomb :=
  { x := 1, y := 1, owner := 7, radius := 2, timer := 4000, planted := 1000 }

/-- A bomb of player 9 on the cell `(2, 1)` next to `bombA`, due at 6000. -/
def bombB : Bomb :=
  { x := 2, y := 1, owner := 9, radius := 2, timer := 6000, planted := 3000 }

/-- A player as `createPlayer` makes it, placed on the cell `(cx, cy)`. -/
def playerAt (id num : Nat) (cx cy : Int) : Player :=
  { id := id, num := num, x := cx, y := cy, targetX := cx, targetY := cy,
    dir := if num = 1 then 2 else 0,
    color := if num = 1 then "#3498db" else "#e74c3c",
    maxBombs := 1, activeBombs := 0, fireRadius := 2, speed := 12 / 100,
    alive := true, moving := false, bombKeyDown := false, input := none }

/-- A round on `brickGrid` with players 7 and 9 on their spawn cells and the
bomb `bombA` planted. -/
def roundA : State :=
  { grid := brickGrid,
    players := [{ playerAt 7 1 1 1 with activeBombs := 1 }, playerAt 9 2 13 11],
    bombs := [bombA], explosions := [], gameOver := false, roundWinner := none,
    scores := { p1 := 0, p2 := 0 }, draws := 0, out := [Event.gameStart] }

/-- The round `roundA` with player 9 standing on `(2, 1)`, next to the bomb. -/
def roundD : State :=
  { roundA with
    players := [{ playerAt 7 1 1 1 with activeBombs := 1 }, playerAt 9 2 2 1] }

/-- The round `roundD` with a second bomb, `bombB`, planted after `bombA`: each
player stands on the bomb it planted. -/
def roundAB : State :=
  { roundD with
    players := [{ playerAt 7 1 1 1 with activeBombs := 1 },
                { playerAt 9 2 2 1 with activeBombs := 1 }],
    bombs := [bombA, bombB] }

/-- The round `roundAB` with the two bombs in the other order in `bombs`. -/
def roundBA : State :=
  { roundAB with bombs := [bombB, bombA] }

/-- A fresh round on `brickGrid` in which player 7 holds the bomb key down. -/
def roundHold : State :=
  { roundA with
    players := [{ playerAt 7 1 1 1 with input := some ⟨false, false, false, false, true⟩ },
                playerAt 9 2 13 11],
    bombs := [] }

/-- Player 7 half way between the cells `(1, 1)` and `(2, 1)`, its stored
input asking to go right. -/
def walker : Player :=
  { playerAt 7 1 1 1 with
    x := 3 / 2, targetX := 2, moving := true,
    input := some ⟨false, false, false, true, false⟩ }

/-- A round in which player 7 walks from `(1, 1)` to `(2, 1)`. -/
def roundWalk : State :=
  { roundA with players := [walker, playerAt 9 2 13 11], bombs := [] }

/-- The round `roundWalk` after player 7 was killed on its way. -/
def roundDead : State :=
  { roundA with
    players := [{ walker with alive := false }, playerAt 9 2 13 11], bombs := [] }

/-- Player 7 on its spawn cell, its stored input asking to go right. -/
def steerer : Player :=
  { playerAt 7 1 1 1 with input := some ⟨false, false, false, true, false⟩ }

/-- A fresh round on `brickGrid` in which player 7 asks to go right. -/
def roundSteer : State :=
  { roundA with players := [steerer, playerAt 9 2 13 11], bombs := [] }

/-- The state before the first round: players 7 and 9 connected, no grid yet. -/
def lobby : State :=
  { grid := [], players := [playerAt 7 1 1 1, playerAt 9 2 13 11], bombs := [],
    explosions := [], gameOver := false, roundWinner := none,
    scores := { p1 := 0, p2 := 0 }, draws := 0, out := [] }

/-- The round `startGame` makes from `lobby` with the draws `rndZero`. -/
def round0 : State :=
  { grid := brickGrid, players := [playerAt 7 1 1 1, playerAt 9 2 13 11], bombs := [],
    explosions := [], gameOver := false, roundWinner := none,
    scores := { p1 := 0, p2 := 0 }, draws := (initGrid rndZero 0).2,
    out := [Event.gameStart] }

/-- The round `round0` after player 7 asked to go right and one update step. -/
def round1 : State :=
  run rndZero [Action.input 7 (some ⟨false, false, false, true, false⟩),
    Action.update 1000 (fun _ => 1000)] round0


/-- The grid `brickGrid` with a bomb powerup on the spawn cell `(1, 1)`. -/
def bonusGrid : Grid := setCell brickGrid 1 1 POWERUP_BOMB

/-- A round on `brickGrid` in which players 7 and 9 both stand on the cell
`(1, 1)` and both ask for a bomb. -/
def roundTwin : State :=
  { roundA with
    players := [{ playerAt 7 1 1 1 with input := some ⟨false, false, false, false, true⟩ },
                { playerAt 9 2 1 1 with input := some ⟨false, false, false, false, true⟩ }],
    bombs := [] }

/-- The round `round0` after player 7 has asked for a bomb and one update step
at time 1000. -/
def round2 : State :=
  run rndZero [Action.input 7 (some ⟨false, false, false, false, true⟩),
    Action.update 1000 (fun _ => 1000)] round0

/-! ## Theorems -/

/-! ### Reading and writing the grid -/

theorem cellAt_setCell_ne (g : Grid) (x y x1 y1 : Int) (v : Nat)
    (h : x1 ≠ x ∨ y1 ≠ y) : cellAt (setCell g x y v) x1 y1 = cellAt g x1 y1 := by
  unfold setCell
  split
  · rename_i h0
    split
    · rename_i row hrow
      unfold cellAt
      split
      · rename_i h1
        by_cases hy : y1.toNat = y.toNat
        · have hyy : y1 = y := by omega
          have hx : x1.toNat ≠ x.toNat := by
            rcases h with h | h
            · omega
            · exact absurd hyy h
          rw [hy, hrow]
          have hlt : y.toNat < g.length := by
            rcases Nat.lt_or_ge y.toNat g.length with hl | hl
            · exact hl
            · rw [List.getElem?_eq_none hl] at hrow; cases hrow
          rw [List.getElem?_set_self hlt]
          simp only [Option.some_bind]
          rw [List.getElem?_set_ne (Ne.symm hx)]
        · rw [List.getElem?_set_ne (Ne.symm hy)]
      · rfl
    · rfl
  · rfl

theorem cellAt_setCell_eq (g : Grid) (x y : Int) (v c : Nat)
    (h : cellAt g x y = some c) : cellAt (setCell g x y v) x y = some v := by
  unfold cellAt at h
  split at h
  · rename_i h0
    unfold setCell cellAt
    rw [if_pos h0]
    cases hrow : g[y.toNat]? with
    | none => rw [hrow] at h; cases h
    | some row =>
      rw [hrow] at h
      simp only [Option.some_bind] at h
      have hlt : y.toNat < g.length := by
        rcases Nat.lt_or_ge y.toNat g.length with hl | hl
        · exact hl
        · rw [List.getElem?_eq_none hl] at hrow; cases hrow
      have hxl : x.toNat < row.length := by
        rcases Nat.lt_or_ge x.toNat row.length with hl | hl
        · exact hl
        · rw [List.getElem?_eq_none hl] at h; cases h
      simp only [if_pos h0]
      rw [List.getElem?_set_self hlt]
      simp only [Option.some_bind]
      rw [List.getElem?_set_self hxl]
  · cases h

theorem setCell_wf (g : Grid) (x y : Int) (v : Nat) (hg : Grid.WF g) :
    Grid.WF (setCell g x y v) := by
  unfold setCell
  split
  · split
    · rename_i row hrow
      refine ⟨by rw [List.length_set]; exact hg.1, ?_⟩
      intro r hr
      rcases List.mem_or_eq_of_mem_set hr with h | h
      · exact hg.2 r h
      · rw [h, List.length_set]
        exact hg.2 row (List.getElem?_mem hrow)
    · exact hg
  · exact hg

/-- Every cell inside the bounds of a well-formed grid exists. -/
theorem wf_cellAt_isSome (g : Grid) (hg : Grid.WF g) (x y : Int)
    (hx0 : 0 ≤ x) (hx : x < COLS) (hy0 : 0 ≤ y) (hy : y < ROWS) :
    ∃ c, cellAt g x y = some c := by
  have hyl : y.toNat < g.length := by rw [hg.1]; omega
  have hrow : (g[y.toNat]).length = COLS := hg.2 _ (List.getElem_mem hyl)
  have hxl : x.toNat < (g[y.toNat]).length := by rw [hrow]; omega
  refine ⟨(g[y.toNat])[x.toNat], ?_⟩
  unfold cellAt
  rw [if_pos ⟨hx0, hy0⟩, List.getElem?_eq_getElem hyl]
  simp only [Option.some_bind]
  exact List.getElem?_eq_getElem hxl

/-! ### Grid generation -/

theorem initRow_length (rnd : Nat → ℚ) (y n k : Nat) :
    (initRow rnd y n k).1.length = n := by
  induction n with
  | zero => rfl
  | succ n ih => simp [initRow, ih]

theorem initRow_getElem? (rnd : Nat → ℚ) (y n k x : Nat) (hx : x < n) :
    (initRow rnd y n k).1[x]? = some (initCell rnd x y (initRow rnd y x k).2).1 := by
  induction n with
  | zero => omega
  | succ n ih =>
    simp only [initRow]
    by_cases h : x < n
    · rw [List.getElem?_append_left (by rw [initRow_length]; exact h)]
      exact ih h
    · have hxn : x = n := by omega
      subst hxn
      rw [List.getElem?_append_right (by rw [initRow_length])]
      simp [initRow_length]

theorem initRows_length (rnd : Nat → ℚ) (m k : Nat) :
    (initRows rnd m k).1.length = m := by
  induction m with
  | zero => rfl
  | succ m ih => simp [initRows, ih]

theorem initRows_getElem? (rnd : Nat → ℚ) (m k y : Nat) (hy : y < m) :
    (initRows rnd m k).1[y]? = some (initRow rnd y COLS (initRows rnd y k).2).1 := by
  induction m with
  | zero => omega
  | succ m ih =>
    simp only [initRows]
    by_cases h : y < m
    · rw [List.getElem?_append_left (by rw [initRows_length]; exact h)]
      exact ih h
    · have hym : y = m := by omega
      subst hym
      rw [List.getElem?_append_right (by rw [initRows_length])]
      simp [initRows_length]

theorem initRows_row_length (rnd : Nat → ℚ) (m k : Nat) :
    ∀ row ∈ (initRows rnd m k).1, row.length = COLS := by
  induction m with
  | zero => intro row h; simp [initRows] at h
  | succ m ih =>
    intro row h
    simp only [initRows, List.mem_append, List.mem_singleton] at h
    rcases h with h | h
    · exact ih row h
    · rw [h, initRow_length]

theorem initGrid_wf (rnd : Nat → ℚ) (k : Nat) : Grid.WF (initGrid rnd k).1 :=
  ⟨initRows_length rnd ROWS k, initRows_row_length rnd ROWS k⟩

/-- Every cell of a fresh grid is the one `initCell` writes, for some draw count. -/
theorem initGrid_cellAt (rnd : Nat → ℚ) (k x y : Nat) (hx : x < COLS) (hy : y < ROWS) :
    ∃ j, cellAt (initGrid rnd k).1 (x : Int) (y : Int) = some (initCell rnd x y j).1 := by
  refine ⟨(initRow rnd y x (initRows rnd y k).2).2, ?_⟩
  have h0 : (0 : Int) ≤ (x : Int) ∧ (0 : Int) ≤ (y : Int) := ⟨by omega, by omega⟩
  simp only [cellAt, h0, and_self, if_true, Int.toNat_ofNat, initGrid]
  rw [initRows_getElem? rnd ROWS k y hy]
  simp only [Option.some_bind]
  exact initRow_getElem? rnd y COLS _ x hx

/-! ### One arm of `explode` -/

theorem armCell_inj (bomb : Bomb) (d : Int × Int) (hd : d.1 ≠ 0 ∨ d.2 ≠ 0) (i j : Nat)
    (h : armCell bomb d i = armCell bomb d j) : i = j := by
  simp only [armCell, Prod.mk.injEq, add_right_inj] at h
  rcases hd with hd | hd
  · exact_mod_cast mul_left_cancel₀ hd h.1
  · exact_mod_cast mul_left_cancel₀ hd h.2

theorem destroyBrick_explosions (rnd : Nat → ℚ) (endTime : Nat) (nx ny : Int) (s : State) :
    (destroyBrick rnd endTime nx ny s).explosions =
      s.explosions ++ [{ x := nx, y := ny, endTime := endTime, kind := BlastKind.brick }] := by
  unfold destroyBrick
  split <;> rfl

theorem destroyBrick_grid_ne (rnd : Nat → ℚ) (endTime : Nat) (nx ny : Int) (s : State)
    (x y : Int) (h : x ≠ nx ∨ y ≠ ny) :
    cellAt (destroyBrick rnd endTime nx ny s).grid x y = cellAt s.grid x y := by
  unfold destroyBrick
  split
  · simp only
    rw [cellAt_setCell_ne _ _ _ _ _ _ h, cellAt_setCell_ne _ _ _ _ _ _ h]
  · simp only
    rw [cellAt_setCell_ne _ _ _ _ _ _ h]

theorem destroyBrick_wf (rnd : Nat → ℚ) (endTime : Nat) (nx ny : Int) (s : State)
    (hg : Grid.WF s.grid) : Grid.WF (destroyBrick rnd endTime nx ny s).grid := by
  unfold destroyBrick
  split
  · exact setCell_wf _ _ _ _ (setCell_wf _ _ _ _ hg)
  · exact setCell_wf _ _ _ _ hg

/-- One unfolding of the arm loop. -/
theorem armLoop_succ (rnd : Nat → ℚ) (now : Nat) (bomb : Bomb) (dx dy : Int)
    (dirIdx n i : Nat) (s : State) :
    armLoop rnd now bomb dx dy dirIdx (n + 1) i s =
      if bomb.x + dx * i < 0 ∨ bomb.x + dx * i ≥ COLS ∨
          bomb.y + dy * i < 0 ∨ bomb.y + dy * i ≥ ROWS then s
      else if cellAt s.grid (bomb.x + dx * i) (bomb.y + dy * i) = some WALL then s
      else if cellAt s.grid (bomb.x + dx * i) (bomb.y + dy * i) = some BRICK then
        destroyBrick rnd (now + EXPLOSION_DURATION) (bomb.x + dx * i) (bomb.y + dy * i) s
      else
        armLoop rnd now bomb dx dy dirIdx n (i + 1)
          { s with
            grid :=
              if cellAt s.grid (bomb.x + dx * i) (bomb.y + dy * i) = some POWERUP_BOMB ∨
                  cellAt s.grid (bomb.x + dx * i) (bomb.y + dy * i) = some POWERUP_FIRE ∨
                  cellAt s.grid (bomb.x + dx * i) (bomb.y + dy * i) = some POWERUP_SPEED
              then setCell s.grid (bomb.x + dx * i) (bomb.y + dy * i) EMPTY
              else s.grid
            bombs := chainIgnite now (bomb.x + dx * i) (bomb.y + dy * i) s.bombs
            explosions := s.explosions ++
              [{ x := bomb.x + dx * i, y := bomb.y + dy * i,
                 endTime := now + EXPLOSION_DURATION,
                 kind := BlastKind.arm dirIdx (decide (i = bomb.radius)) }] } := by
  rfl
/-- What one arm loop does, in terms of the grid it starts from: the blast
cells it appends, the steps it reaches, the cells it may touch. -/
theorem armLoop_spec (rnd : Nat → ℚ) (now : Nat) (bomb : Bomb) (d : Int × Int)
    (hd : d.1 ≠ 0 ∨ d.2 ≠ 0) (dirIdx : Nat) :
    ∀ (n i : Nat) (s : State),
      ∃ L, (armLoop rnd now bomb d.1 d.2 dirIdx n i s).explosions = s.explosions ++ L ∧
        (∀ e ∈ L, ∃ j, i ≤ j ∧ j < i + n ∧ (e.x, e.y) = armCell bomb d j) ∧
        (∀ j, i ≤ j → j < i + n →
          ((∃ e ∈ L, (e.x, e.y) = armCell bomb d j) ↔
            (armHit s.grid bomb d j ∧ ∀ m, i ≤ m → m < j → armOpen s.grid bomb d m))) ∧
        (∀ x y, (∀ j, i ≤ j → j < i + n → (x, y) ≠ armCell bomb d j) →
          cellAt (armLoop rnd now bomb d.1 d.2 dirIdx n i s).grid x y = cellAt s.grid x y) ∧
        (Grid.WF s.grid → Grid.WF (armLoop rnd now bomb d.1 d.2 dirIdx n i s).grid) := by
  intro n
  induction n with
  | zero =>
    intro i s
    refine ⟨[], by simp [armLoop], by simp, ?_, ?_, ?_⟩
    · intro j h1 h2; omega
    · intro x y _; rfl
    · intro h; exact h
  | succ n ih =>
    intro i s
    rw [armLoop_succ]
    by_cases hoob : bomb.x + d.1 * i < 0 ∨ bomb.x + d.1 * i ≥ COLS ∨
        bomb.y + d.2 * i < 0 ∨ bomb.y + d.2 * i ≥ ROWS
    · -- out of bounds: the arm stops, nothing is emitted
      rw [if_pos hoob]
      have hnot : ¬ inGrid (armCell bomb d i) := by
        simp only [inGrid, armCell]; omega
      refine ⟨[], by simp, by simp, ?_, ?_, ?_⟩
      · intro j h1 h2
        constructor
        · rintro ⟨e, he, _⟩; cases he
        · rintro ⟨hhit, hopen⟩
          exfalso
          rcases Nat.eq_or_lt_of_le h1 with h | h
          · subst h; exact hnot hhit.1
          · exact hnot (hopen i (le_refl i) h).1
      · intro x y _; rfl
      · intro h; exact h
    · rw [if_neg hoob]
      have hin : inGrid (armCell bomb d i) := by
        simp only [inGrid, armCell]; omega
      by_cases hwall : cellAt s.grid (bomb.x + d.1 * i) (bomb.y + d.2 * i) = some WALL
      · -- wall: the arm stops, nothing is emitted
        rw [if_pos hwall]
        refine ⟨[], by simp, by simp, ?_, ?_, ?_⟩
        · intro j h1 h2
          constructor
          · rintro ⟨e, he, _⟩; cases he
          · rintro ⟨hhit, hopen⟩
            exfalso
            rcases Nat.eq_or_lt_of_le h1 with h | h
            · subst h; exact hhit.2 hwall
            · exact (hopen i (le_refl i) h).2.1 hwall
        · intro x y _; rfl
        · intro h; exact h
      · rw [if_neg hwall]
        by_cases hbrick : cellAt s.grid (bomb.x + d.1 * i) (bomb.y + d.2 * i) = some BRICK
        · -- brick: one cell is emitted and the arm stops
          rw [if_pos hbrick]
          refine ⟨[{ x := bomb.x + d.1 * i, y := bomb.y + d.2 * i,
                     endTime := now + EXPLOSION_DURATION, kind := BlastKind.brick }],
                  destroyBrick_explosions _ _ _ _ _, ?_, ?_, ?_, ?_⟩
          · intro e he
            rw [List.mem_singleton] at he
            subst he
            exact ⟨i, le_refl i, by omega, rfl⟩
          · intro j h1 h2
            constructor
            · rintro ⟨e, he, hpos⟩
              rw [List.mem_singleton] at he
              subst he
              have hij : i = j := armCell_inj bomb d hd i j hpos
              subst hij
              exact ⟨⟨hin, hwall⟩, fun m hm1 hm2 => by omega⟩
            · rintro ⟨hhit, hopen⟩
              rcases Nat.eq_or_lt_of_le h1 with h | h
              · subst h
                exact ⟨_, List.mem_singleton.mpr rfl, rfl⟩
              · exact absurd hbrick (hopen i (le_refl i) h).2.2
          · intro x y hxy
            apply destroyBrick_grid_ne
            have h := hxy i (le_refl i) (by omega)
            simp only [armCell, ne_eq, Prod.mk.injEq, not_and_or] at h
            exact h
          · intro h; exact destroyBrick_wf _ _ _ _ _ h
        · -- anything else: one cell is emitted and the arm goes on
          rw [if_neg hbrick]
          obtain ⟨L, hL, hpos, hiff, hgrid, hwf⟩ := ih (i + 1)
            { s with
              grid :=
                if cellAt s.grid (bomb.x + d.1 * i) (bomb.y + d.2 * i) = some POWERUP_BOMB ∨
                    cellAt s.grid (bomb.x + d.1 * i) (bomb.y + d.2 * i) = some POWERUP_FIRE ∨
                    cellAt s.grid (bomb.x + d.1 * i) (bomb.y + d.2 * i) = some POWERUP_SPEED
                then setCell s.grid (bomb.x + d.1 * i) (bomb.y + d.2 * i) EMPTY
                else s.grid
              bombs := chainIgnite now (bomb.x + d.1 * i) (bomb.y + d.2 * i) s.bombs
              explosions := s.explosions ++
                [{ x := bomb.x + d.1 * i, y := bomb.y + d.2 * i,
                   endTime := now + EXPLOSION_DURATION,
                   kind := BlastKind.arm dirIdx (decide (i = bomb.radius)) }] }
          -- the grid after step `i` agrees with the one before, off the cell of step `i`
          have hg1 : ∀ x y, (x, y) ≠ armCell bomb d i →
              cellAt (if cellAt s.grid (bomb.x + d.1 * i) (bomb.y + d.2 * i) = some POWERUP_BOMB ∨
                    cellAt s.grid (bomb.x + d.1 * i) (bomb.y + d.2 * i) = some POWERUP_FIRE ∨
                    cellAt s.grid (bomb.x + d.1 * i) (bomb.y + d.2 * i) = some POWERUP_SPEED
                then setCell s.grid (bomb.x + d.1 * i) (bomb.y + d.2 * i) EMPTY
                else s.grid) x y = cellAt s.grid x y := by
            intro x y hxy
            split
            · apply cellAt_setCell_ne
              simp only [armCell, ne_eq, Prod.mk.injEq, not_and_or] at hxy
              exact hxy
            · rfl
          have hcell : ∀ m, i + 1 ≤ m →
              cellAt (if cellAt s.grid (bomb.x + d.1 * i) (bomb.y + d.2 * i) = some POWERUP_BOMB ∨
                    cellAt s.grid (bomb.x + d.1 * i) (bomb.y + d.2 * i) = some POWERUP_FIRE ∨
                    cellAt s.grid (bomb.x + d.1 * i) (bomb.y + d.2 * i) = some POWERUP_SPEED
                then setCell s.grid (bomb.x + d.1 * i) (bomb.y + d.2 * i) EMPTY
                else s.grid) (armCell bomb d m).1 (armCell bomb d m).2 =
              cellAt s.grid (armCell bomb d m).1 (armCell bomb d m).2 := by
            intro m hm
            apply hg1
            intro h
            have := armCell_inj bomb d hd m i h
            omega
          refine ⟨{ x := bomb.x + d.1 * i, y := bomb.y + d.2 * i,
                    endTime := now + EXPLOSION_DURATION,
                    kind := BlastKind.arm dirIdx (decide (i = bomb.radius)) } :: L, ?_, ?_, ?_, ?_, ?_⟩
          · rw [hL]; simp
          · intro e he
            rcases List.mem_cons.mp he with h | h
            · subst h; exact ⟨i, le_refl i, by omega, rfl⟩
            · obtain ⟨j, h1, h2, h3⟩ := hpos e h
              exact ⟨j, by omega, by omega, h3⟩
          · intro j h1 h2
            rcases Nat.eq_or_lt_of_le h1 with h | h
            · subst h
              constructor
              · intro _
                exact ⟨⟨hin, hwall⟩, fun m hm1 hm2 => by omega⟩
              · intro _
                exact ⟨_, List.mem_cons_self _ _, rfl⟩
            · have hI := hiff j h (by omega)
              constructor
              · rintro ⟨e, he, hp⟩
                rcases List.mem_cons.mp he with h' | h'
                · subst h'
                  have := armCell_inj bomb d hd i j hp
                  omega
                · obtain ⟨hhit, hopen⟩ := hI.mp ⟨e, h', hp⟩
                  refine ⟨?_, ?_⟩
                  · unfold armHit at hhit ⊢
                    simp only at hhit
                    rw [hcell j h] at hhit
                    exact hhit
                  · intro m hm1 hm2
                    rcases Nat.eq_or_lt_of_le hm1 with hm | hm
                    · subst hm
                      exact ⟨hin, hwall, hbrick⟩
                    · have ho := hopen m hm hm2
                      unfold armOpen at ho ⊢
                      simp only at ho
                      rw [hcell m hm] at ho
                      exact ho
              · rintro ⟨hhit, hopen⟩
                have : ∃ e ∈ L, (e.x, e.y) = armCell bomb d j := by
                  apply hI.mpr
                  refine ⟨?_, ?_⟩
                  · unfold armHit at hhit ⊢
                    simp only
                    rw [hcell j h]
                    exact hhit
                  · intro m hm1 hm2
                    have ho := hopen m (by omega) hm2
                    unfold armOpen at ho ⊢
                    simp only
                    rw [hcell m hm1]
                    exact ho
                obtain ⟨e, he, hp⟩ := this
                exact ⟨e, List.mem_cons_of_mem _ he, hp⟩
          · intro x y hxy
            rw [hgrid x y (fun j h1 h2 => hxy j (by omega) (by omega))]
            exact hg1 x y (hxy i (le_refl i) (by omega))
          · intro h
            apply hwf
            simp only
            split
            · exact setCell_wf _ _ _ _ h
            · exact h
theorem mem_dirs_ne_zero (d : Int × Int) (hd : d ∈ dirs) : d.1 ≠ 0 ∨ d.2 ≠ 0 := by
  simp only [dirs, List.mem_cons, List.mem_singleton, List.not_mem_nil, or_false] at hd
  rcases hd with h | h | h | h <;> subst h <;> decide

/-- Two different arms of one bomb share no cell. -/
theorem armCell_disjoint (bomb : Bomb) (d e : Int × Int) (hd : d ∈ dirs) (he : e ∈ dirs)
    (hne : d ≠ e) (i j : Nat) (hi : 1 ≤ i) (hj : 1 ≤ j) :
    armCell bomb d i ≠ armCell bomb e j := by
  simp only [dirs, List.mem_cons, List.mem_singleton, List.not_mem_nil, or_false] at hd he
  intro h
  simp only [armCell, Prod.mk.injEq, add_right_inj] at h
  obtain ⟨h1, h2⟩ := h
  rcases hd with hd | hd | hd | hd <;> rcases he with he | he | he | he <;>
    subst hd <;> subst he <;> simp at hne <;> simp at h1 h2 <;> omega

/-- The centre of a bomb is on none of its arms. -/
theorem armCell_ne_center (bomb : Bomb) (d : Int × Int) (hd : d ∈ dirs) (i : Nat)
    (hi : 1 ≤ i) : (bomb.x, bomb.y) ≠ armCell bomb d i := by
  intro h
  have h0 : armCell bomb d 0 = armCell bomb d i := by
    rw [← h]; simp [armCell]
  have := armCell_inj bomb d (mem_dirs_ne_zero d hd) 0 i h0
  omega

/-- What a run of arms of different directions does, in terms of the grid it
starts from. -/
theorem arms_spec (rnd : Nat → ℚ) (now : Nat) (bomb : Bomb) :
    ∀ (ds : List (Nat × Int × Int)) (t : State),
      (∀ d ∈ ds, d.2 ∈ dirs) → (ds.map (fun d => d.2)).Nodup →
      ∃ L, (ds.foldl (arm rnd now bomb) t).explosions = t.explosions ++ L ∧
        (∀ e ∈ L, ∃ d ∈ ds, ∃ j, 1 ≤ j ∧ j ≤ bomb.radius ∧
          (e.x, e.y) = armCell bomb d.2 j) ∧
        (∀ d ∈ ds, ∀ j, 1 ≤ j → j ≤ bomb.radius →
          ((∃ e ∈ L, (e.x, e.y) = armCell bomb d.2 j) ↔
            (armHit t.grid bomb d.2 j ∧ ∀ m, 1 ≤ m → m < j → armOpen t.grid bomb d.2 m))) ∧
        (∀ x y, (∀ d ∈ ds, ∀ j, 1 ≤ j → j ≤ bomb.radius → (x, y) ≠ armCell bomb d.2 j) →
          cellAt (ds.foldl (arm rnd now bomb) t).grid x y = cellAt t.grid x y) ∧
        (Grid.WF t.grid → Grid.WF (ds.foldl (arm rnd now bomb) t).grid) := by
  intro ds
  induction ds with
  | nil =>
    intro t _ _
    refine ⟨[], by simp, by simp, ?_, ?_, ?_⟩
    · intro d hd; cases hd
    · intro x y _; rfl
    · intro h; exact h
  | cons d0 rest ih =>
    intro t hdirs hnd
    have hd0 : d0.2 ∈ dirs := hdirs d0 (List.mem_cons_self _ _)
    have hrest : ∀ d ∈ rest, d.2 ∈ dirs := fun d hd => hdirs d (List.mem_cons_of_mem _ hd)
    rw [List.map_cons, List.nodup_cons] at hnd
    have hne : ∀ d ∈ rest, d0.2 ≠ d.2 := by
      intro d hd h
      exact hnd.1 (h ▸ List.mem_map_of_mem (fun d => d.2) hd)
    obtain ⟨L0, hL0, hpos0, hiff0, hgrid0, hwf0⟩ :=
      armLoop_spec rnd now bomb d0.2 (mem_dirs_ne_zero _ hd0) d0.1 bomb.radius 1 t
    obtain ⟨L1, hL1, hpos1, hiff1, hgrid1, hwf1⟩ := ih (arm rnd now bomb t d0) hrest hnd.2
    -- the cells of the later arms are not touched by the first one
    have hcell : ∀ d ∈ rest, ∀ m, 1 ≤ m →
        cellAt (arm rnd now bomb t d0).grid (armCell bomb d.2 m).1 (armCell bomb d.2 m).2 =
          cellAt t.grid (armCell bomb d.2 m).1 (armCell bomb d.2 m).2 := by
      intro d hd m hm
      apply hgrid0
      intro j hj1 _
      exact armCell_disjoint bomb d.2 d0.2 (hrest d hd) hd0 (Ne.symm (hne d hd)) m j hm hj1
    refine ⟨L0 ++ L1, ?_, ?_, ?_, ?_, ?_⟩
    · rw [List.foldl_cons, hL1]
      show (armLoop rnd now bomb d0.2.1 d0.2.2 d0.1 bomb.radius 1 t).explosions ++ L1 = _
      rw [hL0, List.append_assoc]
    · intro e he
      rcases List.mem_append.mp he with h | h
      · obtain ⟨j, h1, h2, h3⟩ := hpos0 e h
        exact ⟨d0, List.mem_cons_self _ _, j, h1, by omega, h3⟩
      · obtain ⟨d, hd, j, h1, h2, h3⟩ := hpos1 e h
        exact ⟨d, List.mem_cons_of_mem _ hd, j, h1, h2, h3⟩
    · intro d hd j hj1 hj2
      rcases List.mem_cons.mp hd with h | h
      · subst h
        rw [← hiff0 j hj1 (by omega)]
        constructor
        · rintro ⟨e, he, hp⟩
          rcases List.mem_append.mp he with h | h
          · exact ⟨e, h, hp⟩
          · obtain ⟨d1, hd1, j1, h1, _, h3⟩ := hpos1 e h
            exact absurd (hp.symm.trans h3)
              (armCell_disjoint bomb d.2 d1.2 hd0 (hrest d1 hd1) (hne d1 hd1) j j1 hj1 h1)
        · rintro ⟨e, he, hp⟩
          exact ⟨e, List.mem_append_left _ he, hp⟩
      · have hI := hiff1 d h j hj1 hj2
        have hrw : (armHit (arm rnd now bomb t d0).grid bomb d.2 j ∧
              ∀ m, 1 ≤ m → m < j → armOpen (arm rnd now bomb t d0).grid bomb d.2 m) ↔
            (armHit t.grid bomb d.2 j ∧ ∀ m, 1 ≤ m → m < j → armOpen t.grid bomb d.2 m) := by
          unfold armHit armOpen
          rw [hcell d h j hj1]
          constructor
          · rintro ⟨h1, h2⟩
            refine ⟨h1, fun m hm1 hm2 => ?_⟩
            have := h2 m hm1 hm2
            rw [hcell d h m hm1] at this
            exact this
          · rintro ⟨h1, h2⟩
            refine ⟨h1, fun m hm1 hm2 => ?_⟩
            rw [hcell d h m hm1]
            exact h2 m hm1 hm2
        rw [← hrw, ← hI]
        constructor
        · rintro ⟨e, he, hp⟩
          rcases List.mem_append.mp he with h' | h'
          · obtain ⟨j0, h1, _, h3⟩ := hpos0 e h'
            exact absurd (hp.symm.trans h3)
              (armCell_disjoint bomb d.2 d0.2 (hrest d h) hd0 (Ne.symm (hne d h)) j j0 hj1 h1)
          · exact ⟨e, h', hp⟩
        · rintro ⟨e, he, hp⟩
          exact ⟨e, List.mem_append_right _ he, hp⟩
    · intro x y hxy
      rw [List.foldl_cons,
        hgrid1 x y (fun d hd j h1 h2 => hxy d (List.mem_cons_of_mem _ hd) j h1 h2)]
      exact hgrid0 x y (fun j h1 h2 => hxy d0 (List.mem_cons_self _ _) j h1 (by omega))
    · intro h
      rw [List.foldl_cons]
      exact hwf1 (hwf0 h)
/-! ### The pickup loop -/

theorem pickup_wf (g : Grid) (p : Player) (hg : Grid.WF g) : Grid.WF (pickup g p).2.1 := by
  unfold pickup
  dsimp only
  split_ifs <;> first | exact hg | exact setCell_wf _ _ _ _ hg

theorem pickupLoop_wf (ps : List Player) :
    ∀ g : Grid, Grid.WF g → Grid.WF (pickupLoop ps g).2.1 := by
  induction ps with
  | nil => intro g hg; exact hg
  | cons p ps ih =>
    intro g hg
    exact ih _ (pickup_wf g p hg)

theorem checkPowerups_explosions (s : State) :
    (checkPowerups s).explosions = s.explosions := rfl

theorem checkPowerups_bombs (s : State) : (checkPowerups s).bombs = s.bombs := rfl

theorem checkPowerups_wf (s : State) (hg : Grid.WF s.grid) :
    Grid.WF (checkPowerups s).grid :=
  pickupLoop_wf s.players s.grid hg

theorem dirs_enum :
    dirs.enum = [(0, ((0 : Int), (-1 : Int))), (1, (1, 0)), (2, (0, 1)), (3, (-1, 0))] := by
  rfl

/-! ### What the bomb and explosion code leaves alone -/

theorem Frame.refl (s : State) : Frame s s :=
  ⟨rfl, rfl, rfl, rfl, rfl, [], by simp, by simp⟩

theorem Frame.trans {s t u : State} (h1 : Frame s t) (h2 : Frame t u) : Frame s u := by
  obtain ⟨P, hP, hPp⟩ := h1.out
  obtain ⟨Q, hQ, hQp⟩ := h2.out
  refine ⟨h2.scores.trans h1.scores, h2.gameOver.trans h1.gameOver,
    h2.roundWinner.trans h1.roundWinner, h2.pose.trans h1.pose, h2.alive.trans h1.alive,
    P ++ Q, by rw [hQ, hP, List.append_assoc], ?_⟩
  intro e he
  rcases List.mem_append.mp he with h | h
  · exact hPp e h
  · exact hQp e h

theorem pickup_pose (g : Grid) (p : Player) : (pickup g p).1.pose = p.pose := by
  unfold pickup
  dsimp only
  split_ifs <;> rfl

theorem pickup_alive (g : Grid) (p : Player) : (pickup g p).1.alive = p.alive := by
  unfold pickup
  dsimp only
  split_ifs <;> rfl

theorem pickup_activeBombs (g : Grid) (p : Player) :
    (pickup g p).1.activeBombs = p.activeBombs := by
  unfold pickup
  dsimp only
  split_ifs <;> rfl

theorem pickup_events (g : Grid) (p : Player) :
    ∀ e ∈ (pickup g p).2.2, Event.isPowerup e = true := by
  unfold pickup
  dsimp only
  split_ifs <;> simp [Event.isPowerup]

theorem pickupLoop_pose (ps : List Player) :
    ∀ g : Grid, (pickupLoop ps g).1.map Player.pose = ps.map Player.pose := by
  induction ps with
  | nil => intro g; rfl
  | cons p ps ih =>
    intro g
    simp only [pickupLoop, List.map_cons, pickup_pose, ih]

theorem pickupLoop_alive (ps : List Player) :
    ∀ g : Grid, (pickupLoop ps g).1.map (fun p => p.alive) = ps.map (fun p => p.alive) := by
  induction ps with
  | nil => intro g; rfl
  | cons p ps ih =>
    intro g
    simp only [pickupLoop, List.map_cons, pickup_alive, ih]

theorem pickupLoop_activeBombs (ps : List Player) :
    ∀ g : Grid, (pickupLoop ps g).1.map (fun p => p.activeBombs) =
      ps.map (fun p => p.activeBombs) := by
  induction ps with
  | nil => intro g; rfl
  | cons p ps ih =>
    intro g
    simp only [pickupLoop, List.map_cons, pickup_activeBombs, ih]

theorem pickupLoop_events (ps : List Player) :
    ∀ g : Grid, ∀ e ∈ (pickupLoop ps g).2.2, Event.isPowerup e = true := by
  induction ps with
  | nil => intro g e he; cases he
  | cons p ps ih =>
    intro g e he
    simp only [pickupLoop, List.mem_append] at he
    rcases he with h | h
    · exact pickup_events g p e h
    · exact ih _ e h

theorem checkPowerups_frame (s : State) : Frame s (checkPowerups s) :=
  ⟨rfl, rfl, rfl, pickupLoop_pose _ _, pickupLoop_alive _ _,
   (pickupLoop s.players s.grid).2.2, rfl, pickupLoop_events _ _⟩

theorem Frame.of_fields {s t : State} (h1 : t.players = s.players) (h2 : t.scores = s.scores)
    (h3 : t.gameOver = s.gameOver) (h4 : t.roundWinner = s.roundWinner)
    (h5 : t.out = s.out) : Frame s t :=
  ⟨h2, h3, h4, by rw [h1], by rw [h1], [], by simp [h5], by simp⟩

theorem destroyBrick_fields (rnd : Nat → ℚ) (endTime : Nat) (nx ny : Int) (s : State) :
    (destroyBrick rnd endTime nx ny s).players = s.players ∧
    (destroyBrick rnd endTime nx ny s).scores = s.scores ∧
    (destroyBrick rnd endTime nx ny s).gameOver = s.gameOver ∧
    (destroyBrick rnd endTime nx ny s).roundWinner = s.roundWinner ∧
    (destroyBrick rnd endTime nx ny s).out = s.out := by
  unfold destroyBrick
  split <;> exact ⟨rfl, rfl, rfl, rfl, rfl⟩

theorem armLoop_fields (rnd : Nat → ℚ) (now : Nat) (bomb : Bomb) (dx dy : Int)
    (dirIdx : Nat) :
    ∀ (n i : Nat) (s : State),
      (armLoop rnd now bomb dx dy dirIdx n i s).players = s.players ∧
      (armLoop rnd now bomb dx dy dirIdx n i s).scores = s.scores ∧
      (armLoop rnd now bomb dx dy dirIdx n i s).gameOver = s.gameOver ∧
      (armLoop rnd now bomb dx dy dirIdx n i s).roundWinner = s.roundWinner ∧
      (armLoop rnd now bomb dx dy dirIdx n i s).out = s.out := by
  intro n
  induction n with
  | zero => intro i s; exact ⟨rfl, rfl, rfl, rfl, rfl⟩
  | succ n ih =>
    intro i s
    rw [armLoop_succ]
    split_ifs
    · exact ⟨rfl, rfl, rfl, rfl, rfl⟩
    · exact ⟨rfl, rfl, rfl, rfl, rfl⟩
    · exact destroyBrick_fields _ _ _ _ _
    · exact ih _ _
    · exact ih _ _

theorem arms_fields (rnd : Nat → ℚ) (now : Nat) (bomb : Bomb) (ds : List (Nat × Int × Int)) :
    ∀ s : State,
      (ds.foldl (arm rnd now bomb) s).players = s.players ∧
      (ds.foldl (arm rnd now bomb) s).scores = s.scores ∧
      (ds.foldl (arm rnd now bomb) s).gameOver = s.gameOver ∧
      (ds.foldl (arm rnd now bomb) s).roundWinner = s.roundWinner ∧
      (ds.foldl (arm rnd now bomb) s).out = s.out := by
  induction ds with
  | nil => intro s; exact ⟨rfl, rfl, rfl, rfl, rfl⟩
  | cons d ds ih =>
    intro s
    rw [List.foldl_cons]
    obtain ⟨a1, a2, a3, a4, a5⟩ := armLoop_fields rnd now bomb d.2.1 d.2.2 d.1 bomb.radius 1 s
    obtain ⟨b1, b2, b3, b4, b5⟩ := ih (arm rnd now bomb s d)
    exact ⟨b1.trans a1, b2.trans a2, b3.trans a3, b4.trans a4, b5.trans a5⟩

theorem explode_frame (rnd : Nat → ℚ) (now : Nat) (bomb : Bomb) (s : State) :
    Frame s (explode rnd now bomb s) := by
  obtain ⟨a1, a2, a3, a4, a5⟩ := arms_fields rnd now bomb dirs.enum
    { s with explosions := s.explosions ++
        [{ x := bomb.x, y := bomb.y, endTime := now + EXPLOSION_DURATION,
           kind := BlastKind.center }] }
  exact Frame.trans (Frame.of_fields a1 a2 a3 a4 a5) (checkPowerups_frame _)
theorem visitBomb_frame (rnd : Nat → ℚ) (now : Nat) (clock : Nat → Nat) (idx : Nat)
    (acc : State × List Nat) : Frame acc.1 (visitBomb rnd now clock idx acc).1 := by
  unfold visitBomb
  split
  · exact Frame.refl _
  · split
    · exact explode_frame _ _ _ _
    · exact Frame.refl _

theorem scanBombs_frame (rnd : Nat → ℚ) (now : Nat) (clock : Nat → Nat) (s : State) :
    ∀ k : Nat, Frame s (scanBombs rnd now clock k s).1 := by
  intro k
  induction k with
  | zero => exact Frame.refl s
  | succ k ih => exact Frame.trans ih (visitBomb_frame rnd now clock k _)

theorem removeBomb_frame (s : State) (idx : Nat) : Frame s (removeBomb s idx) := by
  unfold removeBomb
  split
  · exact Frame.refl s
  · refine ⟨rfl, rfl, rfl, ?_, ?_, [], by simp, by simp⟩
    · simp only [List.map_map]
      apply List.map_congr_left
      intro p _
      simp only [Function.comp]
      split <;> rfl
    · simp only [List.map_map]
      apply List.map_congr_left
      intro p _
      simp only [Function.comp]
      split <;> rfl

theorem foldl_removeBomb_frame (l : List Nat) :
    ∀ s : State, Frame s (l.foldl removeBomb s) := by
  induction l with
  | nil => intro s; exact Frame.refl s
  | cons a l ih =>
    intro s
    rw [List.foldl_cons]
    exact Frame.trans (removeBomb_frame s a) (ih _)

theorem removeExploded_frame (s : State) (l : List Nat) : Frame s (removeExploded s l) :=
  foldl_removeBomb_frame _ s

theorem filterExplosions_frame (now : Nat) (s : State) : Frame s (filterExplosions now s) :=
  Frame.of_fields rfl rfl rfl rfl rfl

/-- From the end of the player loop to the start of the collision loop, `update`
leaves the round outcome, the scores, the poses and the alive flags alone. -/
theorem preDeath_frame (rnd : Nat → ℚ) (now : Nat) (clock : Nat → Nat) (s : State) :
    Frame (playersPhase now s) (preDeath rnd now clock s) := by
  unfold preDeath
  exact Frame.trans (scanBombs_frame rnd now clock _ _)
    (Frame.trans (removeExploded_frame _ _) (filterExplosions_frame now _))

/-! ### The player loop -/

theorem movePlayer_alive (g : Grid) (bombs : List Bomb) (inp : Input) (p : Player) :
    (movePlayer g bombs inp p).alive = p.alive ∧ (movePlayer g bombs inp p).id = p.id ∧
    (movePlayer g bombs inp p).num = p.num := by
  unfold movePlayer
  dsimp only
  split_ifs <;> exact ⟨rfl, rfl, rfl⟩

theorem placeBomb_alive (now : Nat) (inp : Input) (p : Player) (bombs : List Bomb) :
    (placeBomb now inp p bombs).1.alive = p.alive ∧ (placeBomb now inp p bombs).1.id = p.id ∧
    (placeBomb now inp p bombs).1.num = p.num := by
  unfold placeBomb
  dsimp only
  split_ifs <;> exact ⟨rfl, rfl, rfl⟩

theorem updatePlayer_alive (now : Nat) (g : Grid) (p : Player) (bombs : List Bomb) :
    (updatePlayer now g p bombs).1.alive = p.alive ∧ (updatePlayer now g p bombs).1.id = p.id ∧
    (updatePlayer now g p bombs).1.num = p.num := by
  unfold updatePlayer
  split
  · exact ⟨rfl, rfl, rfl⟩
  · split
    · exact ⟨rfl, rfl, rfl⟩
    · obtain ⟨a1, a2, a3⟩ := placeBomb_alive now ‹Input› (movePlayer g bombs ‹Input› p) bombs
      obtain ⟨b1, b2, b3⟩ := movePlayer_alive g bombs ‹Input› p
      exact ⟨a1.trans b1, a2.trans b2, a3.trans b3⟩

theorem updatePlayers_alive (now : Nat) (g : Grid) (ps : List Player) :
    ∀ bombs : List Bomb,
      (updatePlayers now g ps bombs).1.map (fun p => (p.alive, p.id, p.num)) =
        ps.map (fun p => (p.alive, p.id, p.num)) := by
  induction ps with
  | nil => intro bombs; rfl
  | cons p ps ih =>
    intro bombs
    obtain ⟨a1, a2, a3⟩ := updatePlayer_alive now g p bombs
    simp only [updatePlayers, List.map_cons, ih, a1, a2, a3]
/-! ### The collision loop, the end of the round, the broadcast -/

theorem deathLoop_pose (ex : List Explosion) (ps : List Player) :
    (deathLoop ex ps).1.map Player.pose = ps.map Player.pose := by
  induction ps with
  | nil => rfl
  | cons p ps ih =>
    simp only [deathLoop]
    split
    · simp only [List.map_cons, ih]; rfl
    · simp only [List.map_cons, ih]

theorem deathLoop_events (ex : List Explosion) (ps : List Player) :
    ∀ e ∈ (deathLoop ex ps).2, ∃ p ∈ ps, e = Event.playerDied p.id p.num := by
  induction ps with
  | nil => intro e he; cases he
  | cons p ps ih =>
    intro e he
    simp only [deathLoop] at he
    split at he
    · rcases List.mem_cons.mp he with h | h
      · exact ⟨p, List.mem_cons_self _ _, h⟩
      · obtain ⟨q, hq, hq2⟩ := ih e h
        exact ⟨q, List.mem_cons_of_mem _ hq, hq2⟩
    · obtain ⟨q, hq, hq2⟩ := ih e he
      exact ⟨q, List.mem_cons_of_mem _ hq, hq2⟩

theorem filter_isRoundEnd_of_isPowerup (P : List Event)
    (h : ∀ e ∈ P, Event.isPowerup e = true) : P.filter Event.isRoundEnd = [] := by
  rw [List.filter_eq_nil_iff]
  intro e he
  have := h e he
  cases e <;> simp [Event.isPowerup, Event.isRoundEnd] at this ⊢

theorem filter_isRoundEnd_deathLoop (ex : List Explosion) (ps : List Player) :
    (deathLoop ex ps).2.filter Event.isRoundEnd = [] := by
  rw [List.filter_eq_nil_iff]
  intro e he
  obtain ⟨p, _, hp⟩ := deathLoop_events ex ps e he
  subst hp
  simp [Event.isRoundEnd]

theorem broadcast_fields (s : State) :
    (broadcast s).scores = s.scores ∧ (broadcast s).gameOver = s.gameOver ∧
    (broadcast s).roundWinner = s.roundWinner ∧
    (broadcast s).players.map Player.pose = s.players.map Player.pose ∧
    (broadcast s).players.map (fun p => p.alive) = s.players.map (fun p => p.alive) ∧
    (broadcast s).bombs = s.bombs ∧ (broadcast s).explosions = s.explosions ∧
    ∃ P, (broadcast s).out = s.out ++ P ++ [Event.state] ∧
      ∀ e ∈ P, Event.isPowerup e = true :=
  ⟨rfl, rfl, rfl, pickupLoop_pose _ _, pickupLoop_alive _ _, rfl, rfl,
   (pickupLoop s.players s.grid).2.2, rfl, pickupLoop_events _ _⟩

theorem playersPhase_ids (now : Nat) (s : State) :
    (playersPhase now s).players.map (fun p => (p.alive, p.id, p.num)) =
      s.players.map (fun p => (p.alive, p.id, p.num)) :=
  updatePlayers_alive now s.grid s.players s.bombs

theorem map_num_of_pose {l1 l2 : List Player}
    (h : l1.map Player.pose = l2.map Player.pose) :
    l1.map (fun p => p.num) = l2.map (fun p => p.num) := by
  have := congrArg (List.map (fun t : Nat × Nat × ℚ × ℚ × Int × Int × Nat × String × Bool ×
    Bool × Option Input => t.2.1)) h
  simpa [List.map_map, Function.comp, Player.pose] using this

theorem map_id_of_pose {l1 l2 : List Player}
    (h : l1.map Player.pose = l2.map Player.pose) :
    l1.map (fun p => p.id) = l2.map (fun p => p.id) := by
  have := congrArg (List.map (fun t : Nat × Nat × ℚ × ℚ × Int × Int × Nat × String × Bool ×
    Bool × Option Input => t.1)) h
  simpa [List.map_map, Function.comp, Player.pose] using this

/-- The state of `update` after the collision loop: the slots, the scores and
the round outcome are those before the step, and no `roundEnd` was sent yet. -/
theorem afterDeath_facts (rnd : Nat → ℚ) (now : Nat) (clock : Nat → Nat) (s : State) :
    (deathCheck (preDeath rnd now clock s)).scores = s.scores ∧
    (deathCheck (preDeath rnd now clock s)).gameOver = s.gameOver ∧
    (deathCheck (preDeath rnd now clock s)).roundWinner = s.roundWinner ∧
    (deathCheck (preDeath rnd now clock s)).players.map (fun p => p.num) =
      s.players.map (fun p => p.num) ∧
    ∃ X, (deathCheck (preDeath rnd now clock s)).out = s.out ++ X ∧
      X.filter Event.isRoundEnd = [] ∧ X.filter Event.isRestartTimer = [] := by
  have hf := preDeath_frame rnd now clock s
  obtain ⟨P, hP, hPp⟩ := hf.out
  refine ⟨hf.scores, hf.gameOver, hf.roundWinner, ?_, ?_⟩
  · have h1 : (deathCheck (preDeath rnd now clock s)).players.map (fun p => p.num) =
        (preDeath rnd now clock s).players.map (fun p => p.num) :=
      map_num_of_pose (deathLoop_pose _ _)
    have h2 := map_num_of_pose hf.pose
    have h3 := congrArg (List.map (fun t : Bool × Nat × Nat => t.2.2)) (playersPhase_ids now s)
    simp only [List.map_map] at h3
    rw [h1, h2]
    exact h3
  · refine ⟨P ++ (deathLoop (preDeath rnd now clock s).explosions
        (preDeath rnd now clock s).players).2, ?_, ?_, ?_⟩
    · show (preDeath rnd now clock s).out ++ _ = _
      rw [hP]
      show s.out ++ P ++ _ = _
      rw [List.append_assoc]
    · rw [List.filter_append, filter_isRoundEnd_of_isPowerup P hPp,
        filter_isRoundEnd_deathLoop]
      rfl
    · rw [List.filter_append, List.filter_eq_nil_iff.mpr, List.filter_eq_nil_iff.mpr]
      · rfl
      · intro e he
        obtain ⟨p, _, hp⟩ := deathLoop_events _ _ e he
        subst hp
        simp [Event.isRestartTimer]
      · intro e he
        have := hPp e he
        cases e <;> simp [Event.isPowerup, Event.isRestartTimer] at this ⊢

/-! ### Deaths -/

theorem deathLoop_countP (ex : List Explosion) (id : Nat) (ps : List Player) :
    (deathLoop ex ps).2.countP (Event.isDeathOf id) =
      ps.countP (fun p => decide (p.id = id ∧ p.alive = true ∧ inBlast ex p = true)) := by
  induction ps with
  | nil => rfl
  | cons p ps ih =>
    simp only [deathLoop]
    by_cases h : p.alive = true ∧ inBlast ex p = true
    · rw [if_pos h, List.countP_cons, List.countP_cons, ih]
      congr 1
      by_cases hid : p.id = id
      · simp [Event.isDeathOf, hid, h.1, h.2]
      · simp [Event.isDeathOf, hid]
    · rw [if_neg h, List.countP_cons, ih]
      have : decide (p.id = id ∧ p.alive = true ∧ inBlast ex p = true) = false := by
        simp only [decide_eq_false_iff_not]
        exact fun hh => h hh.2
      simp [this]

theorem deathLoop_aliveCount (ex : List Explosion) (id : Nat) (ps : List Player) :
    aliveCount id (deathLoop ex ps).1 +
      ps.countP (fun p => decide (p.id = id ∧ p.alive = true ∧ inBlast ex p = true)) =
      aliveCount id ps := by
  unfold aliveCount
  induction ps with
  | nil => rfl
  | cons p ps ih =>
    simp only [deathLoop]
    by_cases h : p.alive = true ∧ inBlast ex p = true
    · rw [if_pos h, List.countP_cons, List.countP_cons, List.countP_cons]
      by_cases hid : p.id = id
      · simp only [hid, h.1, h.2, and_self, decide_True, if_true, true_and]
        simp only [Bool.false_eq_true, and_false, decide_False, if_false]
        omega
      · simp only [hid, false_and, decide_False, if_false]
        simp only [Bool.false_eq_true, if_false]
        omega
    · rw [if_neg h, List.countP_cons, List.countP_cons, List.countP_cons]
      have h3 : decide (p.id = id ∧ p.alive = true ∧ inBlast ex p = true) = false := by
        simp only [decide_eq_false_iff_not]
        exact fun hh => h hh.2
      rw [h3]
      simp only [Bool.false_eq_true, if_false]
      omega

theorem aliveCount_eq_of_maps {l1 l2 : List Player}
    (hid : l1.map (fun p => p.id) = l2.map (fun p => p.id))
    (hal : l1.map (fun p => p.alive) = l2.map (fun p => p.alive)) (id : Nat) :
    aliveCount id l1 = aliveCount id l2 := by
  have hz : l1.map (fun p => (p.id, p.alive)) = l2.map (fun p => (p.id, p.alive)) := by
    rw [← List.zip_map', ← List.zip_map', hid, hal]
  have key : ∀ l : List Player, aliveCount id l =
      (l.map (fun p => (p.id, p.alive))).countP (fun t => decide (t.1 = id ∧ t.2 = true)) := by
    intro l
    unfold aliveCount
    rw [List.countP_map]
    rfl
  rw [key, key, hz]

theorem aliveCount_le_one (id : Nat) (ps : List Player)
    (hnd : (ps.map (fun p => p.id)).Nodup) : aliveCount id ps ≤ 1 := by
  have h1 : aliveCount id ps ≤ ps.countP (fun p => decide (p.id = id)) := by
    unfold aliveCount
    apply List.countP_mono_left
    intro p _ hp
    simp only [decide_eq_true_eq] at hp ⊢
    exact hp.1
  have h2 : ps.countP (fun p => decide (p.id = id)) = (ps.map (fun p => p.id)).count id := by
    rw [List.count, List.countP_map]
    apply List.countP_congr
    intro p _
    simp only [Function.comp, decide_eq_true_eq, beq_iff_eq]
  rw [h2] at h1
  exact le_trans h1 (List.nodup_iff_count_le_one.mp hnd id)

theorem aliveCount_eq_zero_iff (id : Nat) (ps : List Player) :
    aliveCount id ps = 0 ↔ ∀ q ∈ ps, q.id = id → q.alive = false := by
  unfold aliveCount
  rw [List.countP_eq_zero]
  constructor
  · intro h q hq hid
    have := h q hq
    simp only [decide_eq_true_eq, not_and] at this
    cases ha : q.alive
    · rfl
    · exact absurd ha (this hid)
  · intro h q hq
    simp only [decide_eq_true_eq, not_and]
    intro hid ha
    rw [h q hq hid] at ha
    cases ha

theorem aliveCount_pos_of_mem (ps : List Player) (p : Player) (hp : p ∈ ps)
    (ha : p.alive = true) : 0 < aliveCount p.id ps := by
  unfold aliveCount
  rw [List.countP_pos_iff]
  exact ⟨p, hp, by simp [ha]⟩
theorem winCheck_fields (s : State) :
    (winCheck s).players = s.players ∧ (winCheck s).bombs = s.bombs ∧
    (winCheck s).explosions = s.explosions ∧ (winCheck s).grid = s.grid ∧
    ∃ W, (winCheck s).out = s.out ++ W ∧
      ∀ e ∈ W, Event.isRoundEnd e = true ∨ Event.isRestartTimer e = true := by
  unfold winCheck
  dsimp only
  split
  · split
    · refine ⟨rfl, rfl, rfl, rfl, _, rfl, ?_⟩
      intro e he
      simp only [List.mem_cons, List.mem_singleton, List.not_mem_nil, or_false] at he
      rcases he with h | h <;> subst h <;> simp [Event.isRoundEnd, Event.isRestartTimer]
    · refine ⟨rfl, rfl, rfl, rfl, _, rfl, ?_⟩
      intro e he
      simp only [List.mem_cons, List.mem_singleton, List.not_mem_nil, or_false] at he
      rcases he with h | h <;> subst h <;> simp [Event.isRoundEnd, Event.isRestartTimer]
  · exact ⟨rfl, rfl, rfl, rfl, [], by simp, by simp⟩

theorem countP_isDeathOf_of_isPowerup (id : Nat) (P : List Event)
    (h : ∀ e ∈ P, Event.isPowerup e = true) : P.countP (Event.isDeathOf id) = 0 := by
  rw [List.countP_eq_zero]
  intro e he
  have := h e he
  cases e <;> simp [Event.isPowerup, Event.isDeathOf] at this ⊢

theorem countP_isDeathOf_of_roundEnd (id : Nat) (W : List Event)
    (h : ∀ e ∈ W, Event.isRoundEnd e = true ∨ Event.isRestartTimer e = true) :
    W.countP (Event.isDeathOf id) = 0 := by
  rw [List.countP_eq_zero]
  intro e he
  have := h e he
  cases e <;> simp [Event.isRoundEnd, Event.isRestartTimer, Event.isDeathOf] at this ⊢

/-- The state when the collision loop of `update` starts has the keys and the
alive flags of the state before the step. -/
theorem preDeath_ids (rnd : Nat → ℚ) (now : Nat) (clock : Nat → Nat) (s : State) :
    (preDeath rnd now clock s).players.map (fun p => p.id) = s.players.map (fun p => p.id) ∧
    (preDeath rnd now clock s).players.map (fun p => p.alive) =
      s.players.map (fun p => p.alive) := by
  have hf := preDeath_frame rnd now clock s
  have h0 := playersPhase_ids now s
  have h1 := congrArg (List.map (fun t : Bool × Nat × Nat => t.2.1)) h0
  have h2 := congrArg (List.map (fun t : Bool × Nat × Nat => t.1)) h0
  simp only [List.map_map] at h1 h2
  exact ⟨(map_id_of_pose hf.pose).trans h1, hf.alive.trans h2⟩

/-- The messages of one `update` step and its effect on the alive players, key
by key: the `playerDied` messages for `id` are as many as the alive players
under `id` standing in a blast cell when the collision loop starts, and as many
players under `id` stop being alive. -/
theorem update_deaths (rnd : Nat → ℚ) (now : Nat) (clock : Nat → Nat) (s : State) :
    (update rnd now clock s).players.map (fun p => p.id) = s.players.map (fun p => p.id) ∧
    ∃ E, (update rnd now clock s).out = s.out ++ E ∧
      (∀ p ∈ (preDeath rnd now clock s).players, p.alive = true →
        inBlast (preDeath rnd now clock s).explosions p = true →
        Event.playerDied p.id p.num ∈ E) ∧
      ∀ id : Nat,
        E.countP (Event.isDeathOf id) =
          (preDeath rnd now clock s).players.countP (fun p =>
            decide (p.id = id ∧ p.alive = true ∧
              inBlast (preDeath rnd now clock s).explosions p = true)) ∧
        aliveCount id (update rnd now clock s).players + E.countP (Event.isDeathOf id) =
          aliveCount id s.players := by
  have hf := preDeath_frame rnd now clock s
  obtain ⟨P1, hP1, hP1p⟩ := hf.out
  obtain ⟨hid0, hal0⟩ := preDeath_ids rnd now clock s
  obtain ⟨w1, _, _, _, W, hW, hWp⟩ := winCheck_fields (deathCheck (preDeath rnd now clock s))
  obtain ⟨_, _, _, bpose, balive, _, _, P2, hP2, hP2p⟩ :=
    broadcast_fields (winCheck (deathCheck (preDeath rnd now clock s)))
  have hdp : (deathCheck (preDeath rnd now clock s)).players =
      (deathLoop (preDeath rnd now clock s).explosions (preDeath rnd now clock s).players).1 :=
    rfl
  have hid1 : (update rnd now clock s).players.map (fun p => p.id) =
      (deathLoop (preDeath rnd now clock s).explosions
        (preDeath rnd now clock s).players).1.map (fun p => p.id) := by
    unfold update
    rw [map_id_of_pose bpose, w1, hdp]
  have hal1 : (update rnd now clock s).players.map (fun p => p.alive) =
      (deathLoop (preDeath rnd now clock s).explosions
        (preDeath rnd now clock s).players).1.map (fun p => p.alive) := by
    unfold update
    rw [balive, w1, hdp]
  refine ⟨?_, ?_⟩
  · rw [hid1, map_id_of_pose (deathLoop_pose _ _), hid0]
  · refine ⟨P1 ++ (deathLoop (preDeath rnd now clock s).explosions
        (preDeath rnd now clock s).players).2 ++ W ++ P2 ++ [Event.state], ?_, ?_, ?_⟩
    · unfold update
      rw [hP2, hW]
      show (preDeath rnd now clock s).out ++ _ ++ W ++ P2 ++ [Event.state] = _
      rw [hP1]
      show s.out ++ P1 ++ _ ++ W ++ P2 ++ [Event.state] = _
      simp only [List.append_assoc]
    · intro p hp ha hb
      have : Event.playerDied p.id p.num ∈ (deathLoop (preDeath rnd now clock s).explosions
          (preDeath rnd now clock s).players).2 := by
        clear hdp hid1 hal1
        generalize (preDeath rnd now clock s).players = ps at hp
        induction ps with
        | nil => cases hp
        | cons q ps ih =>
          simp only [deathLoop]
          rcases List.mem_cons.mp hp with h | h
          · subst h
            rw [if_pos ⟨ha, hb⟩]
            exact List.mem_cons_self _ _
          · split
            · exact List.mem_cons_of_mem _ (ih h)
            · exact ih h
      simp only [List.mem_append]
      exact Or.inl (Or.inl (Or.inl (Or.inr this)))
    · intro id
      have hc : (P1 ++ (deathLoop (preDeath rnd now clock s).explosions
          (preDeath rnd now clock s).players).2 ++ W ++ P2 ++ [Event.state]).countP
            (Event.isDeathOf id) =
          (preDeath rnd now clock s).players.countP (fun p =>
            decide (p.id = id ∧ p.alive = true ∧
              inBlast (preDeath rnd now clock s).explosions p = true)) := by
        simp only [List.countP_append, countP_isDeathOf_of_isPowerup id P1 hP1p,
          countP_isDeathOf_of_isPowerup id P2 hP2p, countP_isDeathOf_of_roundEnd id W hWp,
          deathLoop_countP]
        simp [Event.isDeathOf]
      refine ⟨hc, ?_⟩
      rw [hc, aliveCount_eq_of_maps hid1 hal1 id, deathLoop_aliveCount,
        aliveCount_eq_of_maps hid0 hal0 id]
theorem onInput_fields (id : Nat) (msg : Option Input) (s : State) :
    (onInput id msg s).players.map (fun p => p.id) = s.players.map (fun p => p.id) ∧
    (onInput id msg s).players.map (fun p => p.alive) = s.players.map (fun p => p.alive) ∧
    (onInput id msg s).out = s.out := by
  unfold onInput
  split
  · exact ⟨rfl, rfl, rfl⟩
  · refine ⟨?_, ?_, rfl⟩
    · simp only [List.map_map]
      apply List.map_congr_left
      intro p _
      simp only [Function.comp]
      split <;> rfl
    · simp only [List.map_map]
      apply List.map_congr_left
      intro p _
      simp only [Function.comp]
      split <;> rfl

/-- Over a run of input messages and update steps, key by key: the keys stay,
and the `playerDied` messages sent for `id` are as many as the players under
`id` that stopped being alive. -/
theorem run_deaths (rnd : Nat → ℚ) (id : Nat) (acts : List Action) :
    ∀ s : State,
      (run rnd acts s).players.map (fun p => p.id) = s.players.map (fun p => p.id) ∧
      ∃ E, (run rnd acts s).out = s.out ++ E ∧
        aliveCount id (run rnd acts s).players + E.countP (Event.isDeathOf id) =
          aliveCount id s.players := by
  induction acts with
  | nil => intro s; exact ⟨rfl, [], by simp [run], by simp [run]⟩
  | cons a rest ih =>
    intro s
    obtain ⟨hid, E, hE, hcount⟩ := ih (act rnd a s)
    cases a with
    | input i msg =>
      obtain ⟨h1, h2, h3⟩ := onInput_fields i msg s
      refine ⟨hid.trans h1, E, ?_, ?_⟩
      · show (run rnd rest (onInput i msg s)).out = _
        rw [← h3]; exact hE
      · show aliveCount id (run rnd rest (onInput i msg s)).players + _ = _
        rw [← aliveCount_eq_of_maps h1 h2 id]
        exact hcount
    | update now clock =>
      obtain ⟨h1, E1, hE1, _, hc1⟩ := update_deaths rnd now clock s
      refine ⟨hid.trans h1, E1 ++ E, ?_, ?_⟩
      · show (run rnd rest (update rnd now clock s)).out = _
        have : (run rnd rest (update rnd now clock s)).out =
            (update rnd now clock s).out ++ E := hE
        rw [this, hE1, List.append_assoc]
      · have h2 : aliveCount id (run rnd rest (update rnd now clock s)).players +
            E.countP (Event.isDeathOf id) = aliveCount id (update rnd now clock s).players :=
          hcount
        have h3 := (hc1 id).2
        show aliveCount id (run rnd rest (update rnd now clock s)).players + _ = _
        rw [List.countP_append]
        omega

theorem aliveCount_zero_of_dead (ps : List Player) (p : Player) (hp : p ∈ ps)
    (hdead : p.alive = false) (hnd : (ps.map (fun p => p.id)).Nodup) :
    aliveCount p.id ps = 0 := by
  rw [aliveCount_eq_zero_iff]
  intro q hq hid
  have := List.inj_on_of_nodup_map hnd hq hp hid
  rw [this]
  exact hdead

/-! ### Bomb placement -/

theorem movePlayer_fields (g : Grid) (bombs : List Bomb) (inp : Input) (p : Player) :
    (movePlayer g bombs inp p).bombKeyDown = p.bombKeyDown ∧
    (movePlayer g bombs inp p).activeBombs = p.activeBombs ∧
    (movePlayer g bombs inp p).maxBombs = p.maxBombs ∧
    (movePlayer g bombs inp p).fireRadius = p.fireRadius ∧
    (movePlayer g bombs inp p).id = p.id ∧
    (movePlayer g bombs inp p).input = p.input := by
  unfold movePlayer
  dsimp only
  split_ifs <;> exact ⟨rfl, rfl, rfl, rfl, rfl, rfl⟩

theorem placeBomb_pos (now : Nat) (inp : Input) (p : Player) (bombs : List Bomb) :
    (placeBomb now inp p bombs).1.x = p.x ∧ (placeBomb now inp p bombs).1.y = p.y ∧
    (placeBomb now inp p bombs).1.targetX = p.targetX ∧
    (placeBomb now inp p bombs).1.targetY = p.targetY ∧
    (placeBomb now inp p bombs).1.dir = p.dir ∧
    (placeBomb now inp p bombs).1.bombKeyDown = inp.bomb ∧
    (placeBomb now inp p bombs).1.input = p.input ∧
    (placeBomb now inp p bombs).1.moving = p.moving := by
  unfold placeBomb
  dsimp only
  split_ifs with h1 <;> simp [h1]

/-- The player loop runs the iteration of a player on the registry left by
the iterations of the players before it. -/
theorem updatePlayers_append (now : Nat) (g : Grid) (ps1 : List Player) (p : Player)
    (ps2 : List Player) :
    ∀ b0 : List Bomb,
      (updatePlayers now g (ps1 ++ p :: ps2) b0).1 =
        (updatePlayers now g ps1 b0).1 ++
          (updatePlayer now g p (updatePlayers now g ps1 b0).2).1 ::
          (updatePlayers now g ps2
            (updatePlayer now g p (updatePlayers now g ps1 b0).2).2).1 ∧
      (updatePlayers now g (ps1 ++ p :: ps2) b0).2 =
        (updatePlayers now g ps2
          (updatePlayer now g p (updatePlayers now g ps1 b0).2).2).2 := by
  induction ps1 with
  | nil => intro b0; exact ⟨rfl, rfl⟩
  | cons q ps1 ih =>
    intro b0
    obtain ⟨h1, h2⟩ := ih (updatePlayer now g q b0).2
    simp only [List.cons_append, updatePlayers]
    exact ⟨congrArg _ h1, h2⟩
/-! ### Players, index by index -/

theorem getElem?_of_map_eq {α β : Type} (f : α → β) {l1 l2 : List α}
    (h : l1.map f = l2.map f) (i : Nat) (a : α) (ha : l2[i]? = some a) :
    ∃ b, l1[i]? = some b ∧ f b = f a := by
  have h1 : (l1.map f)[i]? = (l2.map f)[i]? := by rw [h]
  rw [List.getElem?_map, List.getElem?_map, ha] at h1
  cases hb : l1[i]? with
  | none => rw [hb] at h1; cases h1
  | some b =>
    rw [hb] at h1
    simp only [Option.map_some', Option.some.injEq] at h1
    exact ⟨b, rfl, h1⟩

theorem updatePlayers_getElem? (now : Nat) (g : Grid) (ps : List Player) :
    ∀ (b0 : List Bomb) (i : Nat) (p : Player), ps[i]? = some p →
      ∃ b, (updatePlayers now g ps b0).1[i]? = some (updatePlayer now g p b).1 := by
  induction ps with
  | nil => intro b0 i p h; cases h
  | cons q ps ih =>
    intro b0 i p h
    cases i with
    | zero =>
      simp only [List.getElem?_cons_zero, Option.some.injEq] at h
      subst h
      exact ⟨b0, by simp [updatePlayers]⟩
    | succ i =>
      simp only [List.getElem?_cons_succ] at h
      obtain ⟨b, hb⟩ := ih (updatePlayer now g q b0).2 i p h
      exact ⟨b, by simpa [updatePlayers] using hb⟩

theorem deathLoop_getElem? (ex : List Explosion) (ps : List Player) :
    ∀ (i : Nat) (p : Player), ps[i]? = some p →
      ∃ q, (deathLoop ex ps).1[i]? = some q ∧ (p.alive = false → q.alive = false) := by
  induction ps with
  | nil => intro i p h; cases h
  | cons r ps ih =>
    intro i p h
    cases i with
    | zero =>
      simp only [List.getElem?_cons_zero, Option.some.injEq] at h
      subst h
      simp only [deathLoop]
      split
      · exact ⟨{ r with alive := false }, by simp, fun _ => rfl⟩
      · exact ⟨r, by simp, fun h => h⟩
    | succ i =>
      simp only [List.getElem?_cons_succ] at h
      obtain ⟨q, hq, hq2⟩ := ih i p h
      refine ⟨q, ?_, hq2⟩
      simp only [deathLoop]
      split <;> simpa using hq

/-- The player at index `i` after an `update` step: its pose is the one the
iteration of the player loop gives it, run on some registry, and a dead player
stays dead. -/
theorem update_getElem? (rnd : Nat → ℚ) (now : Nat) (clock : Nat → Nat) (s : State)
    (i : Nat) (p : Player) (hp : s.players[i]? = some p) :
    ∃ q b, (update rnd now clock s).players[i]? = some q ∧
      q.pose = (updatePlayer now s.grid p b).1.pose ∧
      (p.alive = false → q.alive = false) := by
  obtain ⟨b, hb⟩ := updatePlayers_getElem? now s.grid s.players s.bombs i p hp
  have hb1 : (playersPhase now s).players[i]? = some (updatePlayer now s.grid p b).1 := hb
  have hf := preDeath_frame rnd now clock s
  obtain ⟨p2, hp2, hpose2⟩ := getElem?_of_map_eq Player.pose hf.pose i _ hb1
  obtain ⟨p2a, hp2a, halive2⟩ := getElem?_of_map_eq (fun p => p.alive) hf.alive i _ hb1
  rw [hp2] at hp2a
  cases hp2a
  obtain ⟨p3, hp3, hdead3⟩ := deathLoop_getElem? (preDeath rnd now clock s).explosions
    (preDeath rnd now clock s).players i p2 hp2
  have hp3' : (deathCheck (preDeath rnd now clock s)).players[i]? = some p3 := hp3
  obtain ⟨p3a, hp3a, hpose3⟩ := getElem?_of_map_eq Player.pose
    (deathLoop_pose (preDeath rnd now clock s).explosions (preDeath rnd now clock s).players)
    i p2 hp2
  rw [hp3] at hp3a
  cases hp3a
  obtain ⟨w1, _⟩ := winCheck_fields (deathCheck (preDeath rnd now clock s))
  obtain ⟨_, _, _, bpose, balive, _⟩ :=
    broadcast_fields (winCheck (deathCheck (preDeath rnd now clock s)))
  rw [w1] at bpose balive
  obtain ⟨q, hq, hposeq⟩ := getElem?_of_map_eq Player.pose bpose i p3 hp3'
  obtain ⟨qa, hqa, haliveq⟩ := getElem?_of_map_eq (fun p => p.alive) balive i p3 hp3'
  rw [hq] at hqa
  cases hqa
  refine ⟨q, b, hq, hposeq.trans (hpose3.trans hpose2), ?_⟩
  intro hdead
  have h1 : (updatePlayer now s.grid p b).1.alive = false := by
    rw [(updatePlayer_alive now s.grid p b).1]; exact hdead
  have h2 : p2.alive = false := by
    have : p2.alive = (updatePlayer now s.grid p b).1.alive := halive2
    rw [this]; exact h1
  have h3 := hdead3 h2
  have : q.alive = p3.alive := haliveq
  rw [this]; exact h3
/-! ### The bombs the player loop adds -/

theorem updatePlayer_bombs (now : Nat) (g : Grid) (p : Player) (b : List Bomb) :
    (updatePlayer now g p b).2 = b ∨
    (canPlace p = true ∧ ∃ nb, (updatePlayer now g p b).2 = b ++ [nb] ∧ nb.owner = p.id) := by
  unfold updatePlayer
  split
  · exact Or.inl rfl
  · rename_i inp hinp
    split
    · exact Or.inl rfl
    · rename_i halive
      obtain ⟨m1, _, _, _, m5, _⟩ := movePlayer_fields g b inp p
      unfold placeBomb
      dsimp only
      split_ifs with hb hcap hfree
      · right
        refine ⟨?_, _, rfl, m5⟩
        unfold canPlace bombFlag
        rw [hinp]
        simp only [Bool.not_eq_false] at halive
        rw [m1] at hcap
        simp [halive, hcap.1, hb]
      · exact Or.inl rfl
      · exact Or.inl rfl
      · exact Or.inl rfl

theorem updatePlayers_added (now : Nat) (g : Grid) (ps : List Player) :
    ∀ b0 : List Bomb, ∃ added, (updatePlayers now g ps b0).2 = b0 ++ added ∧
      ∀ id : Nat, (added.filter (fun b => decide (b.owner = id))).length ≤
        ps.countP (fun p => decide (p.id = id ∧ canPlace p = true)) := by
  induction ps with
  | nil => intro b0; exact ⟨[], by simp [updatePlayers], by simp⟩
  | cons p ps ih =>
    intro b0
    obtain ⟨added, hadd, hcount⟩ := ih (updatePlayer now g p b0).2
    rcases updatePlayer_bombs now g p b0 with h | ⟨hcan, nb, hnb, hown⟩
    · refine ⟨added, ?_, ?_⟩
      · show (updatePlayers now g ps (updatePlayer now g p b0).2).2 = _
        rw [hadd, h]
      · intro id
        rw [List.countP_cons]
        exact le_trans (hcount id) (Nat.le_add_right _ _)
    · refine ⟨nb :: added, ?_, ?_⟩
      · show (updatePlayers now g ps (updatePlayer now g p b0).2).2 = _
        rw [hadd, hnb]
        simp
      · intro id
        rw [List.countP_cons, List.filter_cons]
        by_cases hid : p.id = id
        · simp only [hown, hid, decide_True, if_true, List.length_cons, hcan, and_self]
          have := hcount id
          omega
        · simp only [hown, hid, decide_False, Bool.false_eq_true, if_false, false_and]
          have := hcount id
          omega

theorem placedInStep_count (now : Nat) (s : State) (id : Nat) :
    ((placedInStep now s).filter (fun b => decide (b.owner = id))).length ≤
      s.players.countP (fun p => decide (p.id = id ∧ canPlace p = true)) := by
  obtain ⟨added, hadd, hcount⟩ := updatePlayers_added now s.grid s.players s.bombs
  have : placedInStep now s = added := by
    unfold placedInStep
    show ((updatePlayers now s.grid s.players s.bombs).2).drop s.bombs.length = added
    rw [hadd, List.drop_left]
  rw [this]
  exact hcount id

theorem countP_id_le_one (id : Nat) (ps : List Player) (q : Player → Bool)
    (hnd : (ps.map (fun p => p.id)).Nodup) :
    ps.countP (fun p => decide (p.id = id ∧ q p = true)) ≤ 1 := by
  have h1 : ps.countP (fun p => decide (p.id = id ∧ q p = true)) ≤
      ps.countP (fun p => decide (p.id = id)) := by
    apply List.countP_mono_left
    intro p _ hp
    simp only [decide_eq_true_eq] at hp ⊢
    exact hp.1
  have h2 : ps.countP (fun p => decide (p.id = id)) = (ps.map (fun p => p.id)).count id := by
    rw [List.count, List.countP_map]
    apply List.countP_congr
    intro p _
    simp only [Function.comp, decide_eq_true_eq, beq_iff_eq]
  rw [h2] at h1
  exact le_trans h1 (List.nodup_iff_count_le_one.mp hnd id)

/-! ### The latch of the bomb key -/

theorem pose_eq_iff (p q : Player) :
    p.pose = q.pose ↔
      p.id = q.id ∧ p.num = q.num ∧ p.x = q.x ∧ p.y = q.y ∧ p.targetX = q.targetX ∧
      p.targetY = q.targetY ∧ p.dir = q.dir ∧ p.color = q.color ∧ p.moving = q.moving ∧
      p.bombKeyDown = q.bombKeyDown ∧ p.input = q.input := by
  simp only [Player.pose, Prod.mk.injEq]

theorem updatePlayer_latch (now : Nat) (g : Grid) (p : Player) (b : List Bomb) (inp : Input)
    (halive : p.alive = true) (hinp : p.input = some inp) :
    (updatePlayer now g p b).1.bombKeyDown = inp.bomb := by
  have hup : updatePlayer now g p b = placeBomb now inp (movePlayer g b inp p) b := by
    unfold updatePlayer
    rw [hinp]
    simp only [halive, Bool.true_eq_false, if_false]
  rw [hup]
  exact (placeBomb_pos now inp (movePlayer g b inp p) b).2.2.2.2.2.1

/-- The latch of every player under `id` is set, or the player is dead. -/
theorem latched_after_update (rnd : Nat → ℚ) (now : Nat) (clock : Nat → Nat) (s : State)
    (id : Nat) (hheld : ∀ p ∈ s.players, p.id = id → bombFlag p = true) :
    ∀ q ∈ (update rnd now clock s).players, q.id = id →
      q.bombKeyDown = true ∨ q.alive = false := by
  intro q hq hqid
  obtain ⟨i, hi⟩ := List.getElem?_of_mem hq
  have hlen : (update rnd now clock s).players.length = s.players.length := by
    have := congrArg List.length (update_deaths rnd now clock s).1
    simpa using this
  have hilt : i < s.players.length := by
    rw [← hlen]
    rcases Nat.lt_or_ge i (update rnd now clock s).players.length with h | h
    · exact h
    · rw [List.getElem?_eq_none h] at hi; cases hi
  obtain ⟨q1, b, hq1, hpose, hdead⟩ :=
    update_getElem? rnd now clock s i (s.players[i]) (List.getElem?_eq_getElem hilt)
  rw [hi] at hq1
  cases hq1
  have hp := (pose_eq_iff _ _).mp hpose
  have hid : (s.players[i]).id = id := by
    rw [← hqid, hp.1, (updatePlayer_alive now s.grid _ b).2.1]
  have hflag := hheld _ (List.getElem_mem hilt) hid
  cases ha : (s.players[i]).alive with
  | false => exact Or.inr (hdead ha)
  | true =>
    left
    unfold bombFlag at hflag
    cases hin : (s.players[i]).input with
    | none => rw [hin] at hflag; cases hflag
    | some inp =>
      rw [hin] at hflag
      simp only at hflag
      rw [hp.2.2.2.2.2.2.2.2.2.1, updatePlayer_latch now s.grid _ b inp ha hin]
      exact hflag

theorem latched_after_input (i : Nat) (msg : Option Input) (s : State) (id : Nat)
    (h : ∀ q ∈ s.players, q.id = id → q.bombKeyDown = true ∨ q.alive = false) :
    ∀ q ∈ (onInput i msg s).players, q.id = id →
      q.bombKeyDown = true ∨ q.alive = false := by
  intro q hq hqid
  unfold onInput at hq
  split at hq
  · exact h q hq hqid
  · simp only [List.mem_map] at hq
    obtain ⟨p, hp, hpq⟩ := hq
    split at hpq
    · have := h p hp (by rw [← hpq] at hqid; exact hqid)
      rw [← hpq]
      exact this
    · rw [← hpq]
      exact h p hp (by rw [hpq]; exact hqid)

theorem placedInStep_latched (now : Nat) (s : State) (id : Nat)
    (h : ∀ q ∈ s.players, q.id = id → q.bombKeyDown = true ∨ q.alive = false) :
    (placedInStep now s).filter (fun b => decide (b.owner = id)) = [] := by
  have hc := placedInStep_count now s id
  have hz : s.players.countP (fun p => decide (p.id = id ∧ canPlace p = true)) = 0 := by
    rw [List.countP_eq_zero]
    intro p hp
    simp only [decide_eq_true_eq, not_and]
    intro hid hcan
    unfold canPlace at hcan
    simp only [Bool.and_eq_true, Bool.not_eq_true'] at hcan
    rcases h p hp hid with h1 | h1
    · rw [h1] at hcan; exact absurd hcan.1.2 (by decide)
    · rw [h1] at hcan; exact absurd hcan.1.1 (by decide)
  rw [hz] at hc
  exact List.length_eq_zero.mp (Nat.le_zero.mp hc)

theorem placedBy_latched (rnd : Nat → ℚ) (id : Nat) (rest : List Action) :
    ∀ s : State, (∀ q ∈ s.players, q.id = id → q.bombKeyDown = true ∨ q.alive = false) →
      bombHeld rnd id rest s → placedBy rnd id rest s = [] := by
  induction rest with
  | nil => intro s _ _; rfl
  | cons a rest ih =>
    intro s hl hh
    cases a with
    | input i msg =>
      exact ih (onInput i msg s) (latched_after_input i msg s id hl) hh
    | update now clock =>
      have hh' : (∀ p ∈ s.players, p.id = id → bombFlag p = true) ∧
          bombHeld rnd id rest (update rnd now clock s) := hh
      show (placedInStep now s).filter (fun b => decide (b.owner = id)) ++
        placedBy rnd id rest (update rnd now clock s) = []
      rw [placedInStep_latched now s id hl,
        ih _ (latched_after_update rnd now clock s id hh'.1) hh'.2]
      rfl

/-! ### What `explode` does to the registry, the explosion set and the bomb counts -/

theorem chainIgnite_core (now : Nat) (x y : Int) (bs : List Bomb) :
    (chainIgnite now x y bs).map Bomb.core = bs.map Bomb.core := by
  induction bs with
  | nil => rfl
  | cons b bs ih =>
    simp only [chainIgnite]
    split
    · rfl
    · simp only [List.map_cons, ih]

theorem chainIgnite_timer (now : Nat) (x y : Int) (bs : List Bomb) (i : Nat) (b : Bomb)
    (hb : bs[i]? = some b) :
    ∃ c, (chainIgnite now x y bs)[i]? = some c ∧ (c.timer = b.timer ∨ c.timer = now) := by
  induction bs generalizing i with
  | nil => cases hb
  | cons a bs ih =>
    simp only [chainIgnite]
    split
    · cases i with
      | zero =>
        simp only [List.getElem?_cons_zero, Option.some.injEq] at hb
        subst hb
        exact ⟨{ a with timer := now }, by simp, Or.inr rfl⟩
      | succ i =>
        simp only [List.getElem?_cons_succ] at hb
        exact ⟨b, by simpa using hb, Or.inl rfl⟩
    · cases i with
      | zero =>
        simp only [List.getElem?_cons_zero, Option.some.injEq] at hb
        subst hb
        exact ⟨a, by simp, Or.inl rfl⟩
      | succ i =>
        simp only [List.getElem?_cons_succ] at hb
        obtain ⟨c, hc, hct⟩ := ih i hb
        exact ⟨c, by simpa using hc, hct⟩

theorem destroyBrick_bombs (rnd : Nat → ℚ) (endTime : Nat) (nx ny : Int) (s : State) :
    (destroyBrick rnd endTime nx ny s).bombs = s.bombs := by
  unfold destroyBrick
  split <;> rfl

theorem armLoop_bombs_core (rnd : Nat → ℚ) (now : Nat) (bomb : Bomb) (dx dy : Int)
    (dirIdx : Nat) :
    ∀ (n i : Nat) (s : State),
      (armLoop rnd now bomb dx dy dirIdx n i s).bombs.map Bomb.core = s.bombs.map Bomb.core := by
  intro n
  induction n with
  | zero => intro i s; rfl
  | succ n ih =>
    intro i s
    rw [armLoop_succ]
    split_ifs
    · rfl
    · rfl
    · rw [destroyBrick_bombs]
    · rw [ih]; exact chainIgnite_core _ _ _ _
    · rw [ih]; exact chainIgnite_core _ _ _ _

theorem arms_bombs_core (rnd : Nat → ℚ) (now : Nat) (bomb : Bomb)
    (ds : List (Nat × Int × Int)) :
    ∀ s : State, (ds.foldl (arm rnd now bomb) s).bombs.map Bomb.core = s.bombs.map Bomb.core := by
  induction ds with
  | nil => intro s; rfl
  | cons d ds ih =>
    intro s
    rw [List.foldl_cons, ih]
    exact armLoop_bombs_core rnd now bomb d.2.1 d.2.2 d.1 bomb.radius 1 s

theorem explode_bombs_core (rnd : Nat → ℚ) (now : Nat) (bomb : Bomb) (s : State) :
    (explode rnd now bomb s).bombs.map Bomb.core = s.bombs.map Bomb.core := by
  unfold explode
  rw [checkPowerups_bombs]
  exact arms_bombs_core rnd now bomb dirs.enum _

/-- The deadlines that `explode` rewrites become its own timestamp. -/
theorem armLoop_timer (rnd : Nat → ℚ) (now : Nat) (bomb : Bomb) (dx dy : Int)
    (dirIdx : Nat) :
    ∀ (n i : Nat) (s : State) (k : Nat) (b : Bomb), s.bombs[k]? = some b →
      ∃ c, (armLoop rnd now bomb dx dy dirIdx n i s).bombs[k]? = some c ∧
        (c.timer = b.timer ∨ c.timer = now) := by
  intro n
  induction n with
  | zero => intro i s k b hb; exact ⟨b, hb, Or.inl rfl⟩
  | succ n ih =>
    intro i s k b hb
    rw [armLoop_succ]
    split_ifs
    · exact ⟨b, hb, Or.inl rfl⟩
    · exact ⟨b, hb, Or.inl rfl⟩
    · rw [destroyBrick_bombs]; exact ⟨b, hb, Or.inl rfl⟩
    · obtain ⟨c, hc, hct⟩ := chainIgnite_timer now (bomb.x + dx * i) (bomb.y + dy * i)
        s.bombs k b hb
      obtain ⟨c2, hc2, hct2⟩ := ih (i + 1)
        { s with
          grid := setCell s.grid (bomb.x + dx * i) (bomb.y + dy * i) EMPTY
          bombs := chainIgnite now (bomb.x + dx * i) (bomb.y + dy * i) s.bombs
          explosions := s.explosions ++
            [{ x := bomb.x + dx * i, y := bomb.y + dy * i,
               endTime := now + EXPLOSION_DURATION,
               kind := BlastKind.arm dirIdx (decide (i = bomb.radius)) }] } k c hc
      refine ⟨c2, hc2, ?_⟩
      rcases hct2 with h | h
      · rcases hct with h' | h'
        · exact Or.inl (h.trans h')
        · exact Or.inr (h.trans h')
      · exact Or.inr h
    · obtain ⟨c, hc, hct⟩ := chainIgnite_timer now (bomb.x + dx * i) (bomb.y + dy * i)
        s.bombs k b hb
      obtain ⟨c2, hc2, hct2⟩ := ih (i + 1)
        { s with
          bombs := chainIgnite now (bomb.x + dx * i) (bomb.y + dy * i) s.bombs
          explosions := s.explosions ++
            [{ x := bomb.x + dx * i, y := bomb.y + dy * i,
               endTime := now + EXPLOSION_DURATION,
               kind := BlastKind.arm dirIdx (decide (i = bomb.radius)) }] } k c hc
      refine ⟨c2, hc2, ?_⟩
      rcases hct2 with h | h
      · rcases hct with h' | h'
        · exact Or.inl (h.trans h')
        · exact Or.inr (h.trans h')
      · exact Or.inr h

theorem explode_explosions (rnd : Nat → ℚ) (now : Nat) (bomb : Bomb) (s : State) :
    ∃ L, (explode rnd now bomb s).explosions =
      s.explosions ++ { x := bomb.x, y := bomb.y, endTime := now + EXPLOSION_DURATION,
                        kind := BlastKind.center } :: L := by
  obtain ⟨L, hL, _⟩ := arms_spec rnd now bomb dirs.enum
    { s with explosions := s.explosions ++
        [{ x := bomb.x, y := bomb.y, endTime := now + EXPLOSION_DURATION,
           kind := BlastKind.center }] }
    (by rw [dirs_enum]; intro d hd; simp at hd; rcases hd with h | h | h | h <;> subst h <;> decide)
    (by rw [dirs_enum]; decide)
  refine ⟨L, ?_⟩
  show (checkPowerups _).explosions = _
  rw [checkPowerups_explosions, hL]
  simp

theorem pickupLoop_idActive (ps : List Player) :
    ∀ g : Grid, (pickupLoop ps g).1.map Player.idActive = ps.map Player.idActive := by
  induction ps with
  | nil => intro g; rfl
  | cons p ps ih =>
    intro g
    have h1 : (pickup g p).1.idActive = p.idActive := by
      have := (pose_eq_iff _ _).mp (pickup_pose g p)
      unfold Player.idActive
      rw [this.1, pickup_activeBombs]
    simp only [pickupLoop, List.map_cons, h1, ih]

theorem explode_idActive (rnd : Nat → ℚ) (now : Nat) (bomb : Bomb) (s : State) :
    (explode rnd now bomb s).players.map Player.idActive = s.players.map Player.idActive := by
  unfold explode
  show (pickupLoop _ _).1.map Player.idActive = _
  rw [pickupLoop_idActive, (arms_fields rnd now bomb dirs.enum _).1]

/-! ### The expiry scan -/

theorem scanBombs_succ (rnd : Nat → ℚ) (now : Nat) (clock : Nat → Nat) (k : Nat) (s : State) :
    scanBombs rnd now clock (k + 1) s =
      visitBomb rnd now clock k (scanBombs rnd now clock k s) := rfl

/-- The two cases of one visit of the scan. -/
theorem visitBomb_cases (rnd : Nat → ℚ) (now : Nat) (clock : Nat → Nat) (idx : Nat)
    (acc : State × List Nat) :
    (∃ bomb, acc.1.bombs[idx]? = some bomb ∧ bomb.timer ≤ now ∧
      visitBomb rnd now clock idx acc = (explode rnd (clock idx) bomb acc.1, acc.2 ++ [idx])) ∨
    ((¬ ∃ bomb, acc.1.bombs[idx]? = some bomb ∧ bomb.timer ≤ now) ∧
      visitBomb rnd now clock idx acc = acc) := by
  unfold visitBomb
  cases hb : acc.1.bombs[idx]? with
  | none =>
    right
    refine ⟨?_, rfl⟩
    rintro ⟨b, h, _⟩
    cases h
  | some bomb =>
    by_cases hdue : now ≥ bomb.timer
    · left
      exact ⟨bomb, rfl, hdue, by simp only [if_pos hdue]⟩
    · right
      refine ⟨?_, by simp only [if_neg hdue]⟩
      rintro ⟨b, h, hb2⟩
      cases h
      exact hdue hb2

theorem scanBombs_core (rnd : Nat → ℚ) (now : Nat) (clock : Nat → Nat) (s : State) :
    ∀ k : Nat, (scanBombs rnd now clock k s).1.bombs.map Bomb.core = s.bombs.map Bomb.core := by
  intro k
  induction k with
  | zero => rfl
  | succ k ih =>
    rw [scanBombs_succ]
    rcases visitBomb_cases rnd now clock k (scanBombs rnd now clock k s) with
      ⟨bomb, _, _, h⟩ | ⟨_, h⟩
    · rw [h]; exact (explode_bombs_core _ _ _ _).trans ih
    · rw [h]; exact ih

theorem scanBombs_idActive (rnd : Nat → ℚ) (now : Nat) (clock : Nat → Nat) (s : State) :
    ∀ k : Nat, (scanBombs rnd now clock k s).1.players.map Player.idActive =
      s.players.map Player.idActive := by
  intro k
  induction k with
  | zero => rfl
  | succ k ih =>
    rw [scanBombs_succ]
    rcases visitBomb_cases rnd now clock k (scanBombs rnd now clock k s) with
      ⟨bomb, _, _, h⟩ | ⟨_, h⟩
    · rw [h]; exact (explode_idActive _ _ _ _).trans ih
    · rw [h]; exact ih

theorem scanBombs_explosions_mono (rnd : Nat → ℚ) (now : Nat) (clock : Nat → Nat) (s : State) :
    ∀ (k : Nat) (e : Explosion), e ∈ (scanBombs rnd now clock k s).1.explosions →
      e ∈ (scanBombs rnd now clock (k + 1) s).1.explosions := by
  intro k e he
  rw [scanBombs_succ]
  rcases visitBomb_cases rnd now clock k (scanBombs rnd now clock k s) with
    ⟨bomb, _, _, h⟩ | ⟨_, h⟩
  · rw [h]
    obtain ⟨L, hL⟩ := explode_explosions rnd (clock k) bomb (scanBombs rnd now clock k s).1
    show e ∈ (explode rnd (clock k) bomb (scanBombs rnd now clock k s).1).explosions
    rw [hL]
    exact List.mem_append_left _ he
  · rw [h]; exact he

theorem scanBombs_explosions_mono_le (rnd : Nat → ℚ) (now : Nat) (clock : Nat → Nat)
    (s : State) (k n : Nat) (hkn : k ≤ n) (e : Explosion)
    (he : e ∈ (scanBombs rnd now clock k s).1.explosions) :
    e ∈ (scanBombs rnd now clock n s).1.explosions := by
  induction n with
  | zero =>
    have : k = 0 := by omega
    subst this; exact he
  | succ n ih =>
    rcases Nat.eq_or_lt_of_le hkn with h | h
    · subst h; exact he
    · exact scanBombs_explosions_mono rnd now clock s n e (ih (by omega))

/-- The indices collected by the scan after `n` visits: those below `n` whose
bomb was due when the scan visited it; they are collected in ascending order. -/
theorem scanBombs_collected (rnd : Nat → ℚ) (now : Nat) (clock : Nat → Nat) (s : State) :
    ∀ n : Nat,
      (scanBombs rnd now clock n s).2.Pairwise (fun a b => a < b) ∧
      ∀ idx : Nat, idx ∈ (scanBombs rnd now clock n s).2 ↔
        idx < n ∧ ∃ b, (scanBombs rnd now clock idx s).1.bombs[idx]? = some b ∧
          b.timer ≤ now := by
  intro n
  induction n with
  | zero =>
    refine ⟨List.Pairwise.nil, ?_⟩
    intro idx
    simp [scanBombs]
  | succ n ih =>
    obtain ⟨hsorted, hmem⟩ := ih
    rw [scanBombs_succ]
    rcases visitBomb_cases rnd now clock n (scanBombs rnd now clock n s) with
      ⟨bomb, hb, hdue, h⟩ | ⟨hno, h⟩
    · rw [h]
      constructor
      · show ((scanBombs rnd now clock n s).2 ++ [n]).Pairwise (fun a b => a < b)
        rw [List.pairwise_append]
        refine ⟨hsorted, List.pairwise_singleton _ _, ?_⟩
        intro a ha b hb'
        rw [List.mem_singleton] at hb'
        subst hb'
        exact ((hmem a).mp ha).1
      · intro idx
        show idx ∈ (scanBombs rnd now clock n s).2 ++ [n] ↔ _
        rw [List.mem_append, List.mem_singleton, hmem]
        constructor
        · rintro (⟨h1, h2⟩ | h1)
          · exact ⟨by omega, h2⟩
          · subst h1
            exact ⟨by omega, bomb, hb, hdue⟩
        · rintro ⟨h1, h2⟩
          rcases Nat.eq_or_lt_of_le (Nat.lt_succ_iff.mp h1) with h3 | h3
          · exact Or.inr h3
          · exact Or.inl ⟨h3, h2⟩
    · rw [h]
      refine ⟨hsorted, ?_⟩
      intro idx
      rw [hmem]
      constructor
      · rintro ⟨h1, h2⟩
        exact ⟨by omega, h2⟩
      · rintro ⟨h1, h2⟩
        rcases Nat.eq_or_lt_of_le (Nat.lt_succ_iff.mp h1) with h3 | h3
        · subst h3
          exact absurd h2 hno
        · exact ⟨h3, h2⟩

/-- Every collected bomb was detonated: its centre blast cell is in the
explosion set when the scan ends. -/
theorem scanBombs_detonated (rnd : Nat → ℚ) (now : Nat) (clock : Nat → Nat) (s : State)
    (n idx : Nat) (hidx : idx ∈ (scanBombs rnd now clock n s).2) (b : Bomb)
    (hb : s.bombs[idx]? = some b) :
    ({ x := b.x, y := b.y, endTime := clock idx + EXPLOSION_DURATION,
       kind := BlastKind.center } : Explosion) ∈ (scanBombs rnd now clock n s).1.explosions := by
  obtain ⟨hlt, c, hc, hdue⟩ := ((scanBombs_collected rnd now clock s n).2 idx).mp hidx
  have hcore := scanBombs_core rnd now clock s idx
  obtain ⟨b2, hb2, hcore2⟩ := getElem?_of_map_eq Bomb.core hcore idx b hb
  rw [hc] at hb2
  cases hb2
  simp only [Bomb.core, Prod.mk.injEq] at hcore2
  apply scanBombs_explosions_mono_le rnd now clock s (idx + 1) n (by omega)
  rw [scanBombs_succ]
  rcases visitBomb_cases rnd now clock idx (scanBombs rnd now clock idx s) with
    ⟨bomb, hbomb, _, h⟩ | ⟨hno, _⟩
  · rw [h]
    rw [hc] at hbomb
    cases hbomb
    obtain ⟨L, hL⟩ := explode_explosions rnd (clock idx) c (scanBombs rnd now clock idx s).1
    show _ ∈ (explode rnd (clock idx) c (scanBombs rnd now clock idx s).1).explosions
    rw [hL, ← hcore2.1, ← hcore2.2.1]
    exact List.mem_append_right _ (List.mem_cons_self _ _)
  · exact absurd ⟨c, hc, hdue⟩ hno

/-! ### The removal loop -/

theorem orderedInsert_last (a : Nat) (xs : List Nat) (h : ∀ x ∈ xs, a < x) :
    List.orderedInsert (fun a b => b ≤ a) a xs = xs ++ [a] := by
  induction xs with
  | nil => rfl
  | cons x xs ih =>
    have hx : ¬ x ≤ a := by
      have := h x (List.mem_cons_self _ _)
      omega
    rw [List.orderedInsert, if_neg hx, ih (fun y hy => h y (List.mem_cons_of_mem _ hy))]
    rfl

/-- Sorting an ascending list into descending order reverses it. -/
theorem insertionSort_desc_of_asc (l : List Nat) (h : l.Pairwise (fun a b => a < b)) :
    l.insertionSort (fun a b => b ≤ a) = l.reverse := by
  induction l with
  | nil => rfl
  | cons a l ih =>
    rw [List.pairwise_cons] at h
    rw [List.insertionSort, ih h.2, List.reverse_cons]
    apply orderedInsert_last
    intro x hx
    exact h.1 x (List.mem_reverse.mp hx)

theorem foldl_removeBomb_bombs (l : List Nat) :
    ∀ s : State, (l.foldl removeBomb s).bombs =
      l.foldl (fun bs idx => bs.eraseIdx idx) s.bombs := by
  induction l with
  | nil => intro s; rfl
  | cons a l ih =>
    intro s
    rw [List.foldl_cons, List.foldl_cons, ih]
    congr 1
    unfold removeBomb
    cases hb : s.bombs[a]? with
    | none =>
      simp only
      rw [List.eraseIdx_of_length_le]
      rcases Nat.lt_or_ge a s.bombs.length with h | h
      · rw [List.getElem?_eq_getElem h] at hb; cases hb
      · exact h
    | some b => rfl

theorem dropIdxsFrom_cons {α : Type} (k : Nat) (idxs : List Nat) (b : α) (l : List α) :
    dropIdxsFrom k idxs (b :: l) =
      if k ∈ idxs then dropIdxsFrom (k + 1) idxs l else b :: dropIdxsFrom (k + 1) idxs l := by
  unfold dropIdxsFrom
  rw [List.enumFrom_cons, List.filter_cons]
  by_cases h : k ∈ idxs
  · rw [if_pos h, if_neg (by simpa using h)]
  · rw [if_neg h, if_pos (by simpa using h)]
    rfl

theorem dropIdxsFrom_cons_of_lt {α : Type} (a : Nat) (rest : List Nat) :
    ∀ (l : List α) (k : Nat), a < k → dropIdxsFrom k (a :: rest) l = dropIdxsFrom k rest l := by
  intro l
  induction l with
  | nil => intro k _; rfl
  | cons b l ih =>
    intro k hk
    have h := ih (k + 1) (by omega)
    have hka : k ≠ a := by omega
    rw [dropIdxsFrom_cons, dropIdxsFrom_cons, h]
    by_cases hkr : k ∈ rest
    · rw [if_pos hkr, if_pos (List.mem_cons_of_mem _ hkr)]
    · rw [if_neg hkr, if_neg (by simp [hka, hkr])]

theorem eraseIdx_dropIdxsFrom {α : Type} (rest : List Nat) :
    ∀ (l : List α) (k a : Nat), k ≤ a → (∀ r ∈ rest, a < r) →
      (dropIdxsFrom k rest l).eraseIdx (a - k) = dropIdxsFrom k (a :: rest) l := by
  intro l
  induction l with
  | nil => intro k a _ _; rfl
  | cons b l ih =>
    intro k a hka hrest
    have hkr : k ∉ rest := by
      intro h
      have := hrest k h
      omega
    rw [dropIdxsFrom_cons, dropIdxsFrom_cons, if_neg hkr]
    rcases Nat.eq_or_lt_of_le hka with h | h
    · subst h
      rw [if_pos (List.mem_cons_self _ _), Nat.sub_self, List.eraseIdx_cons_zero,
        dropIdxsFrom_cons_of_lt k rest l (k + 1) (by omega)]
    · have hne : k ≠ a := by omega
      have h3 : a - k = (a - (k + 1)) + 1 := by omega
      rw [if_neg (by simp [hne, hkr]), h3, List.eraseIdx_cons_succ,
        ih (k + 1) a (by omega) hrest]

/-- Erasing the indices of an ascending list, last to first, is filtering
them out. -/
theorem foldr_eraseIdx_eq_dropIdxs {α : Type} (asc : List Nat)
    (h : asc.Pairwise (fun a b => a < b)) (l : List α) :
    asc.foldr (fun idx bs => bs.eraseIdx idx) l = dropIdxsFrom 0 asc l := by
  induction asc with
  | nil =>
    unfold dropIdxsFrom
    simp only [List.foldr_nil, List.not_mem_nil, not_false_eq_true, decide_True,
      List.filter_true]
    clear h
    generalize 0 = k
    induction l generalizing k with
    | nil => rfl
    | cons b l ih => simp only [List.enumFrom_cons, List.map_cons, ← ih (k + 1)]
  | cons a rest ih =>
    rw [List.pairwise_cons] at h
    rw [List.foldr_cons, ih h.2]
    have := eraseIdx_dropIdxsFrom rest l 0 a (Nat.zero_le a) h.1
    simpa using this

theorem removeExploded_bombs (s : State) (asc : List Nat)
    (h : asc.Pairwise (fun a b => a < b)) :
    (removeExploded s asc).bombs = dropIdxsFrom 0 asc s.bombs := by
  unfold removeExploded
  rw [insertionSort_desc_of_asc asc h, foldl_removeBomb_bombs, List.foldl_reverse]
  exact foldr_eraseIdx_eq_dropIdxs asc h s.bombs

theorem getElem?_of_map_eq_map {α β γ : Type} (f : α → γ) (g : β → γ) {l1 : List α}
    {l2 : List β} (h : l1.map f = l2.map g) (i : Nat) (a : β) (ha : l2[i]? = some a) :
    ∃ b, l1[i]? = some b ∧ f b = g a := by
  have h1 : (l1.map f)[i]? = (l2.map g)[i]? := by rw [h]
  rw [List.getElem?_map, List.getElem?_map, ha] at h1
  cases hb : l1[i]? with
  | none => rw [hb] at h1; cases h1
  | some b =>
    rw [hb] at h1
    simp only [Option.map_some', Option.some.injEq] at h1
    exact ⟨b, rfl, h1⟩

/-- The removal loop over a descending list of indices takes from the bomb
count of every player the number of removed bombs it owns. -/
theorem foldl_removeBomb_idActive (l : List Nat) :
    ∀ s : State, l.Pairwise (fun a b => b < a) →
      (l.foldl removeBomb s).players.map Player.idActive =
        s.players.map (fun p => (p.id, p.activeBombs -
          (ownedBy p.id (l.filterMap (fun idx => s.bombs[idx]?)) : Int))) := by
  induction l with
  | nil =>
    intro s _
    apply List.map_congr_left
    intro p _
    simp [Player.idActive, ownedBy]
  | cons a rest ih =>
    intro s hdesc
    rw [List.pairwise_cons] at hdesc
    rw [List.foldl_cons, ih (removeBomb s a) hdesc.2]
    have hsame : rest.filterMap (fun idx => (removeBomb s a).bombs[idx]?) =
        rest.filterMap (fun idx => s.bombs[idx]?) := by
      apply List.filterMap_congr
      intro idx hidx
      have hlt : idx < a := hdesc.1 idx hidx
      unfold removeBomb
      split
      · rfl
      · simp only
        rw [List.getElem?_eraseIdx, if_pos hlt]
    rw [hsame]
    unfold removeBomb
    cases hb : s.bombs[a]? with
    | none =>
      simp only [List.filterMap_cons, hb]
    | some bomb =>
      simp only [List.filterMap_cons, hb, List.map_map, ownedBy, List.countP_cons]
      apply List.map_congr_left
      intro p _
      simp only [Function.comp]
      by_cases hid : p.id = bomb.owner
      · simp only [hid, if_true, decide_True, Prod.mk.injEq, true_and]
        push_cast
        ring
      · have hid2 : ¬ bomb.owner = p.id := fun h => hid h.symm
        simp only [hid, hid2, if_false, decide_False, Bool.false_eq_true, Nat.add_zero]

theorem removeExploded_idActive (s : State) (asc : List Nat)
    (h : asc.Pairwise (fun a b => a < b)) :
    (removeExploded s asc).players.map Player.idActive =
      s.players.map (fun p => (p.id, p.activeBombs -
        (ownedBy p.id (asc.filterMap (fun idx => s.bombs[idx]?)) : Int))) := by
  unfold removeExploded
  rw [insertionSort_desc_of_asc asc h,
    foldl_removeBomb_idActive asc.reverse s (List.pairwise_reverse.mpr h)]
  apply List.map_congr_left
  intro p _
  unfold ownedBy
  rw [List.filterMap_reverse, List.countP_reverse]

theorem deathLoop_idActive (ex : List Explosion) (ps : List Player) :
    (deathLoop ex ps).1.map Player.idActive = ps.map Player.idActive := by
  induction ps with
  | nil => rfl
  | cons p ps ih =>
    simp only [deathLoop]
    split
    · simp only [List.map_cons, ih]; rfl
    · simp only [List.map_cons, ih]

/-- From the end of the bomb scan to the end of `update`: the registry and the
bomb counts are those left by the removal loop, the explosion set is the one
left by the filter. -/
theorem update_tail (rnd : Nat → ℚ) (now : Nat) (clock : Nat → Nat) (s : State) :
    (update rnd now clock s).bombs =
      (removeExploded (scanBombs rnd now clock (playersPhase now s).bombs.length
          (playersPhase now s)).1
        (scanBombs rnd now clock (playersPhase now s).bombs.length (playersPhase now s)).2).bombs ∧
    (update rnd now clock s).players.map Player.idActive =
      (removeExploded (scanBombs rnd now clock (playersPhase now s).bombs.length
          (playersPhase now s)).1
        (scanBombs rnd now clock (playersPhase now s).bombs.length
          (playersPhase now s)).2).players.map Player.idActive ∧
    (update rnd now clock s).explosions = (preDeath rnd now clock s).explosions := by
  obtain ⟨w1, w2, w3, _⟩ := winCheck_fields (deathCheck (preDeath rnd now clock s))
  refine ⟨?_, ?_, ?_⟩
  · show (broadcast _).bombs = _
    rw [(broadcast_fields _).2.2.2.2.2.1, w2]
    rfl
  · show (pickupLoop _ _).1.map Player.idActive = _
    rw [pickupLoop_idActive, w1]
    show (deathLoop _ _).1.map Player.idActive = _
    rw [deathLoop_idActive]
    rfl
  · show (broadcast _).explosions = _
    rw [(broadcast_fields _).2.2.2.2.2.2.1, w3]
    rfl

theorem foldl_removeBomb_explosions (l : List Nat) :
    ∀ s : State, (l.foldl removeBomb s).explosions = s.explosions := by
  induction l with
  | nil => intro s; rfl
  | cons a l ih =>
    intro s
    rw [List.foldl_cons, ih]
    unfold removeBomb
    split <;> rfl

theorem arms_timer (rnd : Nat → ℚ) (now : Nat) (bomb : Bomb) (ds : List (Nat × Int × Int)) :
    ∀ (s : State) (k : Nat) (b : Bomb), s.bombs[k]? = some b →
      ∃ c, (ds.foldl (arm rnd now bomb) s).bombs[k]? = some c ∧
        (c.timer = b.timer ∨ c.timer = now) := by
  induction ds with
  | nil => intro s k b hb; exact ⟨b, hb, Or.inl rfl⟩
  | cons d ds ih =>
    intro s k b hb
    obtain ⟨c, hc, hct⟩ := armLoop_timer rnd now bomb d.2.1 d.2.2 d.1 bomb.radius 1 s k b hb
    obtain ⟨c2, hc2, hct2⟩ := ih (arm rnd now bomb s d) k c hc
    refine ⟨c2, hc2, ?_⟩
    rcases hct2 with h | h
    · rcases hct with h' | h'
      · exact Or.inl (h.trans h')
      · exact Or.inr (h.trans h')
    · exact Or.inr h

theorem explode_timer (rnd : Nat → ℚ) (now : Nat) (bomb : Bomb) (s : State) (k : Nat)
    (b : Bomb) (hb : s.bombs[k]? = some b) :
    ∃ c, (explode rnd now bomb s).bombs[k]? = some c ∧ (c.timer = b.timer ∨ c.timer = now) := by
  unfold explode
  rw [checkPowerups_bombs]
  exact arms_timer rnd now bomb dirs.enum _ k b hb

/-- A deadline is either untouched by the scan or set to the timestamp that
`explode` read at an index the scan has visited. -/
theorem scanBombs_timer (rnd : Nat → ℚ) (now : Nat) (clock : Nat → Nat) (s : State)
    (idx : Nat) (b : Bomb) (hb : s.bombs[idx]? = some b) :
    ∀ k : Nat, ∃ c, (scanBombs rnd now clock k s).1.bombs[idx]? = some c ∧
      (c.timer = b.timer ∨ ∃ j : Nat, j < k ∧ c.timer = clock j) := by
  intro k
  induction k with
  | zero => exact ⟨b, hb, Or.inl rfl⟩
  | succ k ih =>
    obtain ⟨c, hc, hct⟩ := ih
    have hweak : c.timer = b.timer ∨ ∃ j : Nat, j < k + 1 ∧ c.timer = clock j := by
      rcases hct with h | ⟨j, hj, h⟩
      · exact Or.inl h
      · exact Or.inr ⟨j, Nat.lt_succ_of_lt hj, h⟩
    rw [scanBombs_succ]
    rcases visitBomb_cases rnd now clock k (scanBombs rnd now clock k s) with
      ⟨bomb, _, _, h⟩ | ⟨_, h⟩
    · rw [h]
      obtain ⟨c2, hc2, hct2⟩ := explode_timer rnd (clock k) bomb
        (scanBombs rnd now clock k s).1 idx c hc
      refine ⟨c2, hc2, ?_⟩
      rcases hct2 with h' | h'
      · rcases hweak with h'' | ⟨j, hj, h''⟩
        · exact Or.inl (h'.trans h'')
        · exact Or.inr ⟨j, hj, h'.trans h''⟩
      · exact Or.inr ⟨k, Nat.lt_succ_self k, h'⟩
    · rw [h]; exact ⟨c, hc, hweak⟩

/-! ### Movement -/

/-- One interpolation move on an axis: the distance to the target shrinks by
the length of the move and the target is not passed. -/
theorem approach_target (x t v : ℚ) (h : |t - x| > 1 / 100) :
    |t - (x + jsSign (t - x) * min v |t - x|)| = |t - x| - min v |t - x| ∧
    0 ≤ (t - (x + jsSign (t - x) * min v |t - x|)) * (t - x) ∧
    (0 < v → |t - (x + jsSign (t - x) * min v |t - x|)| < |t - x|) := by
  have hpos : 0 < |t - x| := lt_trans (by norm_num) h
  rcases lt_or_gt_of_ne (abs_pos.mp hpos) with hneg | hgt
  · have habs : |t - x| = -(t - x) := abs_of_neg hneg
    have hs : jsSign (t - x) = -1 := by
      unfold jsSign
      rw [if_neg (not_lt.mpr (le_of_lt hneg)), if_pos hneg]
    rw [hs, habs]
    have hm' : min v (-(t - x)) ≤ -(t - x) := min_le_right _ _
    have h1 : t - (x + -1 * min v (-(t - x))) ≤ 0 := by linarith
    refine ⟨?_, ?_, ?_⟩
    · rw [abs_of_nonpos h1]; ring
    · exact mul_nonneg_of_nonpos_of_nonpos h1 (le_of_lt hneg)
    · intro hv
      rw [abs_of_nonpos h1]
      have : 0 < min v (-(t - x)) := lt_min hv (by linarith)
      linarith
  · have habs : |t - x| = t - x := abs_of_pos hgt
    have hs : jsSign (t - x) = 1 := by
      unfold jsSign
      rw [if_pos hgt]
    rw [hs, habs]
    have hm' : min v (t - x) ≤ t - x := min_le_right _ _
    have h1 : 0 ≤ t - (x + 1 * min v (t - x)) := by linarith
    refine ⟨?_, ?_, ?_⟩
    · rw [abs_of_nonneg h1]; ring
    · exact mul_nonneg h1 (le_of_lt hgt)
    · intro hv
      rw [abs_of_nonneg h1]
      have : 0 < min v (t - x) := lt_min hv hgt
      linarith

/-- The three branches of the movement block. -/
theorem movePlayer_cases (g : Grid) (bombs : List Bomb) (inp : Input) (p : Player) :
    (|(p.targetX : ℚ) - p.x| > 1 / 100 ∧
      movePlayer g bombs inp p =
        { p with x := p.x + jsSign ((p.targetX : ℚ) - p.x) *
                    min p.speed |(p.targetX : ℚ) - p.x|, moving := true }) ∨
    (¬ |(p.targetX : ℚ) - p.x| > 1 / 100 ∧ |(p.targetY : ℚ) - p.y| > 1 / 100 ∧
      movePlayer g bombs inp p =
        { p with y := p.y + jsSign ((p.targetY : ℚ) - p.y) *
                    min p.speed |(p.targetY : ℚ) - p.y|, moving := true }) ∨
    (¬ |(p.targetX : ℚ) - p.x| > 1 / 100 ∧ ¬ |(p.targetY : ℚ) - p.y| > 1 / 100 ∧
      (movePlayer g bombs inp p).x = p.targetX ∧ (movePlayer g bombs inp p).y = p.targetY) := by
  unfold movePlayer
  dsimp only
  by_cases hx : |(p.targetX : ℚ) - p.x| > 1 / 100
  · left
    exact ⟨hx, by rw [if_pos hx]⟩
  · right
    by_cases hy : |(p.targetY : ℚ) - p.y| > 1 / 100
    · left
      exact ⟨hx, hy, by rw [if_neg hx, if_pos hy]⟩
    · right
      refine ⟨hx, hy, ?_⟩
      rw [if_neg hx, if_neg hy]
      split <;> exact ⟨rfl, rfl⟩

theorem updatePlayer_eq_placeBomb (now : Nat) (g : Grid) (p : Player) (b : List Bomb)
    (inp : Input) (halive : p.alive = true) (hinp : p.input = some inp) :
    updatePlayer now g p b = placeBomb now inp (movePlayer g b inp p) b := by
  unfold updatePlayer
  rw [hinp]
  simp only [halive, Bool.true_eq_false, if_false]

theorem updatePlayer_skip (now : Nat) (g : Grid) (p : Player) (b : List Bomb)
    (h : p.alive = false ∨ p.input = none) : updatePlayer now g p b = (p, b) := by
  unfold updatePlayer
  rcases h with h | h
  · split
    · rfl
    · rw [if_pos h]
  · rw [h]

/-! ### Steering -/

/-- After the player loop `update` does not touch the pose of any player. -/
theorem update_pose_map (rnd : Nat → ℚ) (now : Nat) (clock : Nat → Nat) (s : State) :
    (update rnd now clock s).players.map Player.pose =
      (playersPhase now s).players.map Player.pose := by
  obtain ⟨w1, _⟩ := winCheck_fields (deathCheck (preDeath rnd now clock s))
  obtain ⟨_, _, _, bpose, _⟩ :=
    broadcast_fields (winCheck (deathCheck (preDeath rnd now clock s)))
  unfold update
  rw [bpose, w1]
  show (deathLoop _ _).1.map Player.pose = _
  rw [deathLoop_pose]
  exact (preDeath_frame rnd now clock s).pose

theorem updatePlayers_length (now : Nat) (g : Grid) (ps : List Player) :
    ∀ b : List Bomb, (updatePlayers now g ps b).1.length = ps.length := by
  induction ps with
  | nil => intro b; rfl
  | cons p ps ih => intro b; simp [updatePlayers, ih]

/-- The player after the players `ps1` in the list: its pose after `update` is
the one its iteration of the player loop gives it on the registry left by the
iterations of `ps1`. -/
theorem update_pose_at (rnd : Nat → ℚ) (now : Nat) (clock : Nat → Nat) (s : State)
    (ps1 : List Player) (p : Player) (ps2 : List Player) (hs : s.players = ps1 ++ p :: ps2) :
    ∃ q, (update rnd now clock s).players[ps1.length]? = some q ∧
      q.pose = (updatePlayer now s.grid p (updatePlayers now s.grid ps1 s.bombs).2).1.pose := by
  have h1 : (playersPhase now s).players[ps1.length]? =
      some (updatePlayer now s.grid p (updatePlayers now s.grid ps1 s.bombs).2).1 := by
    show (updatePlayers now s.grid s.players s.bombs).1[ps1.length]? = _
    rw [hs, (updatePlayers_append now s.grid ps1 p ps2 s.bombs).1,
      List.getElem?_append_right (by rw [updatePlayers_length])]
    simp [updatePlayers_length]
  exact getElem?_of_map_eq Player.pose (update_pose_map rnd now clock s) _ _ h1

/-- The aligned branch of the movement block. -/
theorem movePlayer_aligned (g : Grid) (bombs : List Bomb) (inp : Input) (p : Player)
    (hx : ¬ |(p.targetX : ℚ) - p.x| > 1 / 100) (hy : ¬ |(p.targetY : ℚ) - p.y| > 1 / 100) :
    (movePlayer g bombs inp p).x = p.targetX ∧ (movePlayer g bombs inp p).y = p.targetY ∧
    (movePlayer g bombs inp p).dir = (steer inp p.targetX p.targetY p.dir).2.2 ∧
    (canMoveTo g bombs (steer inp p.targetX p.targetY p.dir).1
        (steer inp p.targetX p.targetY p.dir).2.1 = true →
      (movePlayer g bombs inp p).targetX = (steer inp p.targetX p.targetY p.dir).1 ∧
      (movePlayer g bombs inp p).targetY = (steer inp p.targetX p.targetY p.dir).2.1) ∧
    (canMoveTo g bombs (steer inp p.targetX p.targetY p.dir).1
        (steer inp p.targetX p.targetY p.dir).2.1 = false →
      (movePlayer g bombs inp p).targetX = p.targetX ∧
      (movePlayer g bombs inp p).targetY = p.targetY) := by
  unfold movePlayer
  dsimp only
  rw [if_neg hx, if_neg hy]
  by_cases hc : canMoveTo g bombs (steer inp p.targetX p.targetY p.dir).1
      (steer inp p.targetX p.targetY p.dir).2.1 = true
  · rw [if_pos hc]
    exact ⟨rfl, rfl, rfl, fun _ => ⟨rfl, rfl⟩, fun h => by rw [hc] at h; cases h⟩
  · rw [if_neg hc]
    exact ⟨rfl, rfl, rfl, fun h => absurd h hc, fun _ => ⟨rfl, rfl⟩⟩

/-- The candidate and the facing the chain of direction tests yields. -/
theorem steer_cases (inp : Input) (tx ty : Int) (dir : Nat) :
    (inp.up = true → steer inp tx ty dir = (tx, ty - 1, 0)) ∧
    (inp.up = false → inp.down = true → steer inp tx ty dir = (tx, ty + 1, 2)) ∧
    (inp.up = false → inp.down = false → inp.left = true →
      steer inp tx ty dir = (tx - 1, ty, 3)) ∧
    (inp.up = false → inp.down = false → inp.left = false → inp.right = true →
      steer inp tx ty dir = (tx + 1, ty, 1)) ∧
    (inp.up = false → inp.down = false → inp.left = false → inp.right = false →
      steer inp tx ty dir = (tx, ty, dir)) := by
  unfold steer
  refine ⟨?_, ?_, ?_, ?_, ?_⟩
  · intro h; simp [h]
  · intro h1 h2; simp [h1, h2]
  · intro h1 h2 h3; simp [h1, h2, h3]
  · intro h1 h2 h3 h4; simp [h1, h2, h3, h4]
  · intro h1 h2 h3 h4; simp [h1, h2, h3, h4]

/-! ### The flags of the blast cells -/

/-- The cells one arm loop appends: all expire at `now + 500`; each is a brick
cell or the directional cell of a step `j`, flagged as end exactly when `j` is
the radius. -/
theorem armLoop_kinds (rnd : Nat → ℚ) (now : Nat) (bomb : Bomb) (d : Int × Int)
    (dirIdx : Nat) :
    ∀ (n i : Nat) (s : State),
      ∃ L, (armLoop rnd now bomb d.1 d.2 dirIdx n i s).explosions = s.explosions ++ L ∧
        ∀ e ∈ L, e.endTime = now + EXPLOSION_DURATION ∧
          (e.kind = BlastKind.brick ∨
            ∃ j, i ≤ j ∧ j < i + n ∧ (e.x, e.y) = armCell bomb d j ∧
              e.kind = BlastKind.arm dirIdx (decide (j = bomb.radius))) := by
  intro n
  induction n with
  | zero => intro i s; exact ⟨[], by simp [armLoop], by simp⟩
  | succ n ih =>
    intro i s
    rw [armLoop_succ]
    by_cases hoob : bomb.x + d.1 * i < 0 ∨ bomb.x + d.1 * i ≥ COLS ∨
        bomb.y + d.2 * i < 0 ∨ bomb.y + d.2 * i ≥ ROWS
    · rw [if_pos hoob]; exact ⟨[], by simp, by simp⟩
    · rw [if_neg hoob]
      by_cases hwall : cellAt s.grid (bomb.x + d.1 * i) (bomb.y + d.2 * i) = some WALL
      · rw [if_pos hwall]; exact ⟨[], by simp, by simp⟩
      · rw [if_neg hwall]
        by_cases hbrick : cellAt s.grid (bomb.x + d.1 * i) (bomb.y + d.2 * i) = some BRICK
        · rw [if_pos hbrick]
          refine ⟨_, destroyBrick_explosions _ _ _ _ _, ?_⟩
          intro e he
          rw [List.mem_singleton] at he
          subst he
          exact ⟨rfl, Or.inl rfl⟩
        · rw [if_neg hbrick]
          obtain ⟨L, hL, hall⟩ := ih (i + 1)
            { s with
              grid :=
                if cellAt s.grid (bomb.x + d.1 * i) (bomb.y + d.2 * i) = some POWERUP_BOMB ∨
                    cellAt s.grid (bomb.x + d.1 * i) (bomb.y + d.2 * i) = some POWERUP_FIRE ∨
                    cellAt s.grid (bomb.x + d.1 * i) (bomb.y + d.2 * i) = some POWERUP_SPEED
                then setCell s.grid (bomb.x + d.1 * i) (bomb.y + d.2 * i) EMPTY
                else s.grid
              bombs := chainIgnite now (bomb.x + d.1 * i) (bomb.y + d.2 * i) s.bombs
              explosions := s.explosions ++
                [{ x := bomb.x + d.1 * i, y := bomb.y + d.2 * i,
                   endTime := now + EXPLOSION_DURATION,
                   kind := BlastKind.arm dirIdx (decide (i = bomb.radius)) }] }
          refine ⟨{ x := bomb.x + d.1 * i, y := bomb.y + d.2 * i,
                    endTime := now + EXPLOSION_DURATION,
                    kind := BlastKind.arm dirIdx (decide (i = bomb.radius)) } :: L, ?_, ?_⟩
          · rw [hL]; simp
          · intro e he
            rcases List.mem_cons.mp he with h | h
            · subst h
              exact ⟨rfl, Or.inr ⟨i, le_refl i, by omega, rfl, rfl⟩⟩
            · obtain ⟨h1, h2⟩ := hall e h
              refine ⟨h1, ?_⟩
              rcases h2 with h2 | ⟨j, hj1, hj2, hj3, hj4⟩
              · exact Or.inl h2
              · exact Or.inr ⟨j, by omega, by omega, hj3, hj4⟩

theorem arms_kinds (rnd : Nat → ℚ) (now : Nat) (bomb : Bomb) :
    ∀ (ds : List (Nat × Int × Int)) (t : State),
      ∃ L, (ds.foldl (arm rnd now bomb) t).explosions = t.explosions ++ L ∧
        ∀ e ∈ L, e.endTime = now + EXPLOSION_DURATION ∧
          (e.kind = BlastKind.brick ∨
            ∃ d ∈ ds, ∃ j, 1 ≤ j ∧ j ≤ bomb.radius ∧ (e.x, e.y) = armCell bomb d.2 j ∧
              e.kind = BlastKind.arm d.1 (decide (j = bomb.radius))) := by
  intro ds
  induction ds with
  | nil => intro t; exact ⟨[], by simp, by simp⟩
  | cons d0 rest ih =>
    intro t
    obtain ⟨L0, hL0, h0⟩ := armLoop_kinds rnd now bomb d0.2 d0.1 bomb.radius 1 t
    obtain ⟨L1, hL1, h1⟩ := ih (arm rnd now bomb t d0)
    refine ⟨L0 ++ L1, ?_, ?_⟩
    · rw [List.foldl_cons, hL1]
      show (armLoop rnd now bomb d0.2.1 d0.2.2 d0.1 bomb.radius 1 t).explosions ++ L1 = _
      rw [hL0, List.append_assoc]
    · intro e he
      rcases List.mem_append.mp he with h | h
      · obtain ⟨a, b⟩ := h0 e h
        refine ⟨a, ?_⟩
        rcases b with b | ⟨j, hj1, hj2, hj3, hj4⟩
        · exact Or.inl b
        · exact Or.inr ⟨d0, List.mem_cons_self _ _, j, hj1, by omega, hj3, hj4⟩
      · obtain ⟨a, b⟩ := h1 e h
        refine ⟨a, ?_⟩
        rcases b with b | ⟨d, hd, j, hj1, hj2, hj3, hj4⟩
        · exact Or.inl b
        · exact Or.inr ⟨d, List.mem_cons_of_mem _ hd, j, hj1, hj2, hj3, hj4⟩

/-! ### Rounds: the start and what is reachable from it -/

/-- An invariant of the round: true after `startGame`, kept by input messages
and by update steps, hence true in every reachable state. -/
theorem reachable_invariant (rnd : Nat → ℚ) (P : State → Prop)
    (h0 : ∀ s0 s1 : State, startGame rnd s0 = some s1 → P s1)
    (hin : ∀ (s : State) (id : Nat) (msg : Option Input), P s → P (onInput id msg s))
    (hup : ∀ (s : State) (now : Nat) (clock : Nat → Nat), P s → P (update rnd now clock s)) :
    ∀ s : State, Reachable rnd s → P s := by
  rintro s ⟨s0, s1, acts, hstart, rfl⟩
  have h1 := h0 s0 s1 hstart
  clear hstart
  induction acts generalizing s1 with
  | nil => exact h1
  | cons a rest ih =>
    cases a with
    | input id msg => exact ih (onInput id msg s1) (hin s1 id msg h1)
    | update now clock => exact ih (update rnd now clock s1) (hup s1 now clock h1)

theorem round0_start : startGame rndZero lobby = some round0 := by
  decide!

theorem round1_reachable : Reachable rndZero round1 :=
  ⟨lobby, round0, _, round0_start, rfl⟩

/-- The player `createPlayer` makes. -/
theorem createPlayer_some (id num : Nat) (q : Player) (h : createPlayer id num = some q) :
    q.id = id ∧ q.x = q.targetX ∧ q.y = q.targetY ∧ q.moving = false ∧
    ((q.targetX = 1 ∧ q.targetY = 1) ∨ (q.targetX = 13 ∧ q.targetY = 11)) ∧
    q.maxBombs = 1 ∧ q.fireRadius = 2 ∧ q.speed = 12 / 100 ∧ q.activeBombs = 0 := by
  unfold createPlayer at h
  dsimp only at h
  split_ifs at h
  · cases h
    exact ⟨rfl, rfl, rfl, rfl, Or.inl ⟨rfl, rfl⟩, rfl, rfl, rfl, rfl⟩
  · cases h
    exact ⟨rfl, rfl, rfl, rfl, Or.inr ⟨rfl, rfl⟩, rfl, rfl, rfl, rfl⟩

theorem recreatePlayers_some (ps : List Player) :
    ∀ (num : Nat) (qs : List Player), recreatePlayers ps num = some qs →
      ∀ q ∈ qs, ∃ id n, createPlayer id n = some q := by
  induction ps with
  | nil =>
    intro num qs h q hq
    simp only [recreatePlayers, Option.some.injEq] at h
    subst h
    cases hq
  | cons p ps ih =>
    intro num qs h q hq
    simp only [recreatePlayers] at h
    cases h1 : createPlayer p.id num with
    | none => rw [h1] at h; cases h
    | some q1 =>
      cases h2 : recreatePlayers ps (num + 1) with
      | none => rw [h1, h2] at h; cases h
      | some qs1 =>
        rw [h1, h2] at h
        simp only [Option.some.injEq] at h
        subst h
        rcases List.mem_cons.mp hq with h3 | h3
        · subst h3; exact ⟨p.id, num, h1⟩
        · exact ih (num + 1) qs1 h2 q h3

/-- The state `startGame` makes: a fresh grid, freshly made players, no bombs. -/
theorem startGame_some (rnd : Nat → ℚ) (s0 s1 : State) (h : startGame rnd s0 = some s1) :
    s1.grid = (initGrid rnd s0.draws).1 ∧ s1.bombs = [] ∧
    ∀ q ∈ s1.players, ∃ id n, createPlayer id n = some q := by
  unfold startGame at h
  dsimp only at h
  cases h1 : recreatePlayers s0.players 1 with
  | none => rw [h1] at h; cases h
  | some ps =>
    rw [h1] at h
    simp only [Option.some.injEq] at h
    subst h
    exact ⟨rfl, rfl, recreatePlayers_some s0.players 1 ps h1⟩

/-- Every player after an `update` step comes from a player before it by one
iteration of the player loop, as far as the pose goes. -/
theorem update_mem_pose (rnd : Nat → ℚ) (now : Nat) (clock : Nat → Nat) (s : State)
    (q : Player) (hq : q ∈ (update rnd now clock s).players) :
    ∃ p ∈ s.players, ∃ b, q.pose = (updatePlayer now s.grid p b).1.pose := by
  obtain ⟨i, hi⟩ := List.getElem?_of_mem hq
  have hlen : (update rnd now clock s).players.length = s.players.length := by
    have := congrArg List.length (update_deaths rnd now clock s).1
    simpa using this
  have hilt : i < s.players.length := by
    rw [← hlen]
    rcases Nat.lt_or_ge i (update rnd now clock s).players.length with h | h
    · exact h
    · rw [List.getElem?_eq_none h] at hi; cases hi
  obtain ⟨q1, b, hq1, hpose, _⟩ :=
    update_getElem? rnd now clock s i (s.players[i]) (List.getElem?_eq_getElem hilt)
  rw [hi] at hq1
  cases hq1
  exact ⟨s.players[i], List.getElem_mem hilt, b, hpose⟩

theorem onInput_mem_pose (id : Nat) (msg : Option Input) (s : State) (q : Player)
    (hq : q ∈ (onInput id msg s).players) :
    ∃ p ∈ s.players, q = p ∨ q = { p with input := msg } := by
  unfold onInput at hq
  split at hq
  · exact ⟨q, hq, Or.inl rfl⟩
  · simp only [List.mem_map] at hq
    obtain ⟨p, hp, hpq⟩ := hq
    split at hpq
    · exact ⟨p, hp, Or.inr hpq.symm⟩
    · exact ⟨p, hp, Or.inl hpq.symm⟩

/-! ### Players that are not moving -/

theorem steer_adjacent (inp : Input) (tx ty : Int) (dir : Nat) :
    ((steer inp tx ty dir).1 = tx ∧ (steer inp tx ty dir).2.1 = ty) ∨
    ((steer inp tx ty dir).1 = tx ∧
      ((steer inp tx ty dir).2.1 = ty - 1 ∨ (steer inp tx ty dir).2.1 = ty + 1)) ∨
    ((steer inp tx ty dir).2.1 = ty ∧
      ((steer inp tx ty dir).1 = tx - 1 ∨ (steer inp tx ty dir).1 = tx + 1)) := by
  unfold steer
  split_ifs
  · exact Or.inr (Or.inl ⟨rfl, Or.inl rfl⟩)
  · exact Or.inr (Or.inl ⟨rfl, Or.inr rfl⟩)
  · exact Or.inr (Or.inr ⟨rfl, Or.inl rfl⟩)
  · exact Or.inr (Or.inr ⟨rfl, Or.inr rfl⟩)
  · exact Or.inl ⟨rfl, rfl⟩

/-- One iteration of the player loop leaves a player that is not moving on a
cell, its target being that cell or a neighbour. -/
theorem updatePlayer_onCell (now : Nat) (g : Grid) (p : Player) (b : List Bomb)
    (h : p.moving = false → p.onCell) :
    (updatePlayer now g p b).1.moving = false → (updatePlayer now g p b).1.onCell := by
  by_cases hskip : p.alive = false ∨ p.input = none
  · rw [updatePlayer_skip now g p b hskip]
    exact h
  · have halive : p.alive = true := by
      cases ha : p.alive with
      | false => exact absurd (Or.inl ha) hskip
      | true => rfl
    obtain ⟨inp, hinp⟩ : ∃ inp, p.input = some inp := by
      cases hi : p.input with
      | none => exact absurd (Or.inr hi) hskip
      | some inp => exact ⟨inp, rfl⟩
    rw [updatePlayer_eq_placeBomb now g p b inp halive hinp]
    obtain ⟨q1, q2, q3, q4, _, _, _, q8⟩ := placeBomb_pos now inp (movePlayer g b inp p) b
    unfold Player.onCell
    rw [q1, q2, q3, q4, q8]
    rcases movePlayer_cases g b inp p with ⟨_, hm⟩ | ⟨_, _, hm⟩ | ⟨hx, hy, _, _⟩
    · rw [hm]; intro hc; cases hc
    · rw [hm]; intro hc; cases hc
    · intro _
      obtain ⟨m1, m2, _, m4, m5⟩ := movePlayer_aligned g b inp p hx hy
      refine ⟨p.targetX, p.targetY, m1, m2, ?_⟩
      cases hc : canMoveTo g b (steer inp p.targetX p.targetY p.dir).1
          (steer inp p.targetX p.targetY p.dir).2.1 with
      | true =>
        obtain ⟨a1, a2⟩ := m4 hc
        rw [a1, a2]
        exact steer_adjacent inp p.targetX p.targetY p.dir
      | false =>
        obtain ⟨a1, a2⟩ := m5 hc
        exact Or.inl ⟨a1, a2⟩

/-! ### Cells never turn into walls or bricks -/

theorem cellAt_setCell_self (g : Grid) (x y : Int) (v : Nat) :
    cellAt (setCell g x y v) x y = (cellAt g x y).map (fun _ => v) := by
  cases h : cellAt g x y with
  | some c => rw [cellAt_setCell_eq g x y v c h]; rfl
  | none =>
    simp only [Option.map_none']
    unfold cellAt at h ⊢
    unfold setCell
    by_cases h0 : 0 ≤ x ∧ 0 ≤ y
    · rw [if_pos h0] at h ⊢
      rw [if_pos h0]
      cases hrow : g[y.toNat]? with
      | none => simp only [hrow, Option.none_bind]
      | some row =>
        rw [hrow] at h
        simp only [Option.some_bind] at h
        simp only
        have hlt : y.toNat < g.length := by
          rcases Nat.lt_or_ge y.toNat g.length with hl | hl
          · exact hl
          · rw [List.getElem?_eq_none hl] at hrow; cases hrow
        rw [List.getElem?_set_self hlt]
        simp only [Option.some_bind]
        rw [List.getElem?_eq_none_iff] at h ⊢
        rw [List.length_set]
        exact h
    · rw [if_neg h0]

theorem setCell_free (g : Grid) (x y : Int) (v : Nat) (hw : v ≠ WALL) (hb : v ≠ BRICK)
    (x1 y1 : Int) (h : freeCell g x1 y1) : freeCell (setCell g x y v) x1 y1 := by
  by_cases hxy : x1 ≠ x ∨ y1 ≠ y
  · unfold freeCell
    rw [cellAt_setCell_ne g x y x1 y1 v hxy]
    exact h
  · have hx : x1 = x := by
      by_contra hne; exact hxy (Or.inl hne)
    have hy : y1 = y := by
      by_contra hne; exact hxy (Or.inr hne)
    subst hx; subst hy
    unfold freeCell
    rw [cellAt_setCell_self]
    cases cellAt g x1 y1 with
    | none => exact ⟨by simp, by simp⟩
    | some c =>
      simp only [Option.map_some', ne_eq, Option.some.injEq]
      exact ⟨hw, hb⟩

theorem destroyBrick_free (rnd : Nat → ℚ) (endTime : Nat) (nx ny : Int) (s : State)
    (x y : Int) (h : freeCell s.grid x y) :
    freeCell (destroyBrick rnd endTime nx ny s).grid x y := by
  unfold destroyBrick
  dsimp only
  split
  · apply setCell_free
    · split_ifs <;> decide
    · split_ifs <;> decide
    · exact setCell_free _ _ _ _ (by decide) (by decide) _ _ h
  · exact setCell_free _ _ _ _ (by decide) (by decide) _ _ h

theorem armLoop_free (rnd : Nat → ℚ) (now : Nat) (bomb : Bomb) (dx dy : Int)
    (dirIdx : Nat) (x y : Int) :
    ∀ (n i : Nat) (s : State), freeCell s.grid x y →
      freeCell (armLoop rnd now bomb dx dy dirIdx n i s).grid x y := by
  intro n
  induction n with
  | zero => intro i s h; exact h
  | succ n ih =>
    intro i s h
    rw [armLoop_succ]
    split_ifs
    · exact h
    · exact h
    · exact destroyBrick_free _ _ _ _ _ _ _ h
    · exact ih _ _ (setCell_free _ _ _ _ (by decide) (by decide) _ _ h)
    · exact ih _ _ h

theorem arms_free (rnd : Nat → ℚ) (now : Nat) (bomb : Bomb) (x y : Int)
    (ds : List (Nat × Int × Int)) :
    ∀ s : State, freeCell s.grid x y → freeCell (ds.foldl (arm rnd now bomb) s).grid x y := by
  induction ds with
  | nil => intro s h; exact h
  | cons d ds ih =>
    intro s h
    rw [List.foldl_cons]
    exact ih _ (armLoop_free rnd now bomb d.2.1 d.2.2 d.1 x y bomb.radius 1 s h)

theorem pickup_free (g : Grid) (p : Player) (x y : Int) (h : freeCell g x y) :
    freeCell (pickup g p).2.1 x y := by
  unfold pickup
  dsimp only
  split_ifs <;>
    first
    | exact h
    | exact setCell_free _ _ _ _ (by decide) (by decide) _ _ h

theorem pickupLoop_free (ps : List Player) (x y : Int) :
    ∀ g : Grid, freeCell g x y → freeCell (pickupLoop ps g).2.1 x y := by
  induction ps with
  | nil => intro g h; exact h
  | cons p ps ih =>
    intro g h
    exact ih _ (pickup_free g p x y h)

theorem explode_free (rnd : Nat → ℚ) (now : Nat) (bomb : Bomb) (s : State) (x y : Int)
    (h : freeCell s.grid x y) : freeCell (explode rnd now bomb s).grid x y := by
  unfold explode
  exact pickupLoop_free _ x y _ (arms_free rnd now bomb x y dirs.enum _ h)

theorem scanBombs_free (rnd : Nat → ℚ) (now : Nat) (clock : Nat → Nat) (s : State)
    (x y : Int) (h : freeCell s.grid x y) :
    ∀ k : Nat, freeCell (scanBombs rnd now clock k s).1.grid x y := by
  intro k
  induction k with
  | zero => exact h
  | succ k ih =>
    rw [scanBombs_succ]
    rcases visitBomb_cases rnd now clock k (scanBombs rnd now clock k s) with
      ⟨bomb, _, _, hv⟩ | ⟨_, hv⟩
    · rw [hv]; exact explode_free _ _ _ _ _ _ ih
    · rw [hv]; exact ih

theorem foldl_removeBomb_grid (l : List Nat) :
    ∀ s : State, (l.foldl removeBomb s).grid = s.grid := by
  induction l with
  | nil => intro s; rfl
  | cons a l ih =>
    intro s
    rw [List.foldl_cons, ih]
    unfold removeBomb
    split <;> rfl

/-- The grid after `update`: the one the bomb scan leaves, after the pickups
of `broadcast`. -/
theorem update_grid (rnd : Nat → ℚ) (now : Nat) (clock : Nat → Nat) (s : State) :
    (update rnd now clock s).grid =
      (pickupLoop (winCheck (deathCheck (preDeath rnd now clock s))).players
        (scanBombs rnd now clock (playersPhase now s).bombs.length
          (playersPhase now s)).1.grid).2.1 := by
  obtain ⟨_, _, _, w4, _⟩ := winCheck_fields (deathCheck (preDeath rnd now clock s))
  show (pickupLoop _ (winCheck (deathCheck (preDeath rnd now clock s))).grid).2.1 = _
  rw [w4]
  show (pickupLoop _ (removeExploded _ _).grid).2.1 = _
  unfold removeExploded
  rw [foldl_removeBomb_grid]

/-- No update step turns a cell into `WALL` or `BRICK`. -/
theorem update_free (rnd : Nat → ℚ) (now : Nat) (clock : Nat → Nat) (s : State) (x y : Int)
    (h : freeCell s.grid x y) : freeCell (update rnd now clock s).grid x y := by
  rw [update_grid]
  apply pickupLoop_free
  exact scanBombs_free rnd now clock (playersPhase now s) x y h _

theorem canMoveTo_free (g : Grid) (bombs : List Bomb) (x y : Int)
    (h : canMoveTo g bombs x y = true) :
    (0 ≤ x ∧ x < COLS ∧ 0 ≤ y ∧ y < ROWS) ∧ freeCell g x y := by
  unfold canMoveTo at h
  split_ifs at h with h1 h2
  refine ⟨by omega, ?_, ?_⟩
  · exact fun hw => h2 (Or.inl hw)
  · exact fun hb => h2 (Or.inr hb)

/-- The spawn cells of a fresh grid are `EMPTY`, whatever the draws. -/
theorem initGrid_spawn (rnd : Nat → ℚ) (k : Nat) :
    cellAt (initGrid rnd k).1 1 1 = some EMPTY ∧
    cellAt (initGrid rnd k).1 13 11 = some EMPTY := by
  constructor
  · obtain ⟨j, hj⟩ := initGrid_cellAt rnd k 1 1 (by decide) (by decide)
    have h1 : cellAt (initGrid rnd k).1 1 1 = some (initCell rnd 1 1 j).1 := hj
    rw [h1, initCell, if_neg (by decide), if_neg (by decide), if_pos (by decide)]
  · obtain ⟨j, hj⟩ := initGrid_cellAt rnd k 13 11 (by decide) (by decide)
    have h1 : cellAt (initGrid rnd k).1 13 11 = some (initCell rnd 13 11 j).1 := hj
    rw [h1, initCell, if_neg (by decide), if_neg (by decide), if_pos (by decide)]

/-- The target after one iteration of the player loop: the old one, or a cell
that `canMoveTo` accepted. -/
theorem updatePlayer_target (now : Nat) (g : Grid) (p : Player) (b : List Bomb) :
    ((updatePlayer now g p b).1.targetX = p.targetX ∧
      (updatePlayer now g p b).1.targetY = p.targetY) ∨
    canMoveTo g b (updatePlayer now g p b).1.targetX (updatePlayer now g p b).1.targetY =
      true := by
  by_cases hskip : p.alive = false ∨ p.input = none
  · rw [updatePlayer_skip now g p b hskip]
    exact Or.inl ⟨rfl, rfl⟩
  · have halive : p.alive = true := by
      cases ha : p.alive with
      | false => exact absurd (Or.inl ha) hskip
      | true => rfl
    obtain ⟨inp, hinp⟩ : ∃ inp, p.input = some inp := by
      cases hi : p.input with
      | none => exact absurd (Or.inr hi) hskip
      | some inp => exact ⟨inp, rfl⟩
    rw [updatePlayer_eq_placeBomb now g p b inp halive hinp]
    obtain ⟨_, _, q3, q4, _⟩ := placeBomb_pos now inp (movePlayer g b inp p) b
    rw [q3, q4]
    rcases movePlayer_cases g b inp p with ⟨_, hm⟩ | ⟨_, _, hm⟩ | ⟨hx, hy, _, _⟩
    · rw [hm]; exact Or.inl ⟨rfl, rfl⟩
    · rw [hm]; exact Or.inl ⟨rfl, rfl⟩
    · obtain ⟨_, _, _, m4, m5⟩ := movePlayer_aligned g b inp p hx hy
      cases hc : canMoveTo g b (steer inp p.targetX p.targetY p.dir).1
          (steer inp p.targetX p.targetY p.dir).2.1 with
      | true =>
        obtain ⟨a1, a2⟩ := m4 hc
        right
        rw [a1, a2]
        exact hc
      | false => exact Or.inl (m5 hc)

/-! ### Properties of single players kept by `update` -/

theorem updatePlayers_all (Q : Player → Prop) (now : Nat) (g : Grid)
    (hstep : ∀ (p : Player) (b : List Bomb), Q p → Q (updatePlayer now g p b).1)
    (ps : List Player) :
    ∀ b : List Bomb, (∀ p ∈ ps, Q p) → ∀ q ∈ (updatePlayers now g ps b).1, Q q := by
  induction ps with
  | nil => intro b _ q hq; cases hq
  | cons p ps ih =>
    intro b hall q hq
    simp only [updatePlayers] at hq
    rcases List.mem_cons.mp hq with h | h
    · rw [h]; exact hstep p b (hall p (List.mem_cons_self _ _))
    · exact ih _ (fun r hr => hall r (List.mem_cons_of_mem _ hr)) q h

theorem pickupLoop_all (Q : Player → Prop)
    (hstep : ∀ (g : Grid) (p : Player), Q p → Q (pickup g p).1) (ps : List Player) :
    ∀ g : Grid, (∀ p ∈ ps, Q p) → ∀ q ∈ (pickupLoop ps g).1, Q q := by
  induction ps with
  | nil => intro g _ q hq; cases hq
  | cons p ps ih =>
    intro g hall q hq
    simp only [pickupLoop] at hq
    rcases List.mem_cons.mp hq with h | h
    · rw [h]; exact hstep g p (hall p (List.mem_cons_self _ _))
    · exact ih _ (fun r hr => hall r (List.mem_cons_of_mem _ hr)) q h

theorem explode_all (Q : Player → Prop)
    (hstep : ∀ (g : Grid) (p : Player), Q p → Q (pickup g p).1)
    (rnd : Nat → ℚ) (now : Nat) (bomb : Bomb) (s : State) (h : ∀ p ∈ s.players, Q p) :
    ∀ q ∈ (explode rnd now bomb s).players, Q q := by
  unfold explode
  show ∀ q ∈ (pickupLoop _ _).1, Q q
  apply pickupLoop_all Q hstep
  rw [(arms_fields rnd now bomb dirs.enum _).1]
  exact h

theorem scanBombs_all (Q : Player → Prop)
    (hstep : ∀ (g : Grid) (p : Player), Q p → Q (pickup g p).1)
    (rnd : Nat → ℚ) (now : Nat) (clock : Nat → Nat) (s : State) (h : ∀ p ∈ s.players, Q p) :
    ∀ k : Nat, ∀ q ∈ (scanBombs rnd now clock k s).1.players, Q q := by
  intro k
  induction k with
  | zero => exact h
  | succ k ih =>
    rw [scanBombs_succ]
    rcases visitBomb_cases rnd now clock k (scanBombs rnd now clock k s) with
      ⟨bomb, _, _, hv⟩ | ⟨_, hv⟩
    · rw [hv]; exact explode_all Q hstep rnd _ bomb _ ih
    · rw [hv]; exact ih

theorem foldl_removeBomb_all (Q : Player → Prop)
    (hrem : ∀ p : Player, Q p → Q { p with activeBombs := p.activeBombs - 1 })
    (l : List Nat) :
    ∀ s : State, (∀ p ∈ s.players, Q p) → ∀ q ∈ (l.foldl removeBomb s).players, Q q := by
  induction l with
  | nil => intro s h; exact h
  | cons a l ih =>
    intro s h
    rw [List.foldl_cons]
    apply ih
    unfold removeBomb
    split
    · exact h
    · intro q hq
      simp only [List.mem_map] at hq
      obtain ⟨p, hp, hpq⟩ := hq
      split at hpq
      · rw [← hpq]; exact hrem p (h p hp)
      · rw [← hpq]; exact h p hp

theorem deathLoop_all (Q : Player → Prop)
    (hdead : ∀ p : Player, Q p → Q { p with alive := false })
    (ex : List Explosion) (ps : List Player) (h : ∀ p ∈ ps, Q p) :
    ∀ q ∈ (deathLoop ex ps).1, Q q := by
  induction ps with
  | nil => intro q hq; cases hq
  | cons p ps ih =>
    intro q hq
    simp only [deathLoop] at hq
    have ih' := ih (fun r hr => h r (List.mem_cons_of_mem _ hr))
    split at hq
    · rcases List.mem_cons.mp hq with h1 | h1
      · rw [h1]; exact hdead p (h p (List.mem_cons_self _ _))
      · exact ih' q h1
    · rcases List.mem_cons.mp hq with h1 | h1
      · rw [h1]; exact h p (List.mem_cons_self _ _)
      · exact ih' q h1

/-- A property of single players that every loop body of `update` keeps is
kept by `update`. -/
theorem update_all (Q : Player → Prop) (rnd : Nat → ℚ) (now : Nat) (clock : Nat → Nat)
    (s : State)
    (hplayer : ∀ (p : Player) (b : List Bomb), Q p → Q (updatePlayer now s.grid p b).1)
    (hpick : ∀ (g : Grid) (p : Player), Q p → Q (pickup g p).1)
    (hrem : ∀ p : Player, Q p → Q { p with activeBombs := p.activeBombs - 1 })
    (hdead : ∀ p : Player, Q p → Q { p with alive := false })
    (h : ∀ p ∈ s.players, Q p) :
    ∀ q ∈ (update rnd now clock s).players, Q q := by
  have h1 : ∀ q ∈ (playersPhase now s).players, Q q :=
    updatePlayers_all Q now s.grid hplayer s.players s.bombs h
  have h2 := scanBombs_all Q hpick rnd now clock (playersPhase now s) h1
    (playersPhase now s).bombs.length
  have h3 : ∀ q ∈ (preDeath rnd now clock s).players, Q q := by
    unfold preDeath filterExplosions removeExploded
    exact foldl_removeBomb_all Q hrem _ _ h2
  have h4 : ∀ q ∈ (deathCheck (preDeath rnd now clock s)).players, Q q :=
    deathLoop_all Q hdead _ _ h3
  obtain ⟨w1, _⟩ := winCheck_fields (deathCheck (preDeath rnd now clock s))
  unfold update
  show ∀ q ∈ (pickupLoop _ _).1, Q q
  apply pickupLoop_all Q hpick
  rw [w1]
  exact h4

theorem onInput_all (Q : Player → Prop)
    (hin : ∀ (p : Player) (msg : Option Input), Q p → Q { p with input := msg })
    (id : Nat) (msg : Option Input) (s : State) (h : ∀ p ∈ s.players, Q p) :
    ∀ q ∈ (onInput id msg s).players, Q q := by
  intro q hq
  obtain ⟨p, hp, hpq | hpq⟩ := onInput_mem_pose id msg s q hq
  · rw [hpq]; exact h p hp
  · rw [hpq]; exact hin p msg (h p hp)

/-! ### Abilities -/

theorem updatePlayer_abilities (now : Nat) (g : Grid) (p : Player) (b : List Bomb) :
    (updatePlayer now g p b).1.maxBombs = p.maxBombs ∧
    (updatePlayer now g p b).1.fireRadius = p.fireRadius ∧
    (updatePlayer now g p b).1.speed = p.speed := by
  unfold updatePlayer
  split
  · exact ⟨rfl, rfl, rfl⟩
  · split
    · exact ⟨rfl, rfl, rfl⟩
    · unfold placeBomb movePlayer
      dsimp only
      split_ifs <;> exact ⟨rfl, rfl, rfl⟩

theorem pickup_abilOK (g : Grid) (p : Player) (h : p.abilOK) : (pickup g p).1.abilOK := by
  obtain ⟨h1, h2, h3, h4, k, hk, hs⟩ := h
  unfold pickup
  dsimp only
  split_ifs with _ hb hf hsp
  · exact ⟨h1, h2, h3, h4, k, hk, hs⟩
  · exact ⟨by simp, by simp only; omega, h3, h4, k, hk, hs⟩
  · exact ⟨h1, h2, by simp only; omega, by simp only; omega, k, hk, hs⟩
  · refine ⟨h1, h2, h3, h4, k + 1, ?_, ?_⟩
    · have hlt : p.speed < 18 / 100 := hsp.2
      rw [hs] at hlt
      have hk4 : (k : ℚ) < 4 := by linarith
      have : k < 4 := by exact_mod_cast hk4
      omega
    · simp only [hs]
      push_cast
      ring
  · exact ⟨h1, h2, h3, h4, k, hk, hs⟩

/-! ### The cells of the bombs of the registry -/

theorem onInput_bombs (id : Nat) (msg : Option Input) (s : State) :
    (onInput id msg s).bombs = s.bombs := by
  unfold onInput
  split <;> rfl

theorem placeBomb_distinct (now : Nat) (inp : Input) (p : Player) (b : List Bomb)
    (h : b.Pairwise (fun a c => ¬ (a.x = c.x ∧ a.y = c.y))) :
    (placeBomb now inp p b).2.Pairwise (fun a c => ¬ (a.x = c.x ∧ a.y = c.y)) := by
  unfold placeBomb
  dsimp only
  split_ifs with h1 h2 h3
  · rw [List.pairwise_append]
    refine ⟨h, List.pairwise_singleton _ _, ?_⟩
    intro a ha c hc
    rw [List.mem_singleton] at hc
    subst hc
    intro hac
    have hany : b.any (fun b => decide (b.x = jsRound p.x ∧ b.y = jsRound p.y)) = true := by
      rw [List.any_eq_true]
      exact ⟨a, ha, decide_eq_true hac⟩
    rw [h3] at hany
    cases hany
  · exact h
  · exact h
  · exact h

theorem updatePlayer_distinct (now : Nat) (g : Grid) (p : Player) (b : List Bomb)
    (h : b.Pairwise (fun a c => ¬ (a.x = c.x ∧ a.y = c.y))) :
    (updatePlayer now g p b).2.Pairwise (fun a c => ¬ (a.x = c.x ∧ a.y = c.y)) := by
  unfold updatePlayer
  split
  · exact h
  · split
    · exact h
    · exact placeBomb_distinct now _ _ b h

theorem updatePlayers_distinct (now : Nat) (g : Grid) (ps : List Player) :
    ∀ b : List Bomb, b.Pairwise (fun a c => ¬ (a.x = c.x ∧ a.y = c.y)) →
      (updatePlayers now g ps b).2.Pairwise (fun a c => ¬ (a.x = c.x ∧ a.y = c.y)) := by
  induction ps with
  | nil => intro b h; exact h
  | cons p ps ih =>
    intro b h
    simp only [updatePlayers]
    exact ih _ (updatePlayer_distinct now g p b h)

theorem foldl_eraseIdx_sublist {α : Type} (l : List Nat) :
    ∀ bs : List α, (l.foldl (fun bs idx => bs.eraseIdx idx) bs).Sublist bs := by
  induction l with
  | nil => intro bs; exact List.Sublist.refl _
  | cons a l ih =>
    intro bs
    rw [List.foldl_cons]
    exact (ih _).trans (List.eraseIdx_sublist bs a)

theorem distinct_of_core (l1 l2 : List Bomb) (he : l1.map Bomb.core = l2.map Bomb.core)
    (h : l2.Pairwise (fun a c => ¬ (a.x = c.x ∧ a.y = c.y))) :
    l1.Pairwise (fun a c => ¬ (a.x = c.x ∧ a.y = c.y)) := by
  have h2 : (l2.map Bomb.core).Pairwise (fun u v => ¬ (u.1 = v.1 ∧ u.2.1 = v.2.1)) := by
    rw [List.pairwise_map]
    exact h
  rw [← he, List.pairwise_map] at h2
  exact h2

/-- The update step keeps the bombs of the registry on distinct cells. -/
theorem update_distinct (rnd : Nat → ℚ) (now : Nat) (clock : Nat → Nat) (s : State)
    (h : s.bombs.Pairwise (fun a c => ¬ (a.x = c.x ∧ a.y = c.y))) :
    (update rnd now clock s).bombs.Pairwise (fun a c => ¬ (a.x = c.x ∧ a.y = c.y)) := by
  have h1 : (playersPhase now s).bombs.Pairwise (fun a c => ¬ (a.x = c.x ∧ a.y = c.y)) :=
    updatePlayers_distinct now s.grid s.players s.bombs h
  have h2 := distinct_of_core _ _
    (scanBombs_core rnd now clock (playersPhase now s) (playersPhase now s).bombs.length) h1
  rw [(update_tail rnd now clock s).1]
  unfold removeExploded
  rw [foldl_removeBomb_bombs]
  exact List.Pairwise.sublist (foldl_eraseIdx_sublist _ _) h2

/-! ### The bomb count of a player and the bombs it owns -/

theorem ownedBy_append (id : Nat) (l1 l2 : List Bomb) :
    ownedBy id (l1 ++ l2) = ownedBy id l1 + ownedBy id l2 := by
  unfold ownedBy
  exact List.countP_append _ l1 l2

theorem ownedBy_singleton (id : Nat) (b : Bomb) :
    ownedBy id [b] = if b.owner = id then 1 else 0 := by
  unfold ownedBy
  by_cases h : b.owner = id
  · rw [if_pos h]
    simp only [List.countP_cons, List.countP_nil, decide_eq_true h, if_true]
  · rw [if_neg h]
    simp only [List.countP_cons, List.countP_nil, decide_eq_false h, Bool.false_eq_true,
      if_false]

theorem ownedBy_eraseIdx (id : Nat) :
    ∀ (l : List Bomb) (idx : Nat) (b : Bomb), l[idx]? = some b →
      ownedBy id (l.eraseIdx idx) + (if b.owner = id then 1 else 0) = ownedBy id l := by
  intro l
  induction l with
  | nil => intro idx b h; cases h
  | cons a l ih =>
    intro idx b h
    cases idx with
    | zero =>
      simp only [List.getElem?_cons_zero, Option.some.injEq] at h
      subst h
      rw [List.eraseIdx_cons_zero]
      have e : a :: l = [a] ++ l := rfl
      rw [e, ownedBy_append, ownedBy_singleton]
      omega
    | succ k =>
      simp only [List.getElem?_cons_succ] at h
      rw [List.eraseIdx_cons_succ]
      have e1 : a :: l.eraseIdx k = [a] ++ l.eraseIdx k := rfl
      have e2 : a :: l = [a] ++ l := rfl
      rw [e1, e2, ownedBy_append, ownedBy_append]
      have := ih k b h
      omega

/-- What one iteration of the player loop does to the bomb count and to the
registry. -/
theorem updatePlayer_owned (now : Nat) (g : Grid) (p : Player) (b : List Bomb) :
    (updatePlayer now g p b).1.id = p.id ∧
    (updatePlayer now g p b).1.maxBombs = p.maxBombs ∧
    (((updatePlayer now g p b).2 = b ∧
        (updatePlayer now g p b).1.activeBombs = p.activeBombs) ∨
     (∃ nb, (updatePlayer now g p b).2 = b ++ [nb] ∧ nb.owner = p.id ∧
        (updatePlayer now g p b).1.activeBombs = p.activeBombs + 1 ∧
        p.activeBombs < p.maxBombs)) := by
  unfold updatePlayer
  split
  · exact ⟨rfl, rfl, Or.inl ⟨rfl, rfl⟩⟩
  · rename_i inp _
    split
    · exact ⟨rfl, rfl, Or.inl ⟨rfl, rfl⟩⟩
    · obtain ⟨_, ha, hmx, _, hid, _⟩ := movePlayer_fields g b inp p
      generalize movePlayer g b inp p = m at ha hmx hid
      unfold placeBomb
      dsimp only
      split_ifs with h1 h2 h3
      · refine ⟨hid, hmx, Or.inr ⟨_, rfl, hid, ?_, ?_⟩⟩
        · show m.activeBombs + 1 = p.activeBombs + 1
          rw [ha]
        · rw [← ha, ← hmx]
          exact h2.2
      · exact ⟨hid, hmx, Or.inl ⟨rfl, ha⟩⟩
      · exact ⟨hid, hmx, Or.inl ⟨rfl, ha⟩⟩
      · exact ⟨hid, hmx, Or.inl ⟨rfl, ha⟩⟩

/-- The player loop keeps every bomb count equal to the number of bombs owned,
when the keys of the players are distinct. -/
theorem updatePlayers_owned (now : Nat) (g : Grid) (ps : List Player) :
    ∀ b : List Bomb, (ps.map (fun p => p.id)).Nodup →
      (∀ p ∈ ps, p.activeBombs = (ownedBy p.id b : Int)) →
      (∀ q ∈ (updatePlayers now g ps b).1,
        q.activeBombs = (ownedBy q.id (updatePlayers now g ps b).2 : Int)) ∧
      (∀ id : Nat, id ∉ ps.map (fun p => p.id) →
        ownedBy id (updatePlayers now g ps b).2 = ownedBy id b) := by
  induction ps with
  | nil =>
    intro b _ _
    exact ⟨fun q hq => (List.not_mem_nil q hq).elim, fun id _ => rfl⟩
  | cons p ps ih =>
    intro b hn h
    rw [List.map_cons, List.nodup_cons] at hn
    obtain ⟨hp, hn'⟩ := hn
    obtain ⟨hid, _, hcase⟩ := updatePlayer_owned now g p b
    have hrest : ∀ r ∈ ps, r.activeBombs = (ownedBy r.id (updatePlayer now g p b).2 : Int) := by
      intro r hr
      have hne : p.id ≠ r.id := by
        intro he
        apply hp
        rw [he]
        exact List.mem_map_of_mem (fun p => p.id) hr
      rcases hcase with ⟨e, _⟩ | ⟨nb, e, ho, _, _⟩
      · rw [e]; exact h r (List.mem_cons_of_mem _ hr)
      · rw [e, ownedBy_append, ownedBy_singleton, ho, if_neg hne, Nat.add_zero]
        exact h r (List.mem_cons_of_mem _ hr)
    obtain ⟨ih1, ih2⟩ := ih (updatePlayer now g p b).2 hn' hrest
    simp only [updatePlayers]
    constructor
    · intro q hq
      rcases List.mem_cons.mp hq with hq | hq
      · rw [hq, hid, ih2 p.id hp]
        rcases hcase with ⟨e, ea⟩ | ⟨nb, e, ho, ea, _⟩
        · rw [e, ea]; exact h p (List.mem_cons_self _ _)
        · rw [e, ea, ownedBy_append, ownedBy_singleton, ho, if_pos rfl,
            h p (List.mem_cons_self _ _)]
          push_cast
          rfl
      · exact ih1 q hq
    · intro id hnot
      rw [List.map_cons, List.mem_cons, not_or] at hnot
      rw [ih2 id hnot.2]
      rcases hcase with ⟨e, _⟩ | ⟨nb, e, ho, _, _⟩
      · rw [e]
      · rw [e, ownedBy_append, ownedBy_singleton, ho, if_neg (fun he => hnot.1 he.symm),
          Nat.add_zero]

theorem removeBomb_owned (s : State) (idx : Nat)
    (h : ∀ p ∈ s.players, p.activeBombs = (ownedBy p.id s.bombs : Int)) :
    ∀ q ∈ (removeBomb s idx).players,
      q.activeBombs = (ownedBy q.id (removeBomb s idx).bombs : Int) := by
  unfold removeBomb
  cases hb : s.bombs[idx]? with
  | none => exact h
  | some bomb =>
    intro q hq
    simp only [List.mem_map] at hq
    obtain ⟨p, hp, hpq⟩ := hq
    have hcount := ownedBy_eraseIdx p.id s.bombs idx bomb hb
    have hp0 := h p hp
    by_cases ho : p.id = bomb.owner
    · rw [if_pos ho] at hpq
      rw [← hpq]
      show p.activeBombs - 1 = (ownedBy p.id (s.bombs.eraseIdx idx) : Int)
      rw [if_pos ho.symm] at hcount
      rw [hp0, ← hcount]
      push_cast
      ring
    · rw [if_neg ho] at hpq
      rw [← hpq]
      show p.activeBombs = (ownedBy p.id (s.bombs.eraseIdx idx) : Int)
      rw [if_neg (fun he => ho he.symm)] at hcount
      rw [hp0, ← hcount, Nat.add_zero]

theorem foldl_removeBomb_owned (l : List Nat) :
    ∀ s : State, (∀ p ∈ s.players, p.activeBombs = (ownedBy p.id s.bombs : Int)) →
      ∀ q ∈ (l.foldl removeBomb s).players,
        q.activeBombs = (ownedBy q.id (l.foldl removeBomb s).bombs : Int) := by
  induction l with
  | nil => intro s h; exact h
  | cons a l ih =>
    intro s h
    rw [List.foldl_cons]
    exact ih _ (removeBomb_owned s a h)

theorem owned_of_lists (ps1 ps2 : List Player) (bs1 bs2 : List Bomb)
    (hp : ps1.map Player.idActive = ps2.map Player.idActive)
    (hb : bs1.map Bomb.core = bs2.map Bomb.core)
    (h : ∀ p ∈ ps2, p.activeBombs = (ownedBy p.id bs2 : Int)) :
    ∀ p ∈ ps1, p.activeBombs = (ownedBy p.id bs1 : Int) := by
  have hown : ∀ id : Nat, ownedBy id bs1 = ownedBy id bs2 := by
    intro id
    have e : ∀ bs : List Bomb, ownedBy id bs =
        (bs.map Bomb.core).countP (fun c => decide (c.2.2.1 = id)) := by
      intro bs
      unfold ownedBy
      rw [List.countP_map]
      rfl
    rw [e bs1, e bs2, hb]
  intro p hp1
  have hm : Player.idActive p ∈ ps2.map Player.idActive := by
    rw [← hp]
    exact List.mem_map_of_mem _ hp1
  obtain ⟨q, hq, hqp⟩ := List.mem_map.mp hm
  have h1 : q.id = p.id := congrArg Prod.fst hqp
  have h2 : q.activeBombs = p.activeBombs := congrArg Prod.snd hqp
  rw [← h2, ← h1, hown]
  exact h q hq

/-- The update step keeps every bomb count equal to the number of bombs owned,
when the keys of the players are distinct. -/
theorem update_owned (rnd : Nat → ℚ) (now : Nat) (clock : Nat → Nat) (s : State)
    (hn : (s.players.map (fun p => p.id)).Nodup)
    (h : ∀ p ∈ s.players, p.activeBombs = (ownedBy p.id s.bombs : Int)) :
    ∀ q ∈ (update rnd now clock s).players,
      q.activeBombs = (ownedBy q.id (update rnd now clock s).bombs : Int) := by
  have h1 : ∀ q ∈ (playersPhase now s).players,
      q.activeBombs = (ownedBy q.id (playersPhase now s).bombs : Int) :=
    (updatePlayers_owned now s.grid s.players s.bombs hn h).1
  have h2 := owned_of_lists _ _ _ _
    (scanBombs_idActive rnd now clock (playersPhase now s) (playersPhase now s).bombs.length)
    (scanBombs_core rnd now clock (playersPhase now s) (playersPhase now s).bombs.length) h1
  have h3 := foldl_removeBomb_owned
    ((scanBombs rnd now clock (playersPhase now s).bombs.length
      (playersPhase now s)).2.insertionSort (fun a b => b ≤ a)) _ h2
  obtain ⟨t1, t2, _⟩ := update_tail rnd now clock s
  exact owned_of_lists _ _ _ _ t2 (congrArg (List.map Bomb.core) t1) h3

/-- The update step keeps every bomb count within the bomb limit. -/
theorem update_within (rnd : Nat → ℚ) (now : Nat) (clock : Nat → Nat) (s : State)
    (h : ∀ p ∈ s.players, p.activeBombs ≤ (p.maxBombs : Int)) :
    ∀ q ∈ (update rnd now clock s).players, q.activeBombs ≤ (q.maxBombs : Int) := by
  refine update_all (fun p => p.activeBombs ≤ (p.maxBombs : Int)) rnd now clock s
    ?_ ?_ ?_ ?_ h
  · intro p b hp
    obtain ⟨_, hmx, hcase⟩ := updatePlayer_owned now s.grid p b
    show (updatePlayer now s.grid p b).1.activeBombs ≤
      ((updatePlayer now s.grid p b).1.maxBombs : Int)
    rw [hmx]
    rcases hcase with ⟨_, ea⟩ | ⟨nb, _, _, ea, hlt⟩
    · rw [ea]; exact hp
    · rw [ea]; omega
  · intro g p hp
    show (pickup g p).1.activeBombs ≤ ((pickup g p).1.maxBombs : Int)
    have hp' : p.activeBombs ≤ (p.maxBombs : Int) := hp
    unfold pickup
    dsimp only
    split_ifs
    · exact hp'
    · show p.activeBombs ≤ ((p.maxBombs + 1 : Nat) : Int)
      push_cast
      omega
    · exact hp'
    · exact hp'
    · exact hp'
  · intro p hp
    show p.activeBombs - 1 ≤ (p.maxBombs : Int)
    have hp' : p.activeBombs ≤ (p.maxBombs : Int) := hp
    omega
  · intro p hp
    exact hp

/-! ### C1 -/

/-- C1: on a well-formed grid, `explode` appends to `explosions` a list `L` of
blast cells, each on the centre or on a step `1..radius` of one of the four
arms, such that for every direction `d` and every step `i` with
`1 ≤ i ≤ radius` a cell of `L` lies on step `i` of the arm if and only if the
cell of step `i` is inside the grid and is not `WALL` and every earlier step
`1..i-1` of the arm is inside the grid and is neither `WALL` nor `BRICK`, the
cells being read from the grid as it is when `explode` starts.  Powerups and
bombs on the arm do not appear in the condition.  The grid stays well formed. -/
theorem explode_blast_cells (rnd : Nat → ℚ) (now : Nat) (bomb : Bomb) (s : State)
    (hg : Grid.WF s.grid) :
    Grid.WF (explode rnd now bomb s).grid ∧
    ∃ L, (explode rnd now bomb s).explosions = s.explosions ++ L ∧
      (∀ e ∈ L, (e.x, e.y) = (bomb.x, bomb.y) ∨
        ∃ d ∈ dirs, ∃ i : Nat, 1 ≤ i ∧ i ≤ bomb.radius ∧ (e.x, e.y) = armCell bomb d i) ∧
      ∀ d ∈ dirs, ∀ i : Nat, 1 ≤ i → i ≤ bomb.radius →
        ((∃ e ∈ L, (e.x, e.y) = armCell bomb d i) ↔
          (inGrid (armCell bomb d i) ∧
           cellAt s.grid (armCell bomb d i).1 (armCell bomb d i).2 ≠ some WALL ∧
           ∀ j : Nat, 1 ≤ j → j < i →
             inGrid (armCell bomb d j) ∧
             cellAt s.grid (armCell bomb d j).1 (armCell bomb d j).2 ≠ some WALL ∧
             cellAt s.grid (armCell bomb d j).1 (armCell bomb d j).2 ≠ some BRICK)) := by
  obtain ⟨L, hL, hpos, hiff, _, hwf⟩ := arms_spec rnd now bomb dirs.enum
    { s with explosions := s.explosions ++
        [{ x := bomb.x, y := bomb.y, endTime := now + EXPLOSION_DURATION,
           kind := BlastKind.center }] }
    (by rw [dirs_enum]; intro d hd; simp at hd; rcases hd with h | h | h | h <;> subst h <;> decide)
    (by rw [dirs_enum]; decide)
  have hmem : ∀ d ∈ dirs, ∃ k, (k, d) ∈ dirs.enum := by
    intro d hd
    rw [dirs_enum]
    simp only [dirs, List.mem_cons, List.mem_singleton, List.not_mem_nil, or_false] at hd
    rcases hd with h | h | h | h <;> subst h
    · exact ⟨0, by simp⟩
    · exact ⟨1, by simp⟩
    · exact ⟨2, by simp⟩
    · exact ⟨3, by simp⟩
  have hdir : ∀ d ∈ dirs.enum, d.2 ∈ dirs := by
    rw [dirs_enum]; intro d hd; simp at hd
    rcases hd with h | h | h | h <;> subst h <;> decide
  refine ⟨?_, ?_⟩
  · exact checkPowerups_wf _ (hwf hg)
  · refine ⟨{ x := bomb.x, y := bomb.y, endTime := now + EXPLOSION_DURATION,
              kind := BlastKind.center } :: L, ?_, ?_, ?_⟩
    · show (checkPowerups _).explosions = _
      rw [checkPowerups_explosions, hL]
      simp
    · intro e he
      rcases List.mem_cons.mp he with h | h
      · left; subst h; rfl
      · right
        obtain ⟨d, hd, j, h1, h2, h3⟩ := hpos e h
        exact ⟨d.2, hdir d hd, j, h1, h2, h3⟩
    · intro d hd i hi1 hi2
      obtain ⟨k, hk⟩ := hmem d hd
      have hI := hiff (k, d) hk i hi1 hi2
      simp only [armHit, armOpen] at hI
      rw [← and_assoc, ← hI]
      constructor
      · rintro ⟨e, he, hp⟩
        rcases List.mem_cons.mp he with h | h
        · subst h
          exact absurd hp (armCell_ne_center bomb d hd i hi1)
        · exact ⟨e, h, hp⟩
      · rintro ⟨e, he, hp⟩
        exact ⟨e, List.mem_cons_of_mem _ he, hp⟩
/-- Witness of C1: on the grid of bricks, the bomb on `(1, 1)` with radius 2
emits a blast cell on step 2 of its right arm, the brick `(3, 1)`, reached
through the empty cell `(2, 1)`. -/
theorem explode_blast_cells_witness :
    Grid.WF roundA.grid ∧
    ∃ L, (explode rndZero 4000 bombA roundA).explosions = roundA.explosions ++ L ∧
      ∃ e ∈ L, (e.x, e.y) = ((3 : Int), (1 : Int)) := by
  obtain ⟨_, L, hL, _, hiff⟩ :=
    explode_blast_cells rndZero 4000 bombA roundA (initGrid_wf rndZero 0)
  refine ⟨initGrid_wf rndZero 0, L, hL, ?_⟩
  have h := (hiff (1, 0) (by decide) 2 (by decide) (by decide)).mpr
    ⟨by decide, by with_unfolding_all decide, by
      intro j h1 h2
      have hj : j = 1 := by omega
      subst hj
      exact ⟨by decide, by with_unfolding_all decide, by with_unfolding_all decide⟩⟩
  exact h

/-! ### C2 -/

/-- C2: in an update step of a round whose two players hold the slots 1 and 2,
if exactly one player `w` is alive after the collision loop, the score of the
slot of `w` goes up by exactly 1, the other score is unchanged, the round is
over with `w.num` as winner, and exactly one `roundEnd` message is sent in the
step, carrying that winner; if no player is alive, both scores are unchanged,
the round is over, the winner is 0 (draw) and the one `roundEnd` message
carries 0. -/
theorem update_round_end (rnd : Nat → ℚ) (now : Nat) (clock : Nat → Nat) (s : State)
    (hslots : s.players.map (fun p => p.num) = [1, 2]) :
    (∀ w : Player,
      (deathCheck (preDeath rnd now clock s)).players.filter (fun p => p.alive) = [w] →
      (update rnd now clock s).scores.p1 = s.scores.p1 + (if w.num = 1 then 1 else 0) ∧
      (update rnd now clock s).scores.p2 = s.scores.p2 + (if w.num = 2 then 1 else 0) ∧
      (w.num = 1 ∨ w.num = 2) ∧
      (update rnd now clock s).gameOver = true ∧
      (update rnd now clock s).roundWinner = some w.num ∧
      ∃ E, (update rnd now clock s).out = s.out ++ E ∧
        E.filter Event.isRoundEnd =
          [Event.roundEnd w.num (update rnd now clock s).scores.p1
            (update rnd now clock s).scores.p2]) ∧
    ((deathCheck (preDeath rnd now clock s)).players.filter (fun p => p.alive) = [] →
      (update rnd now clock s).scores = s.scores ∧
      (update rnd now clock s).gameOver = true ∧
      (update rnd now clock s).roundWinner = some 0 ∧
      ∃ E, (update rnd now clock s).out = s.out ++ E ∧
        E.filter Event.isRoundEnd = [Event.roundEnd 0 s.scores.p1 s.scores.p2]) := by
  obtain ⟨hsc, hgo, hrw, hnum, X, hX, hXf, _⟩ := afterDeath_facts rnd now clock s
  have hlen : (deathCheck (preDeath rnd now clock s)).players.length = 2 := by
    have := congrArg List.length hnum
    simpa [hslots] using this
  obtain ⟨b1, b2, b3, _, _, _, _, P, hP, hPp⟩ :=
    broadcast_fields (winCheck (deathCheck (preDeath rnd now clock s)))
  have hPf := filter_isRoundEnd_of_isPowerup P hPp
  constructor
  · intro w hw
    have hwmem : w ∈ (deathCheck (preDeath rnd now clock s)).players := by
      have : w ∈ (deathCheck (preDeath rnd now clock s)).players.filter (fun p => p.alive) := by
        rw [hw]; exact List.mem_singleton.mpr rfl
      exact (List.mem_filter.mp this).1
    have hwnum : w.num = 1 ∨ w.num = 2 := by
      have : w.num ∈ (deathCheck (preDeath rnd now clock s)).players.map (fun p => p.num) :=
        List.mem_map_of_mem (fun p => p.num) hwmem
      rw [hnum, hslots] at this
      simpa using this
    have hwin : winCheck (deathCheck (preDeath rnd now clock s)) =
        { deathCheck (preDeath rnd now clock s) with
          gameOver := true, roundWinner := some w.num,
          scores := if w.num = 1 then { s.scores with p1 := s.scores.p1 + 1 }
                    else { s.scores with p2 := s.scores.p2 + 1 },
          out := (deathCheck (preDeath rnd now clock s)).out ++
            [Event.roundEnd w.num
              (if w.num = 1 then { s.scores with p1 := s.scores.p1 + 1 }
                else { s.scores with p2 := s.scores.p2 + 1 } : Scores).p1
              (if w.num = 1 then { s.scores with p1 := s.scores.p1 + 1 }
                else { s.scores with p2 := s.scores.p2 + 1 } : Scores).p2,
             Event.restartTimer 3000] } := by
      unfold winCheck
      simp only [hw, hlen, List.length_singleton, le_refl, and_self, if_true, hsc]
    unfold update
    rw [b1, b2, b3, hP, hwin]
    simp only
    refine ⟨?_, ?_, hwnum, trivial, trivial, ?_⟩
    · rcases hwnum with h | h <;> simp [h]
    · rcases hwnum with h | h <;> simp [h]
    · refine ⟨X ++ [Event.roundEnd w.num
              (if w.num = 1 then { s.scores with p1 := s.scores.p1 + 1 }
                else { s.scores with p2 := s.scores.p2 + 1 } : Scores).p1
              (if w.num = 1 then { s.scores with p1 := s.scores.p1 + 1 }
                else { s.scores with p2 := s.scores.p2 + 1 } : Scores).p2,
             Event.restartTimer 3000] ++ P ++ [Event.state], ?_, ?_⟩
      · rw [hX]; simp only [List.append_assoc]
      · simp only [List.filter_append, hXf, hPf]
        simp [List.filter, Event.isRoundEnd]
  · intro hnone
    have hwin : winCheck (deathCheck (preDeath rnd now clock s)) =
        { deathCheck (preDeath rnd now clock s) with
          gameOver := true, roundWinner := some 0,
          out := (deathCheck (preDeath rnd now clock s)).out ++
            [Event.roundEnd 0 s.scores.p1 s.scores.p2, Event.restartTimer 3000] } := by
      unfold winCheck
      simp only [hnone, hlen, List.length_nil, Nat.zero_le, and_self, if_true, hsc]
    unfold update
    rw [b1, b2, b3, hP, hwin]
    simp only
    refine ⟨hsc, trivial, trivial, ?_⟩
    refine ⟨X ++ [Event.roundEnd 0 s.scores.p1 s.scores.p2, Event.restartTimer 3000] ++ P ++
      [Event.state], ?_, ?_⟩
    · rw [hX]; simp only [List.append_assoc]
    · simp only [List.filter_append, hXf, hPf]
      simp [List.filter, Event.isRoundEnd]

/-- Witness of C2: at 4000 the bomb of `roundA` kills player 7 on `(1, 1)`, so
slot 2 wins and its score goes from 0 to 1; in `roundD` both players are in the
blast and the round is a draw. -/
theorem update_round_end_witness :
    (roundA.players.map (fun p => p.num) = [1, 2] ∧
     (deathCheck (preDeath rndZero 4000 (fun _ => 4000) roundA)).players.filter
        (fun p => p.alive) = [playerAt 9 2 13 11] ∧
     (update rndZero 4000 (fun _ => 4000) roundA).scores.p1 = 0 ∧
     (update rndZero 4000 (fun _ => 4000) roundA).scores.p2 = 1 ∧
     (update rndZero 4000 (fun _ => 4000) roundA).roundWinner = some 2) ∧
    (roundD.players.map (fun p => p.num) = [1, 2] ∧
     (deathCheck (preDeath rndZero 4000 (fun _ => 4000) roundD)).players.filter
        (fun p => p.alive) = [] ∧
     (update rndZero 4000 (fun _ => 4000) roundD).scores = roundD.scores ∧
     (update rndZero 4000 (fun _ => 4000) roundD).roundWinner = some 0) := by
  have hA : (deathCheck (preDeath rndZero 4000 (fun _ => 4000) roundA)).players.filter
      (fun p => p.alive) = [playerAt 9 2 13 11] := by with_unfolding_all decide
  have hD : (deathCheck (preDeath rndZero 4000 (fun _ => 4000) roundD)).players.filter
      (fun p => p.alive) = [] := by with_unfolding_all decide
  have h1 := (update_round_end rndZero 4000 (fun _ => 4000) roundA (by decide)).1
    (playerAt 9 2 13 11) hA
  have h2 := (update_round_end rndZero 4000 (fun _ => 4000) roundD (by decide)).2 hD
  exact ⟨⟨by decide, hA, h1.1, h1.2.1, h1.2.2.2.2.1⟩, ⟨by decide, hD, h2.1, h2.2.2.1⟩⟩

/-! ### C3 -/

/-- C3, on the code: `update` tests the win condition without reading
`gameOver`.  In `roundA` the step at 4000 ends the round, slot 2 winning 0 : 1;
the next step, at 4016, finds the round over and nevertheless adds 1 to the
score of slot 2 again, sends a second `roundEnd` message and arms a second
restart timer. -/
theorem update_scores_again_when_over :
    (tick rndZero 4000 roundA).gameOver = true ∧
    (tick rndZero 4000 roundA).roundWinner = some 2 ∧
    (tick rndZero 4000 roundA).scores = { p1 := 0, p2 := 1 } ∧
    (tick rndZero 4016 (tick rndZero 4000 roundA)).scores = { p1 := 0, p2 := 2 } ∧
    (tick rndZero 4016 (tick rndZero 4000 roundA)).out =
      (tick rndZero 4000 roundA).out ++
        [Event.roundEnd 2 0 2, Event.restartTimer 3000, Event.state] := by
  decide!

/-! ### C4 -/

/-- C4, on the code: in `roundAB` the bomb `bombA` precedes `bombB` in `bombs`
and the deadline of `bombB` (6000) is in the future at 4000.  The step at 4000
detonates `bombA`, whose right arm reaches `bombB` and sets its deadline to
4000; the scan then visits `bombB`, finds it due and detonates it in the same
call: its centre blast cell is emitted and the registry is empty after the
step.  With the two bombs in the other order (`roundBA`) `bombB` stays in the
registry with deadline 4000 and detonates in the next step. -/
theorem chain_detonates_in_same_step :
    roundAB.bombs = [bombA, bombB] ∧ 4000 < bombB.timer ∧
    (tick rndZero 4000 roundAB).bombs = [] ∧
    ({ x := 2, y := 1, endTime := 4500, kind := BlastKind.center } : Explosion) ∈
      (tick rndZero 4000 roundAB).explosions ∧
    (tick rndZero 4000 roundBA).bombs = [{ bombB with timer := 4000 }] ∧
    ({ x := 2, y := 1, endTime := 4500, kind := BlastKind.center } : Explosion) ∉
      (tick rndZero 4000 roundBA).explosions ∧
    (tick rndZero 4016 (tick rndZero 4000 roundBA)).bombs = [] := by
  decide!

/-! ### C5 -/

/-- C5: whatever the random draws, the grid made by `initGrid` has `ROWS` rows
of `COLS` cells, every cell of its outer ring is `WALL`, and every cell whose
coordinates are both even is `WALL`. -/
theorem initGrid_border_and_pillars (rnd : Nat → ℚ) (k : Nat) :
    (initGrid rnd k).1.length = ROWS ∧
    (∀ row ∈ (initGrid rnd k).1, row.length = COLS) ∧
    ∀ x y : Nat, x < COLS → y < ROWS →
      ((x = 0 ∨ x = COLS - 1 ∨ y = 0 ∨ y = ROWS - 1) →
        cellAt (initGrid rnd k).1 (x : Int) (y : Int) = some WALL) ∧
      ((x % 2 = 0 ∧ y % 2 = 0) →
        cellAt (initGrid rnd k).1 (x : Int) (y : Int) = some WALL) := by
  refine ⟨(initGrid_wf rnd k).1, (initGrid_wf rnd k).2, ?_⟩
  intro x y hx hy
  obtain ⟨j, hj⟩ := initGrid_cellAt rnd k x y hx hy
  rw [hj]
  constructor
  · intro hb
    rw [initCell, if_pos hb]
  · intro hp
    by_cases hb : x = 0 ∨ x = COLS - 1 ∨ y = 0 ∨ y = ROWS - 1
    · rw [initCell, if_pos hb]
    · rw [initCell, if_neg hb, if_pos hp]

/-- Witness of C5 at the corner `(0, 0)` and the pillar `(2, 2)` of the grid
drawn from the constant stream `0`. -/
theorem initGrid_border_and_pillars_witness :
    cellAt (initGrid (fun _ => 0) 0).1 0 0 = some WALL ∧
    cellAt (initGrid (fun _ => 0) 0).1 2 2 = some WALL :=
  ⟨((initGrid_border_and_pillars (fun _ => 0) 0).2.2 0 0 (by decide) (by decide)).1
      (Or.inl rfl),
   ((initGrid_border_and_pillars (fun _ => 0) 0).2.2 2 2 (by decide) (by decide)).2
      ⟨rfl, rfl⟩⟩

/-! ### C6 -/

/-- C6: in an update step of a state whose players have distinct keys, with `E`
the messages sent in the step: a player who is alive when the collision loop
starts and whose rounded position is that of a blast cell of the explosion set
at that moment is dead after the step, and `E` holds exactly one `playerDied`
message for its key, the one with its key and slot; a player who was dead
before the step is dead after it and `E` holds no `playerDied` message for its
key.  Over any run of input messages and update steps, at most one `playerDied`
message is sent for each key. -/
theorem update_death_once (rnd : Nat → ℚ) (now : Nat) (clock : Nat → Nat) (s : State)
    (hnd : (s.players.map (fun p => p.id)).Nodup) :
    (∃ E, (update rnd now clock s).out = s.out ++ E ∧
      (∀ p ∈ (preDeath rnd now clock s).players, p.alive = true →
        inBlast (preDeath rnd now clock s).explosions p = true →
          (∃ q ∈ (update rnd now clock s).players, q.id = p.id) ∧
          (∀ q ∈ (update rnd now clock s).players, q.id = p.id → q.alive = false) ∧
          Event.playerDied p.id p.num ∈ E ∧
          E.countP (Event.isDeathOf p.id) = 1) ∧
      (∀ p ∈ s.players, p.alive = false →
          (∀ q ∈ (update rnd now clock s).players, q.id = p.id → q.alive = false) ∧
          E.countP (Event.isDeathOf p.id) = 0)) ∧
    (∀ (acts : List Action) (id : Nat),
      ∃ E, (run rnd acts s).out = s.out ++ E ∧ E.countP (Event.isDeathOf id) ≤ 1) := by
  constructor
  · obtain ⟨hids, E, hE, hmem, hcount⟩ := update_deaths rnd now clock s
    refine ⟨E, hE, ?_, ?_⟩
    · intro p hp ha hb
      obtain ⟨hc1, hc2⟩ := hcount p.id
      have hle := aliveCount_le_one p.id s.players hnd
      have hpos : 0 < E.countP (Event.isDeathOf p.id) := by
        rw [hc1, List.countP_pos_iff]
        exact ⟨p, hp, by simp [ha, hb]⟩
      have h1 : E.countP (Event.isDeathOf p.id) = 1 := by omega
      have h0 : aliveCount p.id (update rnd now clock s).players = 0 := by omega
      refine ⟨?_, (aliveCount_eq_zero_iff _ _).mp h0, hmem p hp ha hb, h1⟩
      have hpid : p.id ∈ (update rnd now clock s).players.map (fun p => p.id) := by
        rw [hids, ← (preDeath_ids rnd now clock s).1]
        exact List.mem_map_of_mem (fun p => p.id) hp
      obtain ⟨q, hq, hqid⟩ := List.mem_map.mp hpid
      exact ⟨q, hq, hqid⟩
    · intro p hp hdead
      obtain ⟨_, hc2⟩ := hcount p.id
      have hz := aliveCount_zero_of_dead s.players p hp hdead hnd
      refine ⟨(aliveCount_eq_zero_iff _ _).mp (by omega), by omega⟩
  · intro acts id
    obtain ⟨_, E, hE, hc⟩ := run_deaths rnd id acts s
    have hle := aliveCount_le_one id s.players hnd
    exact ⟨E, hE, by omega⟩

/-- Witness of C6: the keys 7 and 9 of `roundA` are distinct; at 4000 player 7
stands on the bomb that detonates, so the step sends exactly one `playerDied`
message for the key 7, and the run of that step and the next one sends at most
one. -/
theorem update_death_once_witness :
    (roundA.players.map (fun p => p.id)).Nodup ∧
    (∃ E, (update rndZero 4000 (fun _ => 4000) roundA).out = roundA.out ++ E ∧
      E.countP (Event.isDeathOf 7) = 1) ∧
    (∃ E, (run rndZero [Action.update 4000 (fun _ => 4000),
        Action.update 4016 (fun _ => 4016)] roundA).out = roundA.out ++ E ∧
      E.countP (Event.isDeathOf 7) ≤ 1) := by
  obtain ⟨⟨E, hE, ha, _⟩, hrun⟩ :=
    update_death_once rndZero 4000 (fun _ => 4000) roundA (by decide)
  have h7 := ha { playerAt 7 1 1 1 with activeBombs := 0 } (by decide!) rfl (by decide!)
  exact ⟨by decide, ⟨E, hE, h7.2.2.2⟩, hrun _ 7⟩

/-! ### C7 -/

/-- C7: for an alive player `p` with the input `inp`, with `bombs` the registry
when the player loop of `update` at time `now` gets to `p`, and `r` the result
of the iteration of `p`: a bomb is added if and only if the bomb input is
true, the latch `bombKeyDown` is false, `activeBombs < maxBombs` and no bomb of
the registry sits on the rounded position of the player; the bomb added is the
last of the registry, sits on that rounded position, has owner `p.id`, radius
`p.fireRadius`, `planted = now`, `timer = now + 3000`, and `activeBombs` goes
up by exactly 1; otherwise the registry and `activeBombs` are unchanged.  The
player loop runs the iteration of each player on the registry left by the
players before it. -/
theorem updatePlayer_places_bomb (now : Nat) (g : Grid) (p : Player) (bombs : List Bomb)
    (inp : Input) (halive : p.alive = true) (hinp : p.input = some inp) :
    ((inp.bomb = true ∧ p.bombKeyDown = false ∧ p.activeBombs < p.maxBombs ∧
        ∀ b ∈ bombs, ¬ (b.x = jsRound (updatePlayer now g p bombs).1.x ∧
                        b.y = jsRound (updatePlayer now g p bombs).1.y)) →
      (updatePlayer now g p bombs).2 =
        bombs ++ [{ x := jsRound (updatePlayer now g p bombs).1.x,
                    y := jsRound (updatePlayer now g p bombs).1.y,
                    owner := p.id, radius := p.fireRadius,
                    timer := now + 3000, planted := now }] ∧
      (updatePlayer now g p bombs).1.activeBombs = p.activeBombs + 1) ∧
    (¬ (inp.bomb = true ∧ p.bombKeyDown = false ∧ p.activeBombs < p.maxBombs ∧
        ∀ b ∈ bombs, ¬ (b.x = jsRound (updatePlayer now g p bombs).1.x ∧
                        b.y = jsRound (updatePlayer now g p bombs).1.y)) →
      (updatePlayer now g p bombs).2 = bombs ∧
      (updatePlayer now g p bombs).1.activeBombs = p.activeBombs) ∧
    (∀ (ps1 ps2 : List Player) (b0 : List Bomb),
      (updatePlayers now g (ps1 ++ p :: ps2) b0).1 =
        (updatePlayers now g ps1 b0).1 ++
          (updatePlayer now g p (updatePlayers now g ps1 b0).2).1 ::
          (updatePlayers now g ps2
            (updatePlayer now g p (updatePlayers now g ps1 b0).2).2).1 ∧
      (updatePlayers now g (ps1 ++ p :: ps2) b0).2 =
        (updatePlayers now g ps2
          (updatePlayer now g p (updatePlayers now g ps1 b0).2).2).2) := by
  have hup : updatePlayer now g p bombs = placeBomb now inp (movePlayer g bombs inp p) bombs := by
    unfold updatePlayer
    rw [hinp]
    simp only [halive, Bool.true_eq_false, if_false]
  obtain ⟨m1, m2, m3, m4, m5, _⟩ := movePlayer_fields g bombs inp p
  obtain ⟨q1, q2, _⟩ := placeBomb_pos now inp (movePlayer g bombs inp p) bombs
  have hany : (bombs.any (fun b => decide (b.x = jsRound (movePlayer g bombs inp p).x ∧
      b.y = jsRound (movePlayer g bombs inp p).y)) = false) ↔
      ∀ b ∈ bombs, ¬ (b.x = jsRound (movePlayer g bombs inp p).x ∧
        b.y = jsRound (movePlayer g bombs inp p).y) := by
    rw [List.any_eq_false]
    constructor
    · intro h b hb; simpa using h b hb
    · intro h b hb; simpa using h b hb
  refine ⟨?_, ?_, fun ps1 ps2 b0 => updatePlayers_append now g ps1 p ps2 b0⟩
  · rw [hup, q1, q2]
    rintro ⟨hb, hk, hcap, hfree⟩
    unfold placeBomb
    rw [if_pos hb, if_pos ⟨by rw [m1]; exact hk, by rw [m2, m3]; exact hcap⟩]
    dsimp only
    rw [if_pos (hany.mpr hfree)]
    simp only [m5, m4, m2]
    exact ⟨trivial, trivial⟩
  · rw [hup, q1, q2]
    intro hnot
    unfold placeBomb
    dsimp only
    split_ifs with hb hcap hfree
    · exfalso
      apply hnot
      exact ⟨hb, by rw [← m1]; exact hcap.1, by rw [← m2, ← m3]; exact hcap.2,
        hany.mp hfree⟩
    · exact ⟨rfl, m2⟩
    · exact ⟨rfl, m2⟩
    · exact ⟨rfl, m2⟩

/-- Witness of C7: player 7 on its spawn cell, alive, with the bomb key down,
the latch clear and no bomb planted yet, in front of an empty registry, gets
the bomb on `(1, 1)` due at 4000. -/
theorem updatePlayer_places_bomb_witness :
    (updatePlayer 1000 brickGrid
      { playerAt 7 1 1 1 with input := some ⟨false, false, false, false, true⟩ } []).2 =
      [bombA] := by
  have h := (updatePlayer_places_bomb 1000 brickGrid
    { playerAt 7 1 1 1 with input := some ⟨false, false, false, false, true⟩ } []
    ⟨false, false, false, false, true⟩ rfl rfl).1
    ⟨rfl, rfl, by decide, fun b hb => by cases hb⟩
  rw [h.1]
  decide!

/-! ### C8 -/

/-- C8: after an update step the latch `bombKeyDown` of a player that was alive
and had a stored input equals the bomb flag of that input.  Hence, in any run
of update steps (with input messages in between) that starts with an update
step and in which the bomb flag of the stored input of the player under `id`
is true at every update step, the player loop of the first step adds at most
one bomb owned by `id` and the later steps add none, whatever `maxBombs` and
`activeBombs` become in the run. -/
theorem bomb_latch (rnd : Nat → ℚ) (now : Nat) (clock : Nat → Nat) (s : State) :
    (∀ (i : Nat) (p : Player) (inp : Input), s.players[i]? = some p → p.alive = true →
      p.input = some inp →
      ∃ q, (update rnd now clock s).players[i]? = some q ∧ q.id = p.id ∧
        q.bombKeyDown = inp.bomb) ∧
    (∀ (id : Nat) (rest : List Action), (s.players.map (fun p => p.id)).Nodup →
      bombHeld rnd id (Action.update now clock :: rest) s →
      ((placedInStep now s).filter (fun b => decide (b.owner = id))).length ≤ 1 ∧
      placedBy rnd id rest (update rnd now clock s) = [] ∧
      (placedBy rnd id (Action.update now clock :: rest) s).length ≤ 1) := by
  constructor
  · intro i p inp hp halive hinp
    obtain ⟨q, b, hq, hpose, _⟩ := update_getElem? rnd now clock s i p hp
    have h := (pose_eq_iff _ _).mp hpose
    refine ⟨q, hq, ?_, ?_⟩
    · rw [h.1, (updatePlayer_alive now s.grid p b).2.1]
    · rw [h.2.2.2.2.2.2.2.2.2.1, updatePlayer_latch now s.grid p b inp halive hinp]
  · intro id rest hnd hheld
    have hh : (∀ p ∈ s.players, p.id = id → bombFlag p = true) ∧
        bombHeld rnd id rest (update rnd now clock s) := hheld
    have h1 : ((placedInStep now s).filter (fun b => decide (b.owner = id))).length ≤ 1 :=
      le_trans (placedInStep_count now s id) (countP_id_le_one id s.players _ hnd)
    have h2 := placedBy_latched rnd id rest _
      (latched_after_update rnd now clock s id hh.1) hh.2
    refine ⟨h1, h2, ?_⟩
    show ((placedInStep now s).filter (fun b => decide (b.owner = id)) ++
      placedBy rnd id rest (update rnd now clock s)).length ≤ 1
    rw [h2, List.append_nil]
    exact h1

/-- Witness of C8: in `roundHold` player 7 holds the bomb key through the
update steps at 1000, 1016 and 1032; the latch is set after the first step,
the first step plants the bomb on `(1, 1)` and the two later steps plant
nothing for player 7. -/
theorem bomb_latch_witness :
    (roundHold.players.map (fun p => p.id)).Nodup ∧
    bombHeld rndZero 7
      [Action.update 1000 (fun _ => 1000), Action.update 1016 (fun _ => 1016),
       Action.update 1032 (fun _ => 1032)] roundHold ∧
    (∃ q, (update rndZero 1000 (fun _ => 1000) roundHold).players[0]? = some q ∧
      q.id = 7 ∧ q.bombKeyDown = true) ∧
    placedBy rndZero 7 [Action.update 1016 (fun _ => 1016), Action.update 1032 (fun _ => 1032)]
      (update rndZero 1000 (fun _ => 1000) roundHold) = [] := by
  have hheld : bombHeld rndZero 7
      [Action.update 1000 (fun _ => 1000), Action.update 1016 (fun _ => 1016),
       Action.update 1032 (fun _ => 1032)] roundHold := by
    refine ⟨by decide!, by decide!, by decide!, trivial⟩
  have h := bomb_latch rndZero 1000 (fun _ => 1000) roundHold
  exact ⟨by decide, hheld,
    h.1 0 { playerAt 7 1 1 1 with input := some ⟨false, false, false, false, true⟩ }
      ⟨false, false, false, false, true⟩ rfl rfl rfl,
    (h.2 7 _ (by decide) hheld).2.1⟩

/-! ### C9 -/

/-- C9 as stated fails: in `roundAB` the step reads the time 4000 and `explode`
reads 4001, one millisecond later; the bomb `bombA` at index 0 is due and is
collected and removed, and its centre blast cell expires at 4501, the time
`explode` read plus 500, not at 4500. -/
theorem expiry_follows_explode_clock :
    (playersPhase 4000 roundAB).bombs[0]? = some bombA ∧ bombA.timer ≤ 4000 ∧
    0 ∈ (updateScan rndZero 4000 (fun _ => 4001) roundAB).2 ∧
    (update rndZero 4000 (fun _ => 4001) roundAB).bombs.map (fun b => (b.x, b.y)) =
      [(2, 1)] ∧
    ({ x := 1, y := 1, endTime := 4000 + 500, kind := BlastKind.center } : Explosion) ∉
      (update rndZero 4000 (fun _ => 4001) roundAB).explosions ∧
    ({ x := 1, y := 1, endTime := 4001 + 500, kind := BlastKind.center } : Explosion) ∈
      (update rndZero 4000 (fun _ => 4001) roundAB).explosions := by
  decide!

/-- C9, amended: in the step `update rnd now clock s`, `now` being the time the
step reads and `clock idx` the time `explode` reads for the bomb at index `idx`,
with `updateScan rnd now clock s` the state and the array `explodedBombs` at the
end of the expiry scan and `playersPhase now s` the state the scan starts from:
an index is collected if and only if the deadline of its bomb is `≤ now` when
the scan visits it, which includes every bomb that is due when the scan starts
unless a detonation earlier in the scan read a time after `now`; every collected
bomb is detonated, its centre blast cell with expiry `clock idx + 500` being in
the explosion set at the end of the scan, and after the step when
`now < clock idx + 500`; when `explode` reads the time of the step that expiry is
`now + 500`; the registry after the step is the registry at the end of the scan
with the collected indices filtered out, the other bombs in their order, whoever
owns them, and the scan rewrites deadlines only; every player's `activeBombs`
drops by the number of removed bombs it owns. -/
theorem update_expiry (rnd : Nat → ℚ) (now : Nat) (clock : Nat → Nat) (s : State) :
    (∀ idx : Nat, idx ∈ (updateScan rnd now clock s).2 ↔
      ∃ b, (scanBombs rnd now clock idx (playersPhase now s)).1.bombs[idx]? = some b ∧
        b.timer ≤ now) ∧
    (∀ (idx : Nat) (b : Bomb), (playersPhase now s).bombs[idx]? = some b → b.timer ≤ now →
      (∀ j : Nat, j < idx → clock j ≤ now) → idx ∈ (updateScan rnd now clock s).2) ∧
    (∀ idx ∈ (updateScan rnd now clock s).2, ∀ b : Bomb,
      (playersPhase now s).bombs[idx]? = some b →
      ({ x := b.x, y := b.y, endTime := clock idx + 500,
         kind := BlastKind.center } : Explosion) ∈
        (updateScan rnd now clock s).1.explosions ∧
      (now < clock idx + 500 →
        ({ x := b.x, y := b.y, endTime := clock idx + 500,
           kind := BlastKind.center } : Explosion) ∈
          (update rnd now clock s).explosions)) ∧
    ((∀ idx : Nat, clock idx = now) →
      ∀ idx ∈ (updateScan rnd now clock s).2, ∀ b : Bomb,
        (playersPhase now s).bombs[idx]? = some b →
        ({ x := b.x, y := b.y, endTime := now + 500, kind := BlastKind.center } : Explosion) ∈
          (update rnd now clock s).explosions) ∧
    (update rnd now clock s).bombs =
      dropIdxsFrom 0 (updateScan rnd now clock s).2 (updateScan rnd now clock s).1.bombs ∧
    (updateScan rnd now clock s).1.bombs.map Bomb.core =
      (playersPhase now s).bombs.map Bomb.core ∧
    (∀ (i : Nat) (p : Player), (playersPhase now s).players[i]? = some p →
      ∃ q, (update rnd now clock s).players[i]? = some q ∧ q.id = p.id ∧
        q.activeBombs = p.activeBombs -
          (ownedBy p.id ((updateScan rnd now clock s).2.filterMap
            (fun idx => (updateScan rnd now clock s).1.bombs[idx]?)) : Int)) := by
  obtain ⟨hsorted, hmem⟩ := scanBombs_collected rnd now clock (playersPhase now s)
    (playersPhase now s).bombs.length
  obtain ⟨ht1, ht2, ht3⟩ := update_tail rnd now clock s
  have hlen : ∀ k, (scanBombs rnd now clock k (playersPhase now s)).1.bombs.length =
      (playersPhase now s).bombs.length := by
    intro k
    have := congrArg List.length (scanBombs_core rnd now clock (playersPhase now s) k)
    simpa using this
  have hiff : ∀ idx : Nat, idx ∈ (updateScan rnd now clock s).2 ↔
      ∃ b, (scanBombs rnd now clock idx (playersPhase now s)).1.bombs[idx]? = some b ∧
        b.timer ≤ now := by
    intro idx
    unfold updateScan
    rw [hmem]
    constructor
    · rintro ⟨_, h⟩; exact h
    · rintro ⟨b, hb, hdue⟩
      refine ⟨?_, b, hb, hdue⟩
      rw [← hlen idx]
      rcases Nat.lt_or_ge idx
        (scanBombs rnd now clock idx (playersPhase now s)).1.bombs.length with h | h
      · exact h
      · rw [List.getElem?_eq_none h] at hb; cases hb
  have hkept : ∀ idx ∈ (updateScan rnd now clock s).2, ∀ b : Bomb,
      (playersPhase now s).bombs[idx]? = some b →
      ({ x := b.x, y := b.y, endTime := clock idx + 500,
         kind := BlastKind.center } : Explosion) ∈
        (updateScan rnd now clock s).1.explosions ∧
      (now < clock idx + 500 →
        ({ x := b.x, y := b.y, endTime := clock idx + 500,
           kind := BlastKind.center } : Explosion) ∈
          (update rnd now clock s).explosions) := by
    intro idx hidx b hb
    have h1 := scanBombs_detonated rnd now clock (playersPhase now s)
      (playersPhase now s).bombs.length idx hidx b hb
    refine ⟨h1, ?_⟩
    intro hlate
    rw [ht3]
    unfold preDeath filterExplosions
    simp only
    rw [List.mem_filter]
    refine ⟨?_, decide_eq_true hlate⟩
    unfold removeExploded
    rw [foldl_removeBomb_explosions]
    exact h1
  refine ⟨hiff, ?_, hkept, ?_, ?_, ?_, ?_⟩
  · intro idx b hb hdue hclock
    rw [hiff]
    obtain ⟨c, hc, hct⟩ := scanBombs_timer rnd now clock (playersPhase now s) idx b hb idx
    refine ⟨c, hc, ?_⟩
    rcases hct with h | ⟨j, hj, h⟩
    · rw [h]; exact hdue
    · rw [h]; exact hclock j hj
  · intro hshared idx hidx b hb
    have h := (hkept idx hidx b hb).2
    rw [hshared idx] at h
    exact h (Nat.lt_add_of_pos_right (by decide))
  · rw [ht1]
    exact removeExploded_bombs _ _ hsorted
  · exact scanBombs_core rnd now clock (playersPhase now s) _
  · intro i p hp
    have h1 : (update rnd now clock s).players.map Player.idActive =
        (playersPhase now s).players.map (fun p => (p.id, p.activeBombs -
          (ownedBy p.id ((updateScan rnd now clock s).2.filterMap
            (fun idx => (updateScan rnd now clock s).1.bombs[idx]?)) : Int))) := by
      rw [ht2, removeExploded_idActive _ _ hsorted]
      have h2 := scanBombs_idActive rnd now clock (playersPhase now s)
        (playersPhase now s).bombs.length
      have h3 := congrArg (List.map (fun t : Nat × Int => (t.1, t.2 -
          (ownedBy t.1 ((updateScan rnd now clock s).2.filterMap
            (fun idx => (updateScan rnd now clock s).1.bombs[idx]?)) : Int)))) h2
      simp only [List.map_map] at h3
      exact h3
    obtain ⟨q, hq, hqp⟩ := getElem?_of_map_eq_map _ _ h1 i p hp
    simp only [Player.idActive, Prod.mk.injEq] at hqp
    exact ⟨q, hq, hqp.1, hqp.2⟩

/-- Witness of C9: in `roundAB`, the step reading 4000 and `explode` 4001, the
bomb `bombA` at index 0 is due; it is collected and its centre blast cell,
expiring at 4501, is in the explosion set after the step; when `explode` reads
4000 too, the cell expires at 4500. -/
theorem update_expiry_witness :
    (playersPhase 4000 roundAB).bombs[0]? = some bombA ∧ bombA.timer ≤ 4000 ∧
    0 ∈ (updateScan rndZero 4000 (fun _ => 4001) roundAB).2 ∧
    ({ x := 1, y := 1, endTime := 4501, kind := BlastKind.center } : Explosion) ∈
      (update rndZero 4000 (fun _ => 4001) roundAB).explosions ∧
    0 ∈ (updateScan rndZero 4000 (fun _ => 4000) roundAB).2 ∧
    ({ x := 1, y := 1, endTime := 4500, kind := BlastKind.center } : Explosion) ∈
      (update rndZero 4000 (fun _ => 4000) roundAB).explosions := by
  have hb : (playersPhase 4000 roundAB).bombs[0]? = some bombA := by decide!
  have h0 := (update_expiry rndZero 4000 (fun _ => 4001) roundAB).2.1 0 bombA hb (by decide)
    (fun j hj => absurd hj (Nat.not_lt_zero j))
  have h1 := (update_expiry rndZero 4000 (fun _ => 4000) roundAB).2.1 0 bombA hb (by decide)
    (fun j hj => absurd hj (Nat.not_lt_zero j))
  exact ⟨hb, by decide, h0,
    ((update_expiry rndZero 4000 (fun _ => 4001) roundAB).2.2.1 0 h0 bombA hb).2 (by decide),
    h1,
    (update_expiry rndZero 4000 (fun _ => 4000) roundAB).2.2.2.1 (fun _ => rfl) 0 h1 bombA hb⟩

/-! ### C10 -/

/-- C10 as stated fails: in `roundDead` player 7 is dead, half way to its
target `(2, 1)`, so the remaining distance on the x axis is `1/2 > 0.01`; the
update step at 5000 skips the dead player and its position does not move. -/
theorem dead_player_does_not_move :
    roundDead.players[0]? = some { walker with alive := false } ∧
    |((2 : Int) : ℚ) - 3 / 2| > 1 / 100 ∧
    (tick rndZero 5000 roundDead).players[0]? = some { walker with alive := false } ∧
    (3 / 2 : ℚ) ≠ 3 / 2 + jsSign (((2 : Int) : ℚ) - 3 / 2) *
      min walker.speed |((2 : Int) : ℚ) - 3 / 2| := by
  decide!

/-- C10, amended: for the player `p` at index `i` before an update step and the
player `q` at index `i` after it: if the step changes the target cell or the
facing, the position of `q` is exactly the target `p` had; and if `p` is alive
and has a stored input, then in a step in which the remaining distance exceeds
`1/100` on the x axis the target and the facing are unchanged whatever the
input, `y` is unchanged and `x` moves by `min speed distance` towards the
target, the distance shrinking by exactly that amount without the target being
passed (and shrinking strictly for a positive speed); the same holds on the y
axis when the distance on the x axis is at most `1/100` and the one on the y
axis exceeds `1/100`. -/
theorem update_movement (rnd : Nat → ℚ) (now : Nat) (clock : Nat → Nat) (s : State)
    (i : Nat) (p : Player) (hp : s.players[i]? = some p) :
    ∃ q, (update rnd now clock s).players[i]? = some q ∧
      ((q.targetX ≠ p.targetX ∨ q.targetY ≠ p.targetY ∨ q.dir ≠ p.dir) →
        q.x = p.targetX ∧ q.y = p.targetY) ∧
      (p.alive = true → p.input ≠ none →
        (|(p.targetX : ℚ) - p.x| > 1 / 100 →
          q.targetX = p.targetX ∧ q.targetY = p.targetY ∧ q.dir = p.dir ∧ q.y = p.y ∧
          q.x = p.x + jsSign ((p.targetX : ℚ) - p.x) * min p.speed |(p.targetX : ℚ) - p.x| ∧
          |(p.targetX : ℚ) - q.x| =
            |(p.targetX : ℚ) - p.x| - min p.speed |(p.targetX : ℚ) - p.x| ∧
          0 ≤ ((p.targetX : ℚ) - q.x) * ((p.targetX : ℚ) - p.x) ∧
          (0 < p.speed → |(p.targetX : ℚ) - q.x| < |(p.targetX : ℚ) - p.x|)) ∧
        (¬ |(p.targetX : ℚ) - p.x| > 1 / 100 → |(p.targetY : ℚ) - p.y| > 1 / 100 →
          q.targetX = p.targetX ∧ q.targetY = p.targetY ∧ q.dir = p.dir ∧ q.x = p.x ∧
          q.y = p.y + jsSign ((p.targetY : ℚ) - p.y) * min p.speed |(p.targetY : ℚ) - p.y| ∧
          |(p.targetY : ℚ) - q.y| =
            |(p.targetY : ℚ) - p.y| - min p.speed |(p.targetY : ℚ) - p.y| ∧
          0 ≤ ((p.targetY : ℚ) - q.y) * ((p.targetY : ℚ) - p.y) ∧
          (0 < p.speed → |(p.targetY : ℚ) - q.y| < |(p.targetY : ℚ) - p.y|))) := by
  obtain ⟨q, b, hq, hpose, _⟩ := update_getElem? rnd now clock s i p hp
  have hq' := (pose_eq_iff _ _).mp hpose
  obtain ⟨_, _, hx, hy, htx, hty, hdir, _⟩ := hq'
  refine ⟨q, hq, ?_, ?_⟩
  · -- a change of target or facing happens in the aligned branch only
    rw [hx, hy, htx, hty, hdir]
    by_cases hskip : p.alive = false ∨ p.input = none
    · rw [updatePlayer_skip now s.grid p b hskip]
      intro h
      rcases h with h | h | h <;> exact absurd rfl h
    · have halive : p.alive = true := by
        cases ha : p.alive with
        | false => exact absurd (Or.inl ha) hskip
        | true => rfl
      obtain ⟨inp, hinp⟩ : ∃ inp, p.input = some inp := by
        cases hi : p.input with
        | none => exact absurd (Or.inr hi) hskip
        | some inp => exact ⟨inp, rfl⟩
      rw [updatePlayer_eq_placeBomb now s.grid p b inp halive hinp]
      obtain ⟨q1, q2, q3, q4, q5, _⟩ := placeBomb_pos now inp (movePlayer s.grid b inp p) b
      rw [q1, q2, q3, q4, q5]
      rcases movePlayer_cases s.grid b inp p with ⟨_, h⟩ | ⟨_, _, h⟩ | ⟨_, _, h1, h2⟩
      · rw [h]
        intro hc
        rcases hc with hc | hc | hc <;> exact absurd rfl hc
      · rw [h]
        intro hc
        rcases hc with hc | hc | hc <;> exact absurd rfl hc
      · intro _
        exact ⟨h1, h2⟩
  · intro halive hinp
    obtain ⟨inp, hinp⟩ : ∃ inp, p.input = some inp := by
      cases hi : p.input with
      | none => exact absurd hi hinp
      | some inp => exact ⟨inp, rfl⟩
    rw [hx, hy, htx, hty, hdir, updatePlayer_eq_placeBomb now s.grid p b inp halive hinp]
    obtain ⟨q1, q2, q3, q4, q5, _⟩ := placeBomb_pos now inp (movePlayer s.grid b inp p) b
    rw [q1, q2, q3, q4, q5]
    constructor
    · intro hgt
      rcases movePlayer_cases s.grid b inp p with ⟨_, h⟩ | ⟨hn, _⟩ | ⟨hn, _⟩
      · rw [h]
        obtain ⟨a1, a2, a3⟩ := approach_target p.x (p.targetX : ℚ) p.speed hgt
        exact ⟨rfl, rfl, rfl, rfl, rfl, a1, a2, a3⟩
      · exact absurd hgt hn
      · exact absurd hgt hn
    · intro hnx hgt
      rcases movePlayer_cases s.grid b inp p with ⟨hx', _⟩ | ⟨_, _, h⟩ | ⟨_, hn, _⟩
      · exact absurd hx' hnx
      · rw [h]
        obtain ⟨a1, a2, a3⟩ := approach_target p.y (p.targetY : ℚ) p.speed hgt
        exact ⟨rfl, rfl, rfl, rfl, rfl, a1, a2, a3⟩
      · exact absurd hgt hn

/-- Witness of C10: in `roundWalk` player 7, alive, half way to `(2, 1)` with
speed `0.12`, moves from `x = 3/2` to `x = 81/50` and keeps its target. -/
theorem update_movement_witness :
    roundWalk.players[0]? = some walker ∧ walker.alive = true ∧ walker.input ≠ none ∧
    |(walker.targetX : ℚ) - walker.x| > 1 / 100 ∧
    ∃ q, (update rndZero 5000 (fun _ => 5000) roundWalk).players[0]? = some q ∧
      q.targetX = 2 ∧ q.x = 81 / 50 := by
  have hgt : |(walker.targetX : ℚ) - walker.x| > 1 / 100 := by decide!
  obtain ⟨q, hq, _, h2⟩ :=
    update_movement rndZero 5000 (fun _ => 5000) roundWalk 0 walker rfl
  have h3 := (h2 rfl (by decide)).1 hgt
  refine ⟨rfl, rfl, by decide, hgt, q, hq, h3.1, ?_⟩
  rw [h3.2.2.2.2.1]
  decide!

/-! ### C11 -/

/-- C11: for all integers `x`, `y`, every grid and every registry,
`canMoveTo(x, y)` is true if and only if `0 ≤ x < COLS`, `0 ≤ y < ROWS`, the
cell read at `(x, y)` is neither `WALL` nor `BRICK`, and no bomb of the
registry sits on `(x, y)`; it is a total function, false outside the bounds. -/
theorem canMoveTo_iff (g : Grid) (bombs : List Bomb) (x y : Int) :
    (canMoveTo g bombs x y = true ↔
      (0 ≤ x ∧ x < COLS ∧ 0 ≤ y ∧ y < ROWS) ∧
      cellAt g x y ≠ some WALL ∧ cellAt g x y ≠ some BRICK ∧
      ∀ b ∈ bombs, ¬ (b.x = x ∧ b.y = y)) ∧
    (¬ (0 ≤ x ∧ x < COLS ∧ 0 ≤ y ∧ y < ROWS) → canMoveTo g bombs x y = false) := by
  unfold canMoveTo
  by_cases hb : x < 0 ∨ x ≥ COLS ∨ y < 0 ∨ y ≥ ROWS
  · rw [if_pos hb]
    constructor
    · constructor
      · intro h; cases h
      · rintro ⟨h, _⟩; omega
    · intro _; rfl
  · rw [if_neg hb]
    have hin : 0 ≤ x ∧ x < COLS ∧ 0 ≤ y ∧ y < ROWS := by omega
    by_cases hc : cellAt g x y = some WALL ∨ cellAt g x y = some BRICK
    · rw [if_pos hc]
      constructor
      · constructor
        · intro h; cases h
        · rintro ⟨_, h1, h2, _⟩
          rcases hc with h | h
          · exact absurd h h1
          · exact absurd h h2
      · intro h; exact absurd hin h
    · rw [if_neg hc]
      have hc' : cellAt g x y ≠ some WALL ∧ cellAt g x y ≠ some BRICK :=
        ⟨fun h => hc (Or.inl h), fun h => hc (Or.inr h)⟩
      by_cases ha : bombs.any (fun b => decide (b.x = x ∧ b.y = y)) = true
      · rw [if_pos ha]
        constructor
        · constructor
          · intro h; cases h
          · rintro ⟨_, _, _, h⟩
            rw [List.any_eq_true] at ha
            obtain ⟨b, hb1, hb2⟩ := ha
            exact absurd (by simpa using hb2) (h b hb1)
        · intro h; exact absurd hin h
      · rw [if_neg ha]
        constructor
        · constructor
          · intro _
            refine ⟨hin, hc'.1, hc'.2, ?_⟩
            intro b hb1 hb2
            apply ha
            rw [List.any_eq_true]
            exact ⟨b, hb1, by simpa using hb2⟩
          · intro _; rfl
        · intro h; exact absurd hin h

/-- Witness of C11: on the grid of bricks with `bombA` on `(1, 1)`, the empty
cell `(2, 1)` can be moved to, and the cell `(-1, 0)` outside the bounds cannot. -/
theorem canMoveTo_iff_witness :
    canMoveTo brickGrid [bombA] 2 1 = true ∧ canMoveTo brickGrid [bombA] (-1) 0 = false :=
  ⟨(canMoveTo_iff brickGrid [bombA] 2 1).1.mpr
      ⟨by decide, by decide!, by decide!, by decide⟩,
   (canMoveTo_iff brickGrid [bombA] (-1) 0).2 (by decide)⟩

/-! ### C12 -/

/-- C12 as stated fails: `round1` is reachable (round start, player 7 asks to
go right, one update step); in it player 7 has just committed the target
`(2, 1)`, its `moving` flag is false and its position is still `(1, 1)`. -/
theorem not_moving_off_target :
    Reachable rndZero round1 ∧
    ∃ p ∈ round1.players, p.moving = false ∧ p.x = 1 ∧ p.targetX = 2 ∧
      p.x ≠ (p.targetX : ℚ) :=
  ⟨round1_reachable, by decide!⟩

/-- C12, amended: in every state reachable from a round start by input
messages and update steps, every player whose `moving` flag is false stands
exactly on a cell `(cx, cy)`, and its target is that cell or one of its four
neighbours (the target committed in the step that aligned it). -/
theorem not_moving_on_cell (rnd : Nat → ℚ) (s : State) (h : Reachable rnd s) :
    ∀ p ∈ s.players, p.moving = false →
      ∃ cx cy : Int, p.x = cx ∧ p.y = cy ∧
        ((p.targetX = cx ∧ p.targetY = cy) ∨
         (p.targetX = cx ∧ (p.targetY = cy - 1 ∨ p.targetY = cy + 1)) ∨
         (p.targetY = cy ∧ (p.targetX = cx - 1 ∨ p.targetX = cx + 1))) := by
  refine reachable_invariant rnd
    (fun s => ∀ p ∈ s.players, p.moving = false → p.onCell) ?_ ?_ ?_ s h
  · intro s0 s1 hstart q hq _
    obtain ⟨_, _, hmk⟩ := startGame_some rnd s0 s1 hstart
    obtain ⟨id, n, hc⟩ := hmk q hq
    obtain ⟨_, hx, hy, _⟩ := createPlayer_some id n q hc
    exact ⟨q.targetX, q.targetY, hx, hy, Or.inl ⟨rfl, rfl⟩⟩
  · intro s id msg hP q hq hm
    obtain ⟨p, hp, hpq | hpq⟩ := onInput_mem_pose id msg s q hq
    · subst hpq; exact hP q hp hm
    · subst hpq; exact hP p hp hm
  · intro s now clock hP q hq hm
    obtain ⟨p, hp, b, hpose⟩ := update_mem_pose rnd now clock s q hq
    obtain ⟨_, _, hx, hy, htx, hty, _, _, hmv, _⟩ := (pose_eq_iff _ _).mp hpose
    have := updatePlayer_onCell now s.grid p b (hP p hp) (by rw [← hmv]; exact hm)
    unfold Player.onCell at this ⊢
    rw [hx, hy, htx, hty]
    exact this

/-- Witness of C12: in the reachable state `round1` player 7 is not moving
and stands exactly on a cell. -/
theorem not_moving_on_cell_witness :
    Reachable rndZero round1 ∧
    ∃ p ∈ round1.players, p.id = 7 ∧ p.moving = false ∧
      ∃ cx cy : Int, p.x = cx ∧ p.y = cy := by
  have hp : ({ steerer with dir := 1, targetX := 2 } : Player) ∈ round1.players := by
    decide!
  obtain ⟨cx, cy, hx, hy, _⟩ := not_moving_on_cell rndZero round1 round1_reachable _ hp rfl
  exact ⟨round1_reachable, _, hp, rfl, rfl, cx, cy, hx, hy⟩

/-! ### C13 -/

/-- C13: in every state reachable from a round start by input messages and
update steps, the target cell of every player lies inside the bounds of the
grid and is neither `WALL` nor `BRICK`.  This rests on three facts, also
stated: the two spawn cells of a fresh grid are `EMPTY` whatever the draws; the
target after an iteration of the player loop is the old target or a cell that
`canMoveTo` accepted; and no update step turns a cell that is neither `WALL`
nor `BRICK` into one. -/
theorem target_is_free (rnd : Nat → ℚ) :
    (∀ s : State, Reachable rnd s → ∀ p ∈ s.players,
      (0 ≤ p.targetX ∧ p.targetX < COLS ∧ 0 ≤ p.targetY ∧ p.targetY < ROWS) ∧
      cellAt s.grid p.targetX p.targetY ≠ some WALL ∧
      cellAt s.grid p.targetX p.targetY ≠ some BRICK) ∧
    (∀ k : Nat, cellAt (initGrid rnd k).1 1 1 = some EMPTY ∧
      cellAt (initGrid rnd k).1 13 11 = some EMPTY) ∧
    (∀ (now : Nat) (g : Grid) (p : Player) (b : List Bomb),
      ((updatePlayer now g p b).1.targetX = p.targetX ∧
        (updatePlayer now g p b).1.targetY = p.targetY) ∨
      canMoveTo g b (updatePlayer now g p b).1.targetX (updatePlayer now g p b).1.targetY =
        true) ∧
    (∀ (s : State) (now : Nat) (clock : Nat → Nat) (x y : Int),
      cellAt s.grid x y ≠ some WALL ∧ cellAt s.grid x y ≠ some BRICK →
      cellAt (update rnd now clock s).grid x y ≠ some WALL ∧
      cellAt (update rnd now clock s).grid x y ≠ some BRICK) := by
  refine ⟨?_, initGrid_spawn rnd, updatePlayer_target,
    fun s now clock x y h => update_free rnd now clock s x y h⟩
  intro s hreach
  refine reachable_invariant rnd
    (fun s => ∀ p ∈ s.players,
      (0 ≤ p.targetX ∧ p.targetX < COLS ∧ 0 ≤ p.targetY ∧ p.targetY < ROWS) ∧
      freeCell s.grid p.targetX p.targetY) ?_ ?_ ?_ s hreach
  · intro s0 s1 hstart q hq
    obtain ⟨hg, _, hmk⟩ := startGame_some rnd s0 s1 hstart
    obtain ⟨id, n, hc⟩ := hmk q hq
    obtain ⟨_, _, _, _, htgt, _⟩ := createPlayer_some id n q hc
    obtain ⟨e1, e2⟩ := initGrid_spawn rnd s0.draws
    rw [hg]
    rcases htgt with ⟨h1, h2⟩ | ⟨h1, h2⟩
    · rw [h1, h2]
      refine ⟨by decide, ?_, ?_⟩ <;> rw [e1] <;> decide
    · rw [h1, h2]
      refine ⟨by decide, ?_, ?_⟩ <;> rw [e2] <;> decide
  · intro s id msg hP q hq
    have hgrid : (onInput id msg s).grid = s.grid := by
      unfold onInput
      split <;> rfl
    rw [hgrid]
    obtain ⟨p, hp, hpq | hpq⟩ := onInput_mem_pose id msg s q hq
    · subst hpq; exact hP q hp
    · subst hpq; exact hP p hp
  · intro s now clock hP q hq
    obtain ⟨p, hp, b, hpose⟩ := update_mem_pose rnd now clock s q hq
    obtain ⟨_, _, _, _, htx, hty, _⟩ := (pose_eq_iff _ _).mp hpose
    rw [htx, hty]
    rcases updatePlayer_target now s.grid p b with ⟨h1, h2⟩ | h
    · rw [h1, h2]
      exact ⟨(hP p hp).1, update_free rnd now clock s _ _ (hP p hp).2⟩
    · obtain ⟨hb, hf⟩ := canMoveTo_free _ _ _ _ h
      exact ⟨hb, update_free rnd now clock s _ _ hf⟩

/-- Witness of C13: in the reachable state `round1` the target `(2, 1)` of
player 7 is inside the bounds and is not `WALL`. -/
theorem target_is_free_witness :
    Reachable rndZero round1 ∧
    ({ steerer with dir := 1, targetX := 2 } : Player) ∈ round1.players ∧
    cellAt round1.grid 2 1 ≠ some WALL := by
  have hp : ({ steerer with dir := 1, targetX := 2 } : Player) ∈ round1.players := by
    decide!
  exact ⟨round1_reachable, hp,
    ((target_is_free rndZero).1 round1 round1_reachable _ hp).2.1⟩

/-! ### C14 -/

/-- C14 as stated fails: the cells `(0, 0)` and `(2, 2)` lie in the top-left
3×3 corner region of the grid of bricks and are `WALL`, the first as a cell of
the outer ring, the second as a pillar. -/
theorem corner_region_has_walls :
    cellAt (initGrid rndZero 0).1 0 0 = some WALL ∧
    cellAt (initGrid rndZero 0).1 2 2 = some WALL := by
  decide!

/-- C14, amended: whatever the random draws, no cell of the four 3×3 corner
regions of the grid made by `initGrid` is `BRICK`; the cells of these regions
on the outer ring or with both coordinates even are `WALL`, the others are
`EMPTY`. -/
theorem initGrid_corners (rnd : Nat → ℚ) (k : Nat) (x y : Nat) (hx : x < COLS)
    (hy : y < ROWS) (hcorner : (x ≤ 2 ∨ x ≥ COLS - 3) ∧ (y ≤ 2 ∨ y ≥ ROWS - 3)) :
    cellAt (initGrid rnd k).1 (x : Int) (y : Int) ≠ some BRICK ∧
    ((x = 0 ∨ x = COLS - 1 ∨ y = 0 ∨ y = ROWS - 1 ∨ (x % 2 = 0 ∧ y % 2 = 0)) →
      cellAt (initGrid rnd k).1 (x : Int) (y : Int) = some WALL) ∧
    (¬ (x = 0 ∨ x = COLS - 1 ∨ y = 0 ∨ y = ROWS - 1 ∨ (x % 2 = 0 ∧ y % 2 = 0)) →
      cellAt (initGrid rnd k).1 (x : Int) (y : Int) = some EMPTY) := by
  obtain ⟨j, hj⟩ := initGrid_cellAt rnd k x y hx hy
  rw [hj]
  have hc : (x ≤ 2 ∧ y ≤ 2) ∨ (x ≥ COLS - 3 ∧ y ≤ 2) ∨
      (x ≤ 2 ∧ y ≥ ROWS - 3) ∨ (x ≥ COLS - 3 ∧ y ≥ ROWS - 3) := by
    rcases hcorner with ⟨h1 | h1, h2 | h2⟩
    · exact Or.inl ⟨h1, h2⟩
    · exact Or.inr (Or.inr (Or.inl ⟨h1, h2⟩))
    · exact Or.inr (Or.inl ⟨h1, h2⟩)
    · exact Or.inr (Or.inr (Or.inr ⟨h1, h2⟩))
  by_cases hb : x = 0 ∨ x = COLS - 1 ∨ y = 0 ∨ y = ROWS - 1
  · have hw : (initCell rnd x y j).1 = WALL := by rw [initCell, if_pos hb]
    rw [hw]
    refine ⟨by decide, fun _ => rfl, ?_⟩
    intro h
    exfalso
    apply h
    rcases hb with h1 | h1 | h1 | h1
    · exact Or.inl h1
    · exact Or.inr (Or.inl h1)
    · exact Or.inr (Or.inr (Or.inl h1))
    · exact Or.inr (Or.inr (Or.inr (Or.inl h1)))
  · by_cases hp : x % 2 = 0 ∧ y % 2 = 0
    · have hw : (initCell rnd x y j).1 = WALL := by rw [initCell, if_neg hb, if_pos hp]
      rw [hw]
      refine ⟨by decide, fun _ => rfl, ?_⟩
      intro h
      exact absurd (Or.inr (Or.inr (Or.inr (Or.inr hp)))) h
    · have he : (initCell rnd x y j).1 = EMPTY := by
        rw [initCell, if_neg hb, if_neg hp, if_pos hc]
      rw [he]
      refine ⟨by decide, ?_, fun _ => rfl⟩
      intro h
      exfalso
      rcases h with h1 | h1 | h1 | h1 | h1
      · exact hb (Or.inl h1)
      · exact hb (Or.inr (Or.inl h1))
      · exact hb (Or.inr (Or.inr (Or.inl h1)))
      · exact hb (Or.inr (Or.inr (Or.inr h1)))
      · exact hp h1

/-- Witness of C14: the spawn cell `(13, 11)` of the bottom-right corner region
is `EMPTY` in the grid of bricks. -/
theorem initGrid_corners_witness :
    cellAt (initGrid rndZero 0).1 13 11 = some EMPTY :=
  (initGrid_corners rndZero 0 13 11 (by decide) (by decide) (by decide)).2.2 (by decide)

/-! ### C15 -/

/-- C15 as stated fails: in `roundAB` the bomb `bombB` on `(2, 1)` has radius
2; its left arm (index 3) emits the directional cell `(1, 1)` at step 1 and
stops at step 2 on the `WALL` cell `(0, 1)`; that last and only directional
cell of the arm does not carry the end flag. -/
theorem stopped_arm_has_no_end_flag :
    bombB.radius = 2 ∧ cellAt roundAB.grid 0 1 = some WALL ∧
    ((explode rndZero 4000 bombB roundAB).explosions.filter (Explosion.onArm 3) =
      [{ x := 1, y := 1, endTime := 4500, kind := BlastKind.arm 3 false }]) := by
  decide!

/-- C15, amended: every blast cell that `explode` appends expires at
`now + 500`; a directional cell with arm index `k` lies on a step `i` of the
arm of direction `dirs[k]`, with `1 ≤ i ≤ radius`, and carries the end flag if
and only if `i` is the radius. -/
theorem explode_flags (rnd : Nat → ℚ) (now : Nat) (bomb : Bomb) (s : State) :
    ∃ L, (explode rnd now bomb s).explosions = s.explosions ++ L ∧
      ∀ e ∈ L, e.endTime = now + 500 ∧
        ∀ (k : Nat) (isEnd : Bool), e.kind = BlastKind.arm k isEnd →
          ∃ d, dirs[k]? = some d ∧ ∃ i : Nat, 1 ≤ i ∧ i ≤ bomb.radius ∧
            (e.x, e.y) = armCell bomb d i ∧ (isEnd = true ↔ i = bomb.radius) := by
  obtain ⟨L, hL, hall⟩ := arms_kinds rnd now bomb dirs.enum
    { s with explosions := s.explosions ++
        [{ x := bomb.x, y := bomb.y, endTime := now + EXPLOSION_DURATION,
           kind := BlastKind.center }] }
  refine ⟨{ x := bomb.x, y := bomb.y, endTime := now + EXPLOSION_DURATION,
            kind := BlastKind.center } :: L, ?_, ?_⟩
  · show (checkPowerups _).explosions = _
    rw [checkPowerups_explosions, hL]
    simp
  · intro e he
    rcases List.mem_cons.mp he with h | h
    · subst h
      refine ⟨rfl, ?_⟩
      intro k isEnd hk
      cases hk
    · obtain ⟨h1, h2⟩ := hall e h
      refine ⟨h1, ?_⟩
      intro k isEnd hk
      rcases h2 with h2 | ⟨d, hd, j, hj1, hj2, hj3, hj4⟩
      · rw [h2] at hk; cases hk
      · rw [hj4] at hk
        simp only [BlastKind.arm.injEq] at hk
        obtain ⟨hk1, hk2⟩ := hk
        refine ⟨d.2, ?_, j, hj1, hj2, hj3, ?_⟩
        · rw [dirs_enum] at hd
          simp only [List.mem_cons, List.mem_singleton, List.not_mem_nil, or_false] at hd
          rcases hd with h' | h' | h' | h' <;> subst h' <;> subst hk1 <;> rfl
        · rw [← hk2]
          simp

/-- Witness of C15: every blast cell of the detonation of `bombA` at 4000 in
`roundA` expires at 4500. -/
theorem explode_flags_witness :
    ∃ L, (explode rndZero 4000 bombA roundA).explosions = roundA.explosions ++ L ∧
      ∀ e ∈ L, e.endTime = 4500 := by
  obtain ⟨L, hL, hall⟩ := explode_flags rndZero 4000 bombA roundA
  exact ⟨L, hL, fun e he => (hall e he).1⟩

/-! ### C16 -/

/-- C16: for an alive player `p` with the stored input `inp`, aligned with its
target (within the tolerance `1/100` of the code, so in particular when its
position is its target), standing after the players `ps1` in the list, and for
`q` the same player after one update step: there is one candidate cell
`(cx, cy)`, the target of `p` moved one cell in the direction of the first
true flag in the order up, down, left, right (the target itself when no flag is
true), and the facing of `q` is that direction (0, 2, 3, 1; unchanged when no
flag is true) whether or not the candidate is accepted; the target of `q` is
the candidate when `canMoveTo` accepts it on the registry the player loop has
when it gets to `p`, and the target of `p` otherwise; the position of `q` is
the target of `p`. -/
theorem update_steers (rnd : Nat → ℚ) (now : Nat) (clock : Nat → Nat) (s : State)
    (ps1 : List Player) (p : Player) (ps2 : List Player) (inp : Input)
    (hs : s.players = ps1 ++ p :: ps2) (halive : p.alive = true)
    (hinp : p.input = some inp)
    (hx : ¬ |(p.targetX : ℚ) - p.x| > 1 / 100) (hy : ¬ |(p.targetY : ℚ) - p.y| > 1 / 100) :
    ∃ q, (update rnd now clock s).players[ps1.length]? = some q ∧ q.id = p.id ∧
      ∃ cx cy : Int,
        (inp.up = true → cx = p.targetX ∧ cy = p.targetY - 1 ∧ q.dir = 0) ∧
        (inp.up = false → inp.down = true →
          cx = p.targetX ∧ cy = p.targetY + 1 ∧ q.dir = 2) ∧
        (inp.up = false → inp.down = false → inp.left = true →
          cx = p.targetX - 1 ∧ cy = p.targetY ∧ q.dir = 3) ∧
        (inp.up = false → inp.down = false → inp.left = false → inp.right = true →
          cx = p.targetX + 1 ∧ cy = p.targetY ∧ q.dir = 1) ∧
        (inp.up = false → inp.down = false → inp.left = false → inp.right = false →
          cx = p.targetX ∧ cy = p.targetY ∧ q.dir = p.dir) ∧
        (canMoveTo s.grid (updatePlayers now s.grid ps1 s.bombs).2 cx cy = true →
          q.targetX = cx ∧ q.targetY = cy) ∧
        (canMoveTo s.grid (updatePlayers now s.grid ps1 s.bombs).2 cx cy = false →
          q.targetX = p.targetX ∧ q.targetY = p.targetY) ∧
        q.x = p.targetX ∧ q.y = p.targetY := by
  obtain ⟨q, hq, hpose⟩ := update_pose_at rnd now clock s ps1 p ps2 hs
  have hq' := (pose_eq_iff _ _).mp hpose
  obtain ⟨hid, _, hqx, hqy, htx, hty, hdir, _⟩ := hq'
  rw [updatePlayer_eq_placeBomb now s.grid p _ inp halive hinp] at hid hqx hqy htx hty hdir
  obtain ⟨q1, q2, q3, q4, q5, _⟩ := placeBomb_pos now inp
    (movePlayer s.grid (updatePlayers now s.grid ps1 s.bombs).2 inp p)
    (updatePlayers now s.grid ps1 s.bombs).2
  rw [q1] at hqx
  rw [q2] at hqy
  rw [q3] at htx
  rw [q4] at hty
  rw [q5] at hdir
  obtain ⟨m1, m2, m3, m4, m5⟩ :=
    movePlayer_aligned s.grid (updatePlayers now s.grid ps1 s.bombs).2 inp p hx hy
  obtain ⟨s1, s2, s3, s4, s5⟩ := steer_cases inp p.targetX p.targetY p.dir
  refine ⟨q, hq, ?_, (steer inp p.targetX p.targetY p.dir).1,
    (steer inp p.targetX p.targetY p.dir).2.1, ?_, ?_, ?_, ?_, ?_, ?_, ?_, ?_, ?_⟩
  · rw [hid, (placeBomb_alive now inp _ _).2.1, (movePlayer_alive _ _ inp p).2.1]
  · intro h
    rw [hdir, m3, s1 h]
    exact ⟨rfl, rfl, rfl⟩
  · intro h1 h2
    rw [hdir, m3, s2 h1 h2]
    exact ⟨rfl, rfl, rfl⟩
  · intro h1 h2 h3
    rw [hdir, m3, s3 h1 h2 h3]
    exact ⟨rfl, rfl, rfl⟩
  · intro h1 h2 h3 h4
    rw [hdir, m3, s4 h1 h2 h3 h4]
    exact ⟨rfl, rfl, rfl⟩
  · intro h1 h2 h3 h4
    rw [hdir, m3, s5 h1 h2 h3 h4]
    exact ⟨rfl, rfl, rfl⟩
  · intro h
    rw [htx, hty]
    exact m4 h
  · intro h
    rw [htx, hty]
    exact m5 h
  · rw [hqx, m1]
  · rw [hqy, m2]

/-- Witness of C16: in `roundSteer` player 7, aligned on `(1, 1)`, asks to go
right; the cell `(2, 1)` is free, so after the step it faces right (1), its
target is `(2, 1)` and its position is still `(1, 1)`. -/
theorem update_steers_witness :
    ∃ q, (update rndZero 1000 (fun _ => 1000) roundSteer).players[0]? = some q ∧
      q.dir = 1 ∧ q.targetX = 2 ∧ q.targetY = 1 ∧ q.x = 1 ∧ q.y = 1 := by
  obtain ⟨q, hq, _, cx, cy, _, _, _, h4, _, h6, _, h8, h9⟩ :=
    update_steers rndZero 1000 (fun _ => 1000) roundSteer [] steerer [playerAt 9 2 13 11]
      ⟨false, false, false, true, false⟩ rfl rfl rfl (by decide!) (by decide!)
  obtain ⟨hcx, hcy, hdir⟩ := h4 rfl rfl rfl rfl
  have hc : canMoveTo roundSteer.grid
      (updatePlayers 1000 roundSteer.grid [] roundSteer.bombs).2 cx cy = true := by
    rw [hcx, hcy]
    decide!
  obtain ⟨h6a, h6b⟩ := h6 hc
  refine ⟨q, hq, hdir, ?_, ?_, ?_, ?_⟩
  · rw [h6a, hcx]; decide
  · rw [h6b, hcy]; decide
  · rw [h8]; decide!
  · rw [h9]; decide!

/-! ### C17 -/

/-- C17: when the loop of an arm, at step `i`, finds the cell `(nx, ny)` inside
the bounds holding `BRICK`, with `u1 = rnd s.draws` and `u2 = rnd (s.draws + 1)`
the next two draws: the arm stops there, exactly one blast cell, marked as
brick destruction, is appended for the cell, and the cell no longer holds
`BRICK`: it holds `EMPTY` when `u1 ≥ 0.25` (one draw consumed), and when
`u1 < 0.25` (two draws consumed) it holds `POWERUP_BOMB` for `u2 < 0.45`,
`POWERUP_FIRE` for `0.45 ≤ u2 < 0.80` and `POWERUP_SPEED` for `u2 ≥ 0.80`.  The
thresholds cut `[0, 1)` into intervals of length 0.45, 0.35 and 0.20 for the
three types, and a powerup appears on an interval of length 0.25. -/
theorem arm_destroys_brick (rnd : Nat → ℚ) (now : Nat) (bomb : Bomb) (dx dy : Int)
    (dirIdx n i : Nat) (s : State)
    (hin : 0 ≤ bomb.x + dx * i ∧ bomb.x + dx * i < COLS ∧
      0 ≤ bomb.y + dy * i ∧ bomb.y + dy * i < ROWS)
    (hcell : cellAt s.grid (bomb.x + dx * i) (bomb.y + dy * i) = some BRICK) :
    (armLoop rnd now bomb dx dy dirIdx (n + 1) i s).explosions =
      s.explosions ++ [{ x := bomb.x + dx * i, y := bomb.y + dy * i, endTime := now + 500,
                         kind := BlastKind.brick }] ∧
    cellAt (armLoop rnd now bomb dx dy dirIdx (n + 1) i s).grid
      (bomb.x + dx * i) (bomb.y + dy * i) ≠ some BRICK ∧
    (rnd s.draws ≥ 25 / 100 →
      cellAt (armLoop rnd now bomb dx dy dirIdx (n + 1) i s).grid
        (bomb.x + dx * i) (bomb.y + dy * i) = some EMPTY ∧
      (armLoop rnd now bomb dx dy dirIdx (n + 1) i s).draws = s.draws + 1) ∧
    (rnd s.draws < 25 / 100 →
      (armLoop rnd now bomb dx dy dirIdx (n + 1) i s).draws = s.draws + 2 ∧
      (rnd (s.draws + 1) < 45 / 100 →
        cellAt (armLoop rnd now bomb dx dy dirIdx (n + 1) i s).grid
          (bomb.x + dx * i) (bomb.y + dy * i) = some POWERUP_BOMB) ∧
      (45 / 100 ≤ rnd (s.draws + 1) → rnd (s.draws + 1) < 80 / 100 →
        cellAt (armLoop rnd now bomb dx dy dirIdx (n + 1) i s).grid
          (bomb.x + dx * i) (bomb.y + dy * i) = some POWERUP_FIRE) ∧
      (80 / 100 ≤ rnd (s.draws + 1) →
        cellAt (armLoop rnd now bomb dx dy dirIdx (n + 1) i s).grid
          (bomb.x + dx * i) (bomb.y + dy * i) = some POWERUP_SPEED)) ∧
    ((45 / 100 : ℚ) - 0 = 45 / 100 ∧ (80 / 100 : ℚ) - 45 / 100 = 35 / 100 ∧
      (1 : ℚ) - 80 / 100 = 20 / 100 ∧ (25 / 100 : ℚ) - 0 = 25 / 100) := by
  have hstep : armLoop rnd now bomb dx dy dirIdx (n + 1) i s =
      destroyBrick rnd (now + EXPLOSION_DURATION) (bomb.x + dx * i) (bomb.y + dy * i) s := by
    rw [armLoop_succ, if_neg (by omega), if_neg (by rw [hcell]; decide), if_pos hcell]
  have he : cellAt (setCell s.grid (bomb.x + dx * i) (bomb.y + dy * i) EMPTY)
      (bomb.x + dx * i) (bomb.y + dy * i) = some EMPTY :=
    cellAt_setCell_eq _ _ _ _ _ hcell
  rw [hstep]
  refine ⟨destroyBrick_explosions _ _ _ _ _, ?_, ?_, ?_, by norm_num⟩
  · unfold destroyBrick
    dsimp only
    split
    · rw [cellAt_setCell_eq _ _ _ _ _ he]
      split_ifs <;> decide
    · rw [he]; decide
  · intro hu1
    unfold destroyBrick
    dsimp only
    rw [if_neg (not_lt.mpr hu1)]
    exact ⟨he, rfl⟩
  · intro hu1
    unfold destroyBrick
    dsimp only
    rw [if_pos hu1]
    refine ⟨rfl, ?_, ?_, ?_⟩
    · intro hu2
      simp only
      rw [cellAt_setCell_eq _ _ _ _ _ he, if_pos hu2]
    · intro hu2 hu3
      simp only
      rw [cellAt_setCell_eq _ _ _ _ _ he, if_neg (not_lt.mpr hu2), if_pos (by linarith)]
    · intro hu2
      simp only
      rw [cellAt_setCell_eq _ _ _ _ _ he, if_neg (not_lt.mpr (by linarith)),
        if_neg (not_lt.mpr (by linarith))]

/-- Witness of C17: the right arm of `bombA` in `roundA` finds the brick
`(3, 1)` at step 2; both draws of `rndZero` are 0, so the cell becomes
`POWERUP_BOMB`. -/
theorem arm_destroys_brick_witness :
    cellAt (armLoop rndZero 4000 bombA 1 0 1 1 2 roundA).grid 3 1 = some POWERUP_BOMB := by
  have h := (arm_destroys_brick rndZero 4000 bombA 1 0 1 0 2 roundA (by decide)
    (by decide!)).2.2.2.1 (by decide!)
  exact h.2.1 (by decide!)

/-! ### C18 -/

/-- C18: in every state reached from a round start by inputs and update steps,
every player has `1 ≤ maxBombs ≤ 5`, `2 ≤ fireRadius ≤ 6` and
`0.12 ≤ speed ≤ 0.18`, the speed (an exact decimal) being `0.12` raised by at most
four increments of `0.015`.  One pass of the pickup loop body for a living player
on a powerup cell whose ability is below its cap raises that ability alone by one
increment, clears the cell to Empty and emits the `powerup` event; when the
ability is at its cap, or the cell holds no powerup, player and grid are left as
they were, so the powerup stays on the grid. -/
theorem abilities_capped (rnd : Nat → ℚ) :
    (∀ s : State, Reachable rnd s → ∀ p ∈ s.players,
      1 ≤ p.maxBombs ∧ p.maxBombs ≤ 5 ∧ 2 ≤ p.fireRadius ∧ p.fireRadius ≤ 6 ∧
      12 / 100 ≤ p.speed ∧ p.speed ≤ 18 / 100 ∧
      ∃ k : Nat, k ≤ 4 ∧ p.speed = 12 / 100 + (k : ℚ) * (15 / 1000)) ∧
    (∀ (g : Grid) (p : Player), p.alive = true →
      (cellAt g (jsRound p.x) (jsRound p.y) = some POWERUP_BOMB →
        (p.maxBombs < 5 →
          pickup g p = ({ p with maxBombs := p.maxBombs + 1 },
            setCell g (jsRound p.x) (jsRound p.y) EMPTY,
            [Event.powerup PowerupName.bomb p.num]) ∧
          cellAt (pickup g p).2.1 (jsRound p.x) (jsRound p.y) = some EMPTY) ∧
        (¬ p.maxBombs < 5 → pickup g p = (p, g, []))) ∧
      (cellAt g (jsRound p.x) (jsRound p.y) = some POWERUP_FIRE →
        (p.fireRadius < 6 →
          pickup g p = ({ p with fireRadius := p.fireRadius + 1 },
            setCell g (jsRound p.x) (jsRound p.y) EMPTY,
            [Event.powerup PowerupName.fire p.num]) ∧
          cellAt (pickup g p).2.1 (jsRound p.x) (jsRound p.y) = some EMPTY) ∧
        (¬ p.fireRadius < 6 → pickup g p = (p, g, []))) ∧
      (cellAt g (jsRound p.x) (jsRound p.y) = some POWERUP_SPEED →
        (p.speed < 18 / 100 →
          pickup g p = ({ p with speed := p.speed + 15 / 1000 },
            setCell g (jsRound p.x) (jsRound p.y) EMPTY,
            [Event.powerup PowerupName.speed p.num]) ∧
          cellAt (pickup g p).2.1 (jsRound p.x) (jsRound p.y) = some EMPTY) ∧
        (¬ p.speed < 18 / 100 → pickup g p = (p, g, []))) ∧
      (cellAt g (jsRound p.x) (jsRound p.y) ≠ some POWERUP_BOMB →
        cellAt g (jsRound p.x) (jsRound p.y) ≠ some POWERUP_FIRE →
        cellAt g (jsRound p.x) (jsRound p.y) ≠ some POWERUP_SPEED →
        pickup g p = (p, g, []))) := by
  constructor
  · intro s hs
    have hinv : ∀ p ∈ s.players, p.abilOK := by
      refine reachable_invariant rnd (fun s => ∀ p ∈ s.players, p.abilOK) ?_ ?_ ?_ s hs
      · intro s0 s1 h01 p hp
        obtain ⟨_, _, hps⟩ := startGame_some rnd s0 s1 h01
        obtain ⟨i, n, hc⟩ := hps p hp
        obtain ⟨_, _, _, _, _, e1, e2, e3, _⟩ := createPlayer_some i n p hc
        unfold Player.abilOK
        rw [e1, e2, e3]
        exact ⟨le_refl _, by decide, le_refl _, by decide, 0, by decide, by norm_num⟩
      · intro s id msg h
        exact onInput_all Player.abilOK (fun p _ hp => hp) id msg s h
      · intro s now clock h
        refine update_all Player.abilOK rnd now clock s ?_ pickup_abilOK
          (fun p hp => hp) (fun p hp => hp) h
        intro p b hp
        obtain ⟨e1, e2, e3⟩ := updatePlayer_abilities now s.grid p b
        unfold Player.abilOK
        rw [e1, e2, e3]
        exact hp
    intro p hp
    obtain ⟨h1, h2, h3, h4, k, hk, hsp⟩ := hinv p hp
    refine ⟨h1, h2, h3, h4, ?_, ?_, k, hk, hsp⟩
    · rw [hsp]
      have : (0 : ℚ) ≤ (k : ℚ) := Nat.cast_nonneg k
      linarith
    · rw [hsp]
      have : (k : ℚ) ≤ 4 := by exact_mod_cast hk
      linarith
  · intro g p halive
    have hal : ¬ p.alive = false := by rw [halive]; decide
    have hne1 : some POWERUP_BOMB ≠ some POWERUP_FIRE := by decide
    have hne2 : some POWERUP_BOMB ≠ some POWERUP_SPEED := by decide
    have hne3 : some POWERUP_FIRE ≠ some POWERUP_SPEED := by decide
    have hclear : ∀ c : Nat, cellAt g (jsRound p.x) (jsRound p.y) = some c →
        cellAt (setCell g (jsRound p.x) (jsRound p.y) EMPTY) (jsRound p.x) (jsRound p.y) =
          some EMPTY := by
      intro c hc
      rw [cellAt_setCell_self, hc]
      rfl
    refine ⟨?_, ?_, ?_, ?_⟩
    · intro hcell
      constructor
      · intro hlt
        have e : pickup g p = ({ p with maxBombs := p.maxBombs + 1 },
            setCell g (jsRound p.x) (jsRound p.y) EMPTY,
            [Event.powerup PowerupName.bomb p.num]) := by
          unfold pickup
          dsimp only
          rw [if_neg hal, if_pos ⟨hcell, hlt⟩]
        refine ⟨e, ?_⟩
        rw [e]
        exact hclear _ hcell
      · intro hge
        unfold pickup
        dsimp only
        rw [if_neg hal, if_neg (fun h => hge h.2), if_neg (fun h => hne1 (hcell ▸ h.1)),
          if_neg (fun h => hne2 (hcell ▸ h.1))]
    · intro hcell
      constructor
      · intro hlt
        have e : pickup g p = ({ p with fireRadius := p.fireRadius + 1 },
            setCell g (jsRound p.x) (jsRound p.y) EMPTY,
            [Event.powerup PowerupName.fire p.num]) := by
          unfold pickup
          dsimp only
          rw [if_neg hal, if_neg (fun h => hne1 (h.1.symm.trans hcell)),
            if_pos ⟨hcell, hlt⟩]
        refine ⟨e, ?_⟩
        rw [e]
        exact hclear _ hcell
      · intro hge
        unfold pickup
        dsimp only
        rw [if_neg hal, if_neg (fun h => hne1 (h.1.symm.trans hcell)),
          if_neg (fun h => hge h.2), if_neg (fun h => hne3 (hcell ▸ h.1))]
    · intro hcell
      constructor
      · intro hlt
        have e : pickup g p = ({ p with speed := p.speed + 15 / 1000 },
            setCell g (jsRound p.x) (jsRound p.y) EMPTY,
            [Event.powerup PowerupName.speed p.num]) := by
          unfold pickup
          dsimp only
          rw [if_neg hal, if_neg (fun h => hne2 (h.1.symm.trans hcell)),
            if_neg (fun h => hne3 (h.1.symm.trans hcell)), if_pos ⟨hcell, hlt⟩]
        refine ⟨e, ?_⟩
        rw [e]
        exact hclear _ hcell
      · intro hge
        unfold pickup
        dsimp only
        rw [if_neg hal, if_neg (fun h => hne2 (h.1.symm.trans hcell)),
          if_neg (fun h => hne3 (h.1.symm.trans hcell)), if_neg (fun h => hge h.2)]
    · intro n1 n2 n3
      unfold pickup
      dsimp only
      rw [if_neg hal, if_neg (fun h => n1 h.1), if_neg (fun h => n2 h.1),
        if_neg (fun h => n3 h.1)]

/-- Witness of C18: player 7 of the reachable state `round1` is within the caps,
and on `bonusGrid` the fresh player 7 picks the bomb powerup of its cell up. -/
theorem abilities_capped_witness :
    Reachable rndZero round1 ∧
    ({ steerer with dir := 1, targetX := 2 } : Player) ∈ round1.players ∧
    ({ steerer with dir := 1, targetX := 2 } : Player).maxBombs ≤ 5 ∧
    (playerAt 7 1 1 1).alive = true ∧
    cellAt bonusGrid (jsRound (playerAt 7 1 1 1).x) (jsRound (playerAt 7 1 1 1).y) =
      some POWERUP_BOMB ∧
    (playerAt 7 1 1 1).maxBombs < 5 ∧
    cellAt (pickup bonusGrid (playerAt 7 1 1 1)).2.1
      (jsRound (playerAt 7 1 1 1).x) (jsRound (playerAt 7 1 1 1).y) = some EMPTY := by
  have hp : ({ steerer with dir := 1, targetX := 2 } : Player) ∈ round1.players := by
    decide!
  have hc : cellAt bonusGrid (jsRound (playerAt 7 1 1 1).x) (jsRound (playerAt 7 1 1 1).y) =
      some POWERUP_BOMB := by decide!
  have hl : (playerAt 7 1 1 1).maxBombs < 5 := by decide
  exact ⟨round1_reachable, hp,
    ((abilities_capped rndZero).1 round1 round1_reachable _ hp).2.1, rfl, hc, hl,
    ((((abilities_capped rndZero).2 bonusGrid (playerAt 7 1 1 1) rfl).1 hc).1 hl).2⟩

/-! ### C19 -/

/-- C19: in every state reached from a round start by inputs and update steps no
two bombs of the registry are on the same cell.  The update step keeps this from
any state, and so does the player loop alone, whatever the players ask for: a
request for a cell that already holds a bomb, such as the one a player earlier in
the same loop has just planted, leaves the registry as it is. -/
theorem bombs_on_distinct_cells (rnd : Nat → ℚ) :
    (∀ s : State, Reachable rnd s →
      s.bombs.Pairwise (fun a c => ¬ (a.x = c.x ∧ a.y = c.y))) ∧
    (∀ (s : State) (now : Nat) (clock : Nat → Nat),
      s.bombs.Pairwise (fun a c => ¬ (a.x = c.x ∧ a.y = c.y)) →
      (update rnd now clock s).bombs.Pairwise (fun a c => ¬ (a.x = c.x ∧ a.y = c.y))) ∧
    (∀ (now : Nat) (g : Grid) (ps : List Player) (b : List Bomb),
      b.Pairwise (fun a c => ¬ (a.x = c.x ∧ a.y = c.y)) →
      (updatePlayers now g ps b).2.Pairwise (fun a c => ¬ (a.x = c.x ∧ a.y = c.y))) ∧
    (∀ (now : Nat) (inp : Input) (p : Player) (b : List Bomb),
      (∃ a ∈ b, a.x = jsRound p.x ∧ a.y = jsRound p.y) →
      (placeBomb now inp p b).2 = b) := by
  refine ⟨?_, ?_, ?_, ?_⟩
  · refine reachable_invariant rnd
      (fun s => s.bombs.Pairwise (fun a c => ¬ (a.x = c.x ∧ a.y = c.y))) ?_ ?_ ?_
    · intro s0 s1 h
      obtain ⟨_, hb, _⟩ := startGame_some rnd s0 s1 h
      show s1.bombs.Pairwise _
      rw [hb]
      exact List.Pairwise.nil
    · intro s id msg h
      show (onInput id msg s).bombs.Pairwise _
      rw [onInput_bombs]
      exact h
    · intro s now clock h
      exact update_distinct rnd now clock s h
  · intro s now clock h
    exact update_distinct rnd now clock s h
  · intro now g ps b h
    exact updatePlayers_distinct now g ps b h
  · intro now inp p b h
    obtain ⟨a, ha, hxy⟩ := h
    have hany : b.any (fun b => decide (b.x = jsRound p.x ∧ b.y = jsRound p.y)) = true := by
      rw [List.any_eq_true]
      exact ⟨a, ha, decide_eq_true hxy⟩
    unfold placeBomb
    dsimp only
    split_ifs with h1 h2 h3
    · rw [hany] at h3
      cases h3
    · rfl
    · rfl
    · rfl

/-- Witness of C19: in `roundTwin` both players ask for a bomb on the cell
`(1, 1)`; the player loop plants the bomb of player 7 alone. -/
theorem bombs_on_distinct_cells_witness :
    (playersPhase 1000 roundTwin).bombs =
      [{ x := 1, y := 1, owner := 7, radius := 2, timer := 4000, planted := 1000 }] ∧
    (updatePlayers 1000 roundTwin.grid roundTwin.players []).2.Pairwise
      (fun a c => ¬ (a.x = c.x ∧ a.y = c.y)) ∧
    Reachable rndZero round1 ∧
    round1.bombs.Pairwise (fun a c => ¬ (a.x = c.x ∧ a.y = c.y)) :=
  ⟨by decide!,
   (bombs_on_distinct_cells rndZero).2.2.1 1000 roundTwin.grid roundTwin.players []
     List.Pairwise.nil,
   round1_reachable,
   (bombs_on_distinct_cells rndZero).1 round1 round1_reachable⟩

/-! ### C20 -/

/-- C20: in every state reached from a round start by inputs and update steps,
the keys of `players` being distinct (they are the keys of an object), the
`activeBombs` of every player is the number of bombs of the registry it owns,
and `0 ≤ activeBombs ≤ maxBombs`. -/
theorem active_bombs_counted (rnd : Nat → ℚ) (s : State) (hr : Reachable rnd s)
    (hn : (s.players.map (fun p => p.id)).Nodup) :
    ∀ p ∈ s.players,
      p.activeBombs = (ownedBy p.id s.bombs : Int) ∧
      0 ≤ p.activeBombs ∧ p.activeBombs ≤ (p.maxBombs : Int) := by
  have hinv := reachable_invariant rnd
    (fun s => ((s.players.map (fun p => p.id)).Nodup →
        ∀ p ∈ s.players, p.activeBombs = (ownedBy p.id s.bombs : Int)) ∧
      ∀ p ∈ s.players, p.activeBombs ≤ (p.maxBombs : Int)) ?_ ?_ ?_ s hr
  · intro p hp
    have h1 := hinv.1 hn p hp
    refine ⟨h1, ?_, hinv.2 p hp⟩
    rw [h1]
    exact Int.ofNat_nonneg _
  · intro s0 s1 h
    obtain ⟨_, hb, hps⟩ := startGame_some rnd s0 s1 h
    constructor
    · intro _ p hp
      obtain ⟨i, n, hc⟩ := hps p hp
      obtain ⟨_, _, _, _, _, _, _, _, e4⟩ := createPlayer_some i n p hc
      rw [e4, hb]
      rfl
    · intro p hp
      obtain ⟨i, n, hc⟩ := hps p hp
      obtain ⟨_, _, _, _, _, e1, _, _, e4⟩ := createPlayer_some i n p hc
      rw [e4, e1]
      decide
  · intro s id msg h
    constructor
    · intro hn' q hq
      rw [(onInput_fields id msg s).1] at hn'
      rw [onInput_bombs]
      obtain ⟨p, hp, hpq | hpq⟩ := onInput_mem_pose id msg s q hq
      · rw [hpq]; exact h.1 hn' p hp
      · rw [hpq]; exact h.1 hn' p hp
    · exact onInput_all (fun p => p.activeBombs ≤ (p.maxBombs : Int))
        (fun p _ hp => hp) id msg s h.2
  · intro s now clock h
    constructor
    · intro hn'
      rw [(update_deaths rnd now clock s).1] at hn'
      exact update_owned rnd now clock s hn' (h.1 hn')
    · exact update_within rnd now clock s h.2

/-- Witness of C20: in the reachable state `round2` player 7 has planted one
bomb; the keys 7 and 9 are distinct, and each bomb count is the number of bombs
owned. -/
theorem active_bombs_counted_witness :
    Reachable rndZero round2 ∧
    (round2.players.map (fun p => p.id)).Nodup ∧
    round2.bombs.map (fun b => b.owner) = [7] ∧
    round2.players.map (fun p => p.activeBombs) = [1, 0] ∧
    ∀ p ∈ round2.players,
      p.activeBombs = (ownedBy p.id round2.bombs : Int) ∧
      0 ≤ p.activeBombs ∧ p.activeBombs ≤ (p.maxBombs : Int) :=
  ⟨⟨lobby, round0, _, round0_start, rfl⟩, by decide!, by decide!, by decide!,
   active_bombs_counted rndZero round2 ⟨lobby, round0, _, round0_start, rfl⟩ (by decide!)⟩

end Bomberman
